import Mathlib

/-!
# TopoJSON reader (`ogr/ogrsf_frmts/geojson/ogrtopojsonreader.cpp`)

A shallow embedding of the arc/ring decoder, the geometry builders, the
schema discovery pass and the transform resolver of `OGRTopoJSONReader`,
followed by theorems about them.

Conventions of the embedding.

* A `json_object *` is a value of `Json`; the C null pointer and the JSON
  literal `null` are the same thing in json-c and both are `Json.null`.
* C `double` values are modelled by exact rationals.  The theorems on the
  shape of decoded lines use no law of arithmetic, and the running sum of an
  arc is stated as the left fold its accumulator computes.
* The field precedence graph is declared outside the reader and is modelled
  from the specification; an edge that would close a cycle is not recorded,
  so that the order returned at sealing holds every field, as the reader
  asserts.
* Array lengths and point counts are natural numbers; the `int` variables of
  the source that hold them are integers without wrap-around.  Values read
  with `json_object_get_int` are saturated to 32 bits as json-c does.
* An `OGRLineString` is the list of its 2D points.
-/

namespace TopoJSON

/-! ## JSON values (json-c) -/

/-- A parsed JSON value.  Objects keep their members in document order. -/
inductive Json where
  | null
  | bool (b : Bool)
  | double (d : ℚ)
  | int (n : Int)
  | object (members : List (String × Json))
  | array (items : List Json)
  | string (s : String)

/-- The json-c type tags. -/
inductive json_type where
  | json_type_null
  | json_type_bool
  | json_type_double
  | json_type_int
  | json_type_object
  | json_type_array
  | json_type_string
  deriving DecidableEq, Repr

open json_type

/-- Type tag of a value; a null pointer has tag `json_type_null`. -/
def json_object_get_type : Json → json_type
  | .null => json_type_null
  | .bool _ => json_type_bool
  | .double _ => json_type_double
  | .int _ => json_type_int
  | .object _ => json_type_object
  | .array _ => json_type_array
  | .string _ => json_type_string

/-- Number of items of an array (0 for any other value). -/
def json_object_array_length : Json → Nat
  | .array items => items.length
  | _ => 0

/-- Item `idx` of an array; null when out of bounds or not an array. -/
def json_object_array_get_idx : Json → Nat → Json
  | .array items, idx => items.getD idx Json.null
  | _, _ => Json.null

/-- Numeric value of a JSON number as a double. -/
def json_object_get_double : Json → ℚ
  | .double d => d
  | .int n => (n : ℚ)
  | _ => 0

def INT32_MIN : Int := -2147483648

def INT32_MAX : Int := 2147483647

/-- Value of a JSON integer as a C `int`, saturating at the 32-bit bounds. -/
def json_object_get_int : Json → Int
  | .int n => if n ≤ INT32_MIN then INT32_MIN else if INT32_MAX ≤ n then INT32_MAX else n
  | _ => 0

/-! ## Scaling parameters and line strings -/

structure ScalingParams where
  dfScale0 : ℚ
  dfScale1 : ℚ
  dfTranslate0 : ℚ
  dfTranslate1 : ℚ
  bElementExists : Bool
  deriving DecidableEq, Repr

/-- A 2D point `(x, y)`. -/
abbrev OGRRawPoint := ℚ × ℚ

/-- A line string (or linear ring) is the list of its points. -/
abbrev OGRLineString := List OGRRawPoint

/-- Modelled from the spec: `OGRLineString::getNumPoints` (OGR core, outside
the reader): the number of points of the target line buffer. -/
def getNumPoints (poLS : OGRLineString) : Int := (poLS.length : Int)

/-- Modelled from the spec: `OGRLineString::setNumPoints` (OGR core, outside
the reader): reserve space in the line buffer, new points being zero
initialised; a smaller count truncates. -/
def setNumPoints (poLS : OGRLineString) (nNewPointCount : Int) : OGRLineString :=
  poLS.take nNewPointCount.toNat ++
    List.replicate (nNewPointCount.toNat - poLS.length) ((0, 0) : OGRRawPoint)

/-- Modelled from the spec: `OGRLineString::setPoint` (OGR core, outside the
reader): write one position of the line buffer, growing the buffer with zero
points when the position is past its end.  A negative position is never
passed by the decoder and leaves the buffer as it is. -/
def setPoint (poLS : OGRLineString) (iPoint : Int) (x y : ℚ) : OGRLineString :=
  if iPoint < 0 then poLS
  else if getNumPoints poLS ≤ iPoint then
    (setNumPoints poLS (iPoint + 1)).set iPoint.toNat (x, y)
  else poLS.set iPoint.toNat (x, y)

/-! ## ParsePoint -/

/-- The `ParsePoint` function: `some (x, y)` when it returns `true` with the
outputs set, `none` when it returns `false`. -/
def ParsePoint (poPoint : Json) : Option (ℚ × ℚ) :=
  if json_object_get_type poPoint = json_type_array ∧
      json_object_array_length poPoint = 2 then
    let poX := json_object_array_get_idx poPoint 0
    let poY := json_object_array_get_idx poPoint 1
    if (json_object_get_type poX = json_type_int ∨
          json_object_get_type poX = json_type_double) ∧
        (json_object_get_type poY = json_type_int ∨
          json_object_get_type poY = json_type_double) then
      some (json_object_get_double poX, json_object_get_double poY)
    else none
  else none

/-! ## ParseArc -/

/-- The variables of `ParseArc` that change in its loop. -/
structure ArcLoopState where
  poLS : OGRLineString
  dfAccX : ℚ
  dfAccY : ℚ
  nBaseIndice : Int
  nPoints : Nat

/-- Outcome of one pass through a loop body: go on with the next index
(normal end of the body or `continue`), or leave the loop (`break`). -/
inductive LoopCtl where
  | next (st : ArcLoopState)
  | brk (st : ArcLoopState)

/-- The write at the end of the loop body of `ParseArc` (lines 161-166). -/
def ParseArcWrite (bReverse : Bool) (i : Nat) (st : ArcLoopState) (dfX dfY : ℚ) :
    ArcLoopState :=
  if !bReverse then
    { st with poLS := setPoint st.poLS (st.nBaseIndice + (i : Int)) dfX dfY }
  else
    { st with poLS := setPoint st.poLS (st.nBaseIndice + (st.nPoints : Int) - 1 - (i : Int))
                        dfX dfY }

/-- One pass through the loop body of `ParseArc` at index `i` (lines 123-167). -/
def ParseArcBody (poArcDB : Json) (bReverse : Bool) (psParams : ScalingParams)
    (i : Nat) (st : ArcLoopState) : LoopCtl :=
  match ParsePoint (json_object_array_get_idx poArcDB i) with
  | none => LoopCtl.next st
  | some (dfX0, dfY0) =>
    let st1 : ArcLoopState :=
      if psParams.bElementExists then
        { st with dfAccX := st.dfAccX + dfX0, dfAccY := st.dfAccY + dfY0 }
      else st
    let dfX : ℚ :=
      if psParams.bElementExists then st1.dfAccX * psParams.dfScale0 + psParams.dfTranslate0
      else dfX0 * psParams.dfScale0 + psParams.dfTranslate0
    let dfY : ℚ :=
      if psParams.bElementExists then st1.dfAccY * psParams.dfScale1 + psParams.dfTranslate1
      else dfY0 * psParams.dfScale1 + psParams.dfTranslate1
    if i = 0 then
      if !bReverse && decide (getNumPoints st1.poLS > 0) then
        LoopCtl.next
          { st1 with
            poLS := setNumPoints st1.poLS (st1.nBaseIndice + (st1.nPoints : Int) - 1)
            nBaseIndice := st1.nBaseIndice - 1 }
      else if bReverse && decide (getNumPoints st1.poLS > 0) then
        let st2 : ArcLoopState :=
          { st1 with
            poLS := setNumPoints st1.poLS (st1.nBaseIndice + (st1.nPoints : Int) - 1)
            nPoints := st1.nPoints - 1 }
        if st2.nPoints = 0 then LoopCtl.brk st2
        else LoopCtl.next (ParseArcWrite bReverse i st2 dfX dfY)
      else
        let st2 : ArcLoopState :=
          { st1 with poLS := setNumPoints st1.poLS (st1.nBaseIndice + (st1.nPoints : Int)) }
        LoopCtl.next (ParseArcWrite bReverse i st2 dfX dfY)
    else LoopCtl.next (ParseArcWrite bReverse i st1 dfX dfY)

/-- The loop `for (i = 0; i < nPoints; i++)` of `ParseArc`, from index `i`.
`nPoints` only decreases, so the loop makes at most as many passes as the arc
has items; `fuel` is that bound. -/
def ParseArcLoop (poArcDB : Json) (bReverse : Bool) (psParams : ScalingParams) :
    Nat → Nat → ArcLoopState → OGRLineString
  | 0, _, st => st.poLS
  | fuel + 1, i, st =>
    if i < st.nPoints then
      match ParseArcBody poArcDB bReverse psParams i st with
      | LoopCtl.next st1 => ParseArcLoop poArcDB bReverse psParams fuel (i + 1) st1
      | LoopCtl.brk st1 => st1.poLS
    else st.poLS

/-- The `ParseArc` function: the line after decoding arc `nArcID` of the arc
store onto it. -/
def ParseArc (poLS : OGRLineString) (poArcsDB : Json) (nArcID : Int) (bReverse : Bool)
    (psParams : ScalingParams) : OGRLineString :=
  let poArcDB := if nArcID < 0 then Json.null else json_object_array_get_idx poArcsDB nArcID.toNat
  if json_object_get_type poArcDB ≠ json_type_array then poLS
  else
    let nPoints := json_object_array_length poArcDB
    ParseArcLoop poArcDB bReverse psParams nPoints 0
      { poLS := poLS, dfAccX := 0, dfAccY := 0, nBaseIndice := getNumPoints poLS,
        nPoints := nPoints }

/-! ## ParseLineString -/

/-- The decoding of a signed arc reference (lines 188-193): the arc index and
the direction flag. -/
def decodeArcId (nArcId : Int) : Int × Bool :=
  if nArcId < 0 then (-(nArcId + 1), true) else (nArcId, false)

/-- One pass through the loop body of `ParseLineString` for the ring item
`poArcId`. -/
def ParseLineStringBody (poArcsDB : Json) (psParams : ScalingParams)
    (poLS : OGRLineString) (poArcId : Json) : OGRLineString :=
  if json_object_get_type poArcId = json_type_int then
    let r := decodeArcId (json_object_get_int poArcId)
    if r.1 < (json_object_array_length poArcsDB : Int) then
      ParseArc poLS poArcsDB r.1 r.2 psParams
    else poLS
  else poLS

/-- The items of an array, in order (none for any other value): what the
loops `for (i = 0; i < json_object_array_length(a); i++)` over
`json_object_array_get_idx(a, i)` visit. -/
def arrayItems : Json → List Json
  | .array items => items
  | _ => []

/-- The `ParseLineString` function: the line after decoding every reference
of the ring onto it. -/
def ParseLineString (poLS : OGRLineString) (poRing : Json) (poArcsDB : Json)
    (psParams : ScalingParams) : OGRLineString :=
  (arrayItems poRing).foldl (ParseLineStringBody poArcsDB psParams) poLS

/-! ## ParsePolygon, ParseMultiLineString, ParseMultiPolygon -/

/-- A polygon is the list of its rings, exterior ring first. -/
abbrev OGRPolygon := List OGRLineString

/-- Modelled from the spec: `OGRLinearRing::closeRings` (OGR core, outside the
reader): forced closure of a ring, which appends the start point if it is not
already equal to the end point. -/
def closeRings (poLR : OGRLineString) : OGRLineString :=
  match poLR.head?, poLR.getLast? with
  | some a, some b => if a = b then poLR else poLR ++ [a]
  | _, _ => poLR

/-- The ring `ParsePolygon` builds from one item of the arcs array (lines
212-220): the decoded line, empty when the item is not an array, after forced
closure. -/
def closedRingOf (poArcsDB : Json) (psParams : ScalingParams) (poRing : Json) : OGRLineString :=
  closeRings
    (if json_object_get_type poRing = json_type_array then
      ParseLineString [] poRing poArcsDB psParams
    else [])

/-- One pass through the loop body of `ParsePolygon`: the ring is discarded
when it has fewer than 4 points and added to the polygon otherwise. -/
def ParsePolygonBody (poArcsDB : Json) (psParams : ScalingParams) (poPoly : OGRPolygon)
    (poRing : Json) : OGRPolygon :=
  let poLR := closedRingOf poArcsDB psParams poRing
  if getNumPoints poLR < 4 then poPoly else poPoly ++ [poLR]

/-- The `ParsePolygon` function: the polygon after adding the rings of the
arcs array to it. -/
def ParsePolygon (poPoly : OGRPolygon) (poArcsObj : Json) (poArcsDB : Json)
    (psParams : ScalingParams) : OGRPolygon :=
  (arrayItems poArcsObj).foldl (ParsePolygonBody poArcsDB psParams) poPoly

/-- One pass through the loop body of `ParseMultiLineString`: a new line is
added to the collection and decoded when the item is an array. -/
def ParseMultiLineStringBody (poArcsDB : Json) (psParams : ScalingParams)
    (poMLS : List OGRLineString) (poRing : Json) : List OGRLineString :=
  poMLS ++ [if json_object_get_type poRing = json_type_array then
      ParseLineString [] poRing poArcsDB psParams
    else []]

/-- The `ParseMultiLineString` function. -/
def ParseMultiLineString (poMLS : List OGRLineString) (poArcsObj : Json) (poArcsDB : Json)
    (psParams : ScalingParams) : List OGRLineString :=
  (arrayItems poArcsObj).foldl (ParseMultiLineStringBody poArcsDB psParams) poMLS

/-- Modelled from the spec: `OGRPolygon::IsEmpty` (OGR core, outside the
reader): a polygon is empty when it has no ring with points, in particular
when it is left with zero rings. -/
def IsEmpty (poPoly : OGRPolygon) : Bool := poPoly.all List.isEmpty

/-- The polygon `ParseMultiPolygon` builds from one item of its arcs array
(lines 268-275): empty when the item is not an array. -/
def polygonOf (poArcsDB : Json) (psParams : ScalingParams) (poPolyArcs : Json) : OGRPolygon :=
  if json_object_get_type poPolyArcs = json_type_array then
    ParsePolygon [] poPolyArcs poArcsDB psParams
  else []

/-- One pass through the loop body of `ParseMultiPolygon`: an empty polygon
is deleted, any other is added to the multipolygon. -/
def ParseMultiPolygonBody (poArcsDB : Json) (psParams : ScalingParams)
    (poMultiPoly : List OGRPolygon) (poPolyArcs : Json) : List OGRPolygon :=
  let poPoly := polygonOf poArcsDB psParams poPolyArcs
  if IsEmpty poPoly then poMultiPoly else poMultiPoly ++ [poPoly]

/-- The `ParseMultiPolygon` function. -/
def ParseMultiPolygon (poMultiPoly : List OGRPolygon) (poArcsObj : Json) (poArcsDB : Json)
    (psParams : ScalingParams) : List OGRPolygon :=
  (arrayItems poArcsObj).foldl (ParseMultiPolygonBody poArcsDB psParams) poMultiPoly

/-! ## Object members and the transform of ReadLayers -/

/-- Modelled from the spec: `OGRGeoJSONFindMemberByName` (declared in
`ogrgeojsonutils.h`, outside the reader): the member of an object with the
given name, null when the value is not an object or has no such member.  The
members of an object of a parsed tree have distinct names. -/
def OGRGeoJSONFindMemberByName : Json → String → Json
  | .object members, pszName =>
    match members.find? (fun kv => kv.1 == pszName) with
    | some kv => kv.2
    | none => Json.null
  | _, _ => Json.null

/-- The values `ReadLayers` gives the scaling parameters before it looks at
the transform member (lines 646-651): the identity transform, absent. -/
def identityParams : ScalingParams :=
  { dfScale0 := 1, dfScale1 := 1, dfTranslate0 := 0, dfTranslate1 := 0,
    bElementExists := false }

/-- The scaling parameters `ReadLayers` resolves from the document (lines
646-700). -/
def ReadLayersTransform (poGJObject : Json) : ScalingParams :=
  let sParams := identityParams
  let poObjTransform := OGRGeoJSONFindMemberByName poGJObject "transform"
  if json_object_get_type poObjTransform = json_type_object then
    let poObjScale := OGRGeoJSONFindMemberByName poObjTransform "scale"
    let sParams1 :=
      if json_object_get_type poObjScale = json_type_array ∧
          json_object_array_length poObjScale = 2 then
        let poScale0 := json_object_array_get_idx poObjScale 0
        let poScale1 := json_object_array_get_idx poObjScale 1
        if (json_object_get_type poScale0 = json_type_double ∨
              json_object_get_type poScale0 = json_type_int) ∧
            (json_object_get_type poScale1 = json_type_double ∨
              json_object_get_type poScale1 = json_type_int) then
          { sParams with
            dfScale0 := json_object_get_double poScale0
            dfScale1 := json_object_get_double poScale1
            bElementExists := true }
        else sParams
      else sParams
    let poObjTranslate := OGRGeoJSONFindMemberByName poObjTransform "translate"
    if json_object_get_type poObjTranslate = json_type_array ∧
        json_object_array_length poObjTranslate = 2 then
      let poTranslate0 := json_object_array_get_idx poObjTranslate 0
      let poTranslate1 := json_object_array_get_idx poObjTranslate 1
      if (json_object_get_type poTranslate0 = json_type_double ∨
            json_object_get_type poTranslate0 = json_type_int) ∧
          (json_object_get_type poTranslate1 = json_type_double ∨
            json_object_get_type poTranslate1 = json_type_int) then
        { sParams1 with
          dfTranslate0 := json_object_get_double poTranslate0
          dfTranslate1 := json_object_get_double poTranslate1
          bElementExists := true }
      else sParams1
    else sParams1
  else sParams

/-! ## Schema discovery: EstablishLayerDefn and the field precedence graph -/

/-- The field types the reader distinguishes here. -/
inductive OGRFieldType where
  | OFTInteger
  | OFTReal
  | OFTString
  deriving DecidableEq, Repr

/-- A field descriptor: name and inferred type. -/
structure OGRFieldDefn where
  name : String
  eType : OGRFieldType
  deriving DecidableEq, Repr

/-- Modelled from the spec: `gdal::DirectedAcyclicGraph<int, std::string>`
(declared outside the reader): the field precedence graph, a directed graph
over field indices.  `nodes` lists the nodes in the order they were first
added (discovery order), `names` their names, `edges` the recorded edges. -/
structure DirectedAcyclicGraph where
  nodes : List Nat
  names : List (Nat × String)
  edges : List (Nat × Nat)
  deriving DecidableEq, Repr

/-- Modelled from the spec: `DirectedAcyclicGraph::addNode`: a node is
recorded at its first sighting, with its name. -/
def DirectedAcyclicGraph.addNode (dag : DirectedAcyclicGraph) (i : Nat) (s : String) :
    DirectedAcyclicGraph :=
  { dag with
    nodes := if i ∈ dag.nodes then dag.nodes else dag.nodes ++ [i]
    names := (i, s) :: dag.names.filter (fun p => p.1 != i) }

/-- A node has no remaining incoming constraint. -/
def noIncoming (edges : List (Nat × Nat)) (n : Nat) : Bool :=
  edges.all (fun e => e.2 != n)

/-- The loop of the topological sort over the remaining nodes (in discovery
order) and the remaining edges: the earliest discovered node with no
remaining incoming constraint is chosen, and its outgoing edges are removed.
Each pass removes a node, so `fuel` need not exceed the number of nodes. -/
def topologicalLoop : Nat → List Nat → List (Nat × Nat) → List Nat
  | 0, _, _ => []
  | fuel + 1, nodes, edges =>
    match nodes.find? (noIncoming edges) with
    | none => []
    | some n => n :: topologicalLoop fuel (nodes.erase n) (edges.filter (fun e => e.1 != n))

/-- Whether a list of edges over the nodes of the graph has no cycle: the
topological loop outputs every node. -/
def DirectedAcyclicGraph.admitsOrder (dag : DirectedAcyclicGraph) (edges : List (Nat × Nat)) :
    Bool :=
  (topologicalLoop dag.nodes.length dag.nodes edges).length == dag.nodes.length

/-- Modelled from the spec: `DirectedAcyclicGraph::addEdge`: the edge `i → j`
is recorded the first time it is seen; duplicate edges are not re-added.  An
edge that would close a cycle, a self-loop `i → i` included, is not recorded
either: the graph stays acyclic, as its name says, so that the order returned
at sealing holds every node, as the assertion
`sortedFields.size() == apoFieldDefn.size()` of the reader (lines 539, 739
and 773) states.  Section 9 of the specification leaves the handling of such
an edge open. -/
def DirectedAcyclicGraph.addEdge (dag : DirectedAcyclicGraph) (i j : Nat) :
    DirectedAcyclicGraph :=
  if (i, j) ∈ dag.edges then dag
  else if dag.admitsOrder (dag.edges ++ [(i, j)]) then
    { dag with edges := dag.edges ++ [(i, j)] }
  else dag

/-- Modelled from the spec: `DirectedAcyclicGraph::getTopologicalOrdering`
(section 4.4, `seal()`): a topological order of the precedence graph, nodes
with no remaining incoming constraint chosen first and, among ties, the node
discovered earliest. -/
def DirectedAcyclicGraph.getTopologicalOrdering (dag : DirectedAcyclicGraph) : List Nat :=
  topologicalLoop dag.nodes.length dag.nodes dag.edges

/-- The schema-building state of one scope: `oMapFieldNameToIdx`,
`apoFieldDefn` and `dag`. -/
structure SchemaScope where
  oMapFieldNameToIdx : List (String × Nat)
  apoFieldDefn : List OGRFieldDefn
  dag : DirectedAcyclicGraph
  deriving DecidableEq, Repr

/-- Modelled from the spec: the initial type inferred for a new field from
the first value seen (external type-inference routine). -/
def GeoJSONPropertyToFieldType : Json → OGRFieldType
  | .int _ => OGRFieldType.OFTInteger
  | .bool _ => OGRFieldType.OFTInteger
  | .double _ => OGRFieldType.OFTReal
  | _ => OGRFieldType.OFTString

/-- Modelled from the spec: the external type-widening routine, which adjusts
the type of an existing field when a new value is observed. -/
def widenFieldType (eType : OGRFieldType) (poVal : Json) : OGRFieldType :=
  match poVal with
  | .null => eType
  | _ =>
    if GeoJSONPropertyToFieldType poVal = eType then eType
    else if (eType = OGRFieldType.OFTInteger ∧
          GeoJSONPropertyToFieldType poVal = OGRFieldType.OFTReal) ∨
        (eType = OGRFieldType.OFTReal ∧
          GeoJSONPropertyToFieldType poVal = OGRFieldType.OFTInteger) then
      OGRFieldType.OFTReal
    else OGRFieldType.OFTString

/-- Modelled from the spec: `OGRGeoJSONReaderAddOrUpdateField` (declared in
`ogrgeojsonreader.h`, outside the reader) as called by `EstablishLayerDefn`
(section 4.4, `observe`): ensure a field descriptor exists for the name,
assigning the next integer index and inferring an initial type if it is new,
letting the type-widening routine adjust the existing descriptor otherwise.
Returns the indices of the fields touched (`anCurFieldIndices`). -/
def OGRGeoJSONReaderAddOrUpdateField (sc : SchemaScope) (pszKey : String) (poVal : Json) :
    List Nat × SchemaScope :=
  match sc.oMapFieldNameToIdx.lookup pszKey with
  | some idx =>
    ([idx],
      { sc with
        apoFieldDefn := sc.apoFieldDefn.modify
          (fun d => { d with eType := widenFieldType d.eType poVal }) idx })
  | none =>
    ([sc.apoFieldDefn.length],
      { sc with
        oMapFieldNameToIdx := (pszKey, sc.apoFieldDefn.length) :: sc.oMapFieldNameToIdx
        apoFieldDefn := sc.apoFieldDefn ++
          [{ name := pszKey, eType := GeoJSONPropertyToFieldType poVal }] })

/-- `apoFieldDefn[idx]->GetNameRef()`. -/
def fieldName (sc : SchemaScope) (idx : Nat) : String :=
  ((sc.apoFieldDefn.get? idx).map OGRFieldDefn.name).getD ""

/-- One pass through the inner loop of `EstablishLayerDefn` (lines 441-449)
for a field index `idx`; the state is `nPrevFieldIdx` and the scope. -/
def EstablishLayerDefnIdx (st : Int × SchemaScope) (idx : Nat) : Int × SchemaScope :=
  let dag1 := st.2.dag.addNode idx (fieldName st.2 idx)
  let dag2 := if st.1 ≠ -1 then dag1.addEdge st.1.toNat idx else dag1
  ((idx : Int), { st.2 with dag := dag2 })

/-- One pass through the loop over the properties of an object in
`EstablishLayerDefn` (lines 437-449). -/
def EstablishLayerDefnProp (st : Int × SchemaScope) (it : String × Json) : Int × SchemaScope :=
  let r := OGRGeoJSONReaderAddOrUpdateField st.2 it.1 it.2
  r.1.foldl EstablishLayerDefnIdx (st.1, r.2)

/-- The members of an object, in document order (none for any other value):
what `json_object_object_foreachC` visits. -/
def objectMembers : Json → List (String × Json)
  | .object members => members
  | _ => []

/-- The `EstablishLayerDefn` function: the scope after observing the
properties of `poObj`. -/
def EstablishLayerDefn (nPrevFieldIdx : Int) (sc : SchemaScope) (poObj : Json) : SchemaScope :=
  let poObjProps := OGRGeoJSONFindMemberByName poObj "properties"
  if json_object_get_type poObjProps = json_type_object then
    ((objectMembers poObjProps).foldl EstablishLayerDefnProp (nPrevFieldIdx, sc)).2
  else sc

/-- The scope as each discovery pass starts it (lines 516-519 and 584-587):
the field `id` pre-registered with index 0. -/
def initialScope : SchemaScope :=
  { oMapFieldNameToIdx := [("id", 0)]
    apoFieldDefn := [{ name := "id", eType := OGRFieldType.OFTString }]
    dag := ({ nodes := [], names := [], edges := [] } : DirectedAcyclicGraph).addNode 0 "id" }

/-- The discovery pass of a scope over the objects it observes, in order:
each is passed to `EstablishLayerDefn` with `nPrevFieldIdx = 0` (lines
520-536 for a collection, lines 590-593 for the shared layer). -/
def discoverScope (objs : List Json) : SchemaScope :=
  objs.foldl (EstablishLayerDefn 0) initialScope

/-- The order returned at sealing (`sortedFields`, lines 538, 738 and 772). -/
def sortedFields (sc : SchemaScope) : List Nat := sc.dag.getTopologicalOrdering

/-- The sealed schema: the field descriptors added to the layer definition
in the sorted order (lines 542-545, 741-744 and 775-778). -/
def sealedSchema (sc : SchemaScope) : List OGRFieldDefn :=
  (sortedFields sc).filterMap (fun idx => sc.apoFieldDefn.get? idx)

/-- The names of the fields of the sealed schema, in order. -/
def sealedNames (sc : SchemaScope) : List String := (sealedSchema sc).map OGRFieldDefn.name

/-- The property list of an object: the members of its `properties` member
when that is an object. -/
def propertyList (poObj : Json) : List (String × Json) :=
  objectMembers (OGRGeoJSONFindMemberByName poObj "properties")

/-- The names of the fields discovered so far, by field index. -/
def fieldNames (sc : SchemaScope) : List String := sc.apoFieldDefn.map OGRFieldDefn.name

/-- The consistency of a scope between properties: the name map sends a name
to the index of the field of that name, the graph has one node per field in
index order, the edges join field indices, and they have no cycle (some
ranking of the indices increases strictly along every edge). -/
structure ScopeInv (sc : SchemaScope) : Prop where
  map_iff : ∀ (key : String) (idx : Nat),
    sc.oMapFieldNameToIdx.lookup key = some idx ↔ (fieldNames sc)[idx]? = some key
  nodes_eq : sc.dag.nodes = List.range (fieldNames sc).length
  edges_lt : ∀ e ∈ sc.dag.edges,
    e.1 < (fieldNames sc).length ∧ e.2 < (fieldNames sc).length
  acyclic : ∃ rank : Nat → Nat, ∀ e ∈ sc.dag.edges, rank e.1 < rank e.2

/-- A scope extends another: fields keep their index and name, and recorded
edges stay recorded. -/
structure ScopeLe (sc1 sc2 : SchemaScope) : Prop where
  names_prefix : fieldNames sc1 <+: fieldNames sc2
  edges_sub : ∀ e ∈ sc1.dag.edges, e ∈ sc2.dag.edges

/-- A ranking of the field names agrees with the graph of a scope: it
increases strictly along every recorded edge. -/
def RankedEdges (rank : String → Nat) (sc : SchemaScope) : Prop :=
  ∀ e ∈ sc.dag.edges, ∀ a b : String,
    (fieldNames sc)[e.1]? = some a → (fieldNames sc)[e.2]? = some b → rank a < rank b

/-! ## Geometries, features and layers -/

/-- The geometries the reader builds.  A point without coordinates is the
empty point. -/
inductive OGRGeometry where
  | point (p : Option OGRRawPoint)
  | multiPoint (points : List OGRRawPoint)
  | lineString (line : OGRLineString)
  | multiLineString (lines : List OGRLineString)
  | polygon (rings : OGRPolygon)
  | multiPolygon (polygons : List OGRPolygon)
  deriving DecidableEq

/-- The value of a set attribute field.  `jsonText j` stands for the JSON
text of `j`, which a string field holds when it is set from a value that is
neither a string nor an integer. -/
inductive OGRField where
  | integer (n : Int)
  | real (d : ℚ)
  | string (s : String)
  | jsonText (j : Json)
  | null

/-- A feature: one slot per field of the layer definition it was created
with (`none` is an unset field), and an optional geometry. -/
structure OGRFeature where
  fields : List (Option OGRField)
  geometry : Option OGRGeometry

/-- The two operations that change the content of a layer. -/
inductive LayerOp where
  | addFieldDefn
  | addFeature
  deriving DecidableEq, Repr

/-- A layer: name, field definitions and features.  `ops` is ghost state: the
operations applied to the layer so far, oldest first. -/
structure OGRGeoJSONLayer where
  name : String
  fieldDefns : List OGRFieldDefn
  features : List OGRFeature
  ops : List LayerOp

/-- Modelled from the spec: `new OGRGeoJSONLayer(name, ...)` (layer sink,
outside the reader): a layer with a name and an open, empty field list. -/
def newLayer (pszName : String) : OGRGeoJSONLayer :=
  { name := pszName, fieldDefns := [], features := [], ops := [] }

/-- Modelled from the spec: `OGRFeatureDefn::AddFieldDefn` (layer sink): the
field is appended to the field list of the layer. -/
def AddFieldDefn (poLayer : OGRGeoJSONLayer) (poFieldDefn : OGRFieldDefn) : OGRGeoJSONLayer :=
  { poLayer with
    fieldDefns := poLayer.fieldDefns ++ [poFieldDefn]
    ops := poLayer.ops ++ [LayerOp.addFieldDefn] }

/-- Modelled from the spec: `OGRGeoJSONLayer::AddFeature` (layer sink): the
feature is appended to the layer. -/
def AddFeature (poLayer : OGRGeoJSONLayer) (poFeature : OGRFeature) : OGRGeoJSONLayer :=
  { poLayer with
    features := poLayer.features ++ [poFeature]
    ops := poLayer.ops ++ [LayerOp.addFeature] }

/-- Modelled from the spec: `new OGRFeature(poDefn)` (OGR core): a feature
with one unset slot per field of the definition and no geometry. -/
def newFeature (poDefn : List OGRFieldDefn) : OGRFeature :=
  { fields := List.replicate poDefn.length none, geometry := none }

/-- Modelled from the spec: `GetFieldIndex` (OGR core): the position of the
first field of that name in the definition, `-1` when there is none. -/
def GetFieldIndex (poDefn : List OGRFieldDefn) (pszName : String) : Int :=
  match poDefn.findIdx? (fun d => d.name == pszName) with
  | some i => (i : Int)
  | none => -1

/-- Modelled from the spec: writing one slot of a feature (OGR core); a
position outside the slots changes nothing. -/
def setFieldSlot (poFeature : OGRFeature) (nField : Int) (v : OGRField) : OGRFeature :=
  if nField < 0 then poFeature
  else { poFeature with fields := poFeature.fields.set nField.toNat (some v) }

/-- The text `json_object_get_string` returns for a string or an integer, the
two kinds of value the reader calls it on.  The JSON text of the other kinds
is not spelled out. -/
def json_object_get_string : Json → String
  | .string s => s
  | .int n => toString n
  | _ => ""

/-- Modelled from the spec: `OGRFeature::SetField(name, string)` (OGR core),
which the reader uses for the string field `id`. -/
def SetFieldByName (poDefn : List OGRFieldDefn) (poFeature : OGRFeature) (pszName : String)
    (pszValue : String) : OGRFeature :=
  setFieldSlot poFeature (GetFieldIndex poDefn pszName) (OGRField.string pszValue)

/-- Modelled from the spec: the value `OGRGeoJSONReaderSetField` writes into
a field of the given type from a property value. -/
def fieldValueOf (eType : OGRFieldType) (poVal : Json) : OGRField :=
  match poVal with
  | .null => OGRField.null
  | _ =>
    match eType with
    | OGRFieldType.OFTInteger =>
      match poVal with
      | .bool b => OGRField.integer (if b then 1 else 0)
      | _ => OGRField.integer (json_object_get_int poVal)
    | OGRFieldType.OFTReal => OGRField.real (json_object_get_double poVal)
    | OGRFieldType.OFTString =>
      match poVal with
      | .string s => OGRField.string s
      | .int n => OGRField.string (toString n)
      | _ => OGRField.jsonText poVal

/-- Modelled from the spec: `OGRGeoJSONReaderSetField` (declared in
`ogrgeojsonreader.h`, outside the reader): the property value is written into
the attribute slot `nField` of the feature, converted to the type of that
field; nothing is written when the layer has no such field. -/
def OGRGeoJSONReaderSetField (poDefn : List OGRFieldDefn) (poFeature : OGRFeature)
    (nField : Int) (poVal : Json) : OGRFeature :=
  if nField < 0 then poFeature
  else
    match poDefn.get? nField.toNat with
    | some d => setFieldSlot poFeature nField (fieldValueOf d.eType poVal)
    | none => poFeature

/-! ## ParseObject -/

/-- One pass through the loop over the coordinates of a `MultiPoint` (lines
371-380). -/
def ParseObjectMultiPointBody (psParams : ScalingParams) (poMP : List OGRRawPoint)
    (poPair : Json) : List OGRRawPoint :=
  match ParsePoint poPair with
  | some (dfX, dfY) =>
    poMP ++ [(dfX * psParams.dfScale0 + psParams.dfTranslate0,
      dfY * psParams.dfScale1 + psParams.dfTranslate1)]
  | none => poMP

/-- The geometry `ParseObject` builds for the declared kind (lines 348-406);
`none` is the null `poGeom` of an unrecognised kind. -/
def ParseObjectGeometry (pszType : String) (poArcsObj poCoordinatesObj poArcsDB : Json)
    (psParams : ScalingParams) : Option OGRGeometry :=
  if pszType = "Point" then
    match ParsePoint poCoordinatesObj with
    | some (dfX, dfY) =>
      some (OGRGeometry.point (some (dfX * psParams.dfScale0 + psParams.dfTranslate0,
        dfY * psParams.dfScale1 + psParams.dfTranslate1)))
    | none => some (OGRGeometry.point none)
  else if pszType = "MultiPoint" then
    some (OGRGeometry.multiPoint
      ((arrayItems poCoordinatesObj).foldl (ParseObjectMultiPointBody psParams) []))
  else if pszType = "LineString" then
    some (OGRGeometry.lineString (ParseLineString [] poArcsObj poArcsDB psParams))
  else if pszType = "MultiLineString" then
    some (OGRGeometry.multiLineString (ParseMultiLineString [] poArcsObj poArcsDB psParams))
  else if pszType = "Polygon" then
    some (OGRGeometry.polygon (ParsePolygon [] poArcsObj poArcsDB psParams))
  else if pszType = "MultiPolygon" then
    some (OGRGeometry.multiPolygon (ParseMultiPolygon [] poArcsObj poArcsDB psParams))
  else none

/-- The identifier the code falls back to when it was given none (lines
317-326 and 484-494): the `id` member of the object when that is a string or
an integer. -/
def resolveId (pszId : Option String) (poObj : Json) : Option String :=
  match pszId with
  | some s => some s
  | none =>
    let poId := OGRGeoJSONFindMemberByName poObj "id"
    if json_object_get_type poId = json_type_string ∨
        json_object_get_type poId = json_type_int then
      some (json_object_get_string poId)
    else none

/-- One pass through the loop over the properties in `ParseObject` (lines
342-344). -/
def ParseObjectProperty (poDefn : List OGRFieldDefn) (poFeature : OGRFeature)
    (it : String × Json) : OGRFeature :=
  OGRGeoJSONReaderSetField poDefn poFeature (GetFieldIndex poDefn it.1) it.2

/-- The feature `ParseObject` builds for an object against the definition of
the layer; `none` when `ParseObject` returns before creating a feature (lines
296-315). -/
def ParseObjectFeature (pszId : Option String) (poObj : Json) (poDefn : List OGRFieldDefn)
    (poArcsDB : Json) (psParams : ScalingParams) : Option OGRFeature :=
  let poType := OGRGeoJSONFindMemberByName poObj "type"
  if json_object_get_type poType ≠ json_type_string then none
  else
    let pszType := json_object_get_string poType
    let poArcsObj := OGRGeoJSONFindMemberByName poObj "arcs"
    let poCoordinatesObj := OGRGeoJSONFindMemberByName poObj "coordinates"
    if (if pszType = "Point" ∨ pszType = "MultiPoint" then
          json_object_get_type poCoordinatesObj ≠ json_type_array
        else json_object_get_type poArcsObj ≠ json_type_array) then none
    else
      let poFeature0 := newFeature poDefn
      let poFeature1 :=
        match resolveId pszId poObj with
        | some s => SetFieldByName poDefn poFeature0 "id" s
        | none => poFeature0
      let poProperties := OGRGeoJSONFindMemberByName poObj "properties"
      let poFeature2 :=
        if json_object_get_type poProperties = json_type_object then
          (objectMembers poProperties).foldl (ParseObjectProperty poDefn) poFeature1
        else poFeature1
      some { poFeature2 with
        geometry := ParseObjectGeometry pszType poArcsObj poCoordinatesObj poArcsDB psParams }

/-- The `ParseObject` function: the layer after the feature of the object, if
one is built, has been added to it. -/
def ParseObject (pszId : Option String) (poObj : Json) (poLayer : OGRGeoJSONLayer)
    (poArcsDB : Json) (psParams : ScalingParams) : OGRGeoJSONLayer :=
  match ParseObjectFeature pszId poObj poLayer.fieldDefns poArcsDB psParams with
  | some poFeature => AddFeature poLayer poFeature
  | none => poLayer

/-! ## ParseObjectMain, ParseObjectMainSecondPass, ReadLayers, Parse -/

/-- The six bare geometry kinds (lines 566-571 and 618-623). -/
def isBareGeometryKind (pszType : String) : Bool :=
  pszType = "Point" || pszType = "MultiPoint" || pszType = "LineString" ||
    pszType = "MultiLineString" || pszType = "Polygon" || pszType = "MultiPolygon"

/-- The schema containers as `ReadLayers` declares them (lines 714-719):
empty. -/
def emptyScope : SchemaScope :=
  { oMapFieldNameToIdx := [], apoFieldDefn := [],
    dag := { nodes := [], names := [], edges := [] } }

/-- The pre-registration of the field `id` (lines 516-519 and 584-587). -/
def registerIdField (sc : SchemaScope) : SchemaScope :=
  { oMapFieldNameToIdx := ("id", 0) :: sc.oMapFieldNameToIdx
    apoFieldDefn := sc.apoFieldDefn ++ [{ name := "id", eType := OGRFieldType.OFTString }]
    dag := sc.dag.addNode 0 "id" }

/-- The sealing of a layer (lines 538-546, 737-744 and 771-778): the field
descriptors are added to the layer definition in the sorted order. -/
def sealLayer (poLayer : OGRGeoJSONLayer) (sc : SchemaScope) : OGRGeoJSONLayer :=
  (sortedFields sc).foldl
    (fun l idx =>
      match sc.apoFieldDefn.get? idx with
      | some d => AddFieldDefn l d
      | none => l)
    poLayer

/-- What `ReadLayers` shares with `ParseObjectMain` through pointers and
references: the layers of the data source, the main layer and the schema
containers of the shared scope. -/
structure MainState where
  poDS : List OGRGeoJSONLayer
  poMainLayer : Option OGRGeoJSONLayer
  scope : SchemaScope

/-- The first pass of a collection (lines 522-536): every geometry that is an
object is observed. -/
def collectionFirstPass (sc : SchemaScope) (poGeom : Json) : SchemaScope :=
  if json_object_get_type poGeom = json_type_object then EstablishLayerDefn 0 sc poGeom else sc

/-- The second pass of a collection (lines 549-560): a feature is built for
every geometry that is an object. -/
def collectionSecondPass (poArcs : Json) (psParams : ScalingParams) (poLayer : OGRGeoJSONLayer)
    (poGeom : Json) : OGRGeoJSONLayer :=
  if json_object_get_type poGeom = json_type_object then
    ParseObject none poGeom poLayer poArcs psParams
  else poLayer

/-- The layer `ParseObjectMain` builds for a `GeometryCollection` with a
geometries array (lines 484-562). -/
def collectionLayer (pszId : Option String) (poObj : Json) (poArcs : Json)
    (psParams : ScalingParams) : OGRGeoJSONLayer :=
  let poGeometries := OGRGeoJSONFindMemberByName poObj "geometries"
  let poLayer := newLayer ((resolveId pszId poObj).getD "TopoJSON")
  let scLocal := (arrayItems poGeometries).foldl collectionFirstPass (registerIdField emptyScope)
  let poLayer1 := sealLayer poLayer scLocal
  (arrayItems poGeometries).foldl (collectionSecondPass poArcs psParams) poLayer1

/-- The `ParseObjectMain` function: its result `bNeedSecondPass` and the
shared state after it. -/
def ParseObjectMain (pszId : Option String) (poObj : Json) (poArcs : Json)
    (psParams : ScalingParams) (st : MainState) : Bool × MainState :=
  if json_object_get_type poObj = json_type_object then
    let poType := OGRGeoJSONFindMemberByName poObj "type"
    if json_object_get_type poType = json_type_string then
      let pszType := json_object_get_string poType
      if pszType = "GeometryCollection" then
        let poGeometries := OGRGeoJSONFindMemberByName poObj "geometries"
        if json_object_get_type poGeometries = json_type_array then
          (false, { st with poDS := st.poDS ++ [collectionLayer pszId poObj poArcs psParams] })
        else (false, st)
      else if isBareGeometryKind pszType then
        let st1 : MainState :=
          match st.poMainLayer with
          | none =>
            { st with
              poMainLayer := some (newLayer "TopoJSON")
              scope := registerIdField st.scope }
          | some _ => st
        (true, { st1 with scope := EstablishLayerDefn 0 st1.scope poObj })
      else (false, st)
    else (false, st)
  else (false, st)

/-- The `ParseObjectMainSecondPass` function: the main layer after it. -/
def ParseObjectMainSecondPass (pszId : Option String) (poObj : Json)
    (poMainLayer : OGRGeoJSONLayer) (poArcs : Json) (psParams : ScalingParams) :
    OGRGeoJSONLayer :=
  if json_object_get_type poObj = json_type_object then
    let poType := OGRGeoJSONFindMemberByName poObj "type"
    if json_object_get_type poType = json_type_string then
      if isBareGeometryKind (json_object_get_string poType) then
        ParseObject pszId poObj poMainLayer poArcs psParams
      else poMainLayer
    else poMainLayer
  else poMainLayer

/-- The top-level members `ReadLayers` walks, each with the identifier it
passes on: the key for the members of a mapping (lines 727-734), none for the
items of an array (lines 761-768); no member for any other value. -/
def topLevelMembers : Json → List (Option String × Json)
  | .object members => members.map (fun kv => (some kv.1, kv.2))
  | .array items => items.map (fun v => (none, v))
  | _ => []

/-- One pass through the first loop of `ReadLayers` over the top-level
members: `bNeedSecondPass |= ParseObjectMain(...)`. -/
def ReadLayersFirstPass (poArcs : Json) (psParams : ScalingParams) (acc : Bool × MainState)
    (m : Option String × Json) : Bool × MainState :=
  let r := ParseObjectMain m.1 m.2 poArcs psParams acc.2
  (acc.1 || r.1, r.2)

/-- One pass through the second loop of `ReadLayers` over the top-level
members. -/
def ReadLayersSecondPass (poArcs : Json) (psParams : ScalingParams) (poMainLayer : OGRGeoJSONLayer)
    (m : Option String × Json) : OGRGeoJSONLayer :=
  ParseObjectMainSecondPass m.1 m.2 poMainLayer poArcs psParams

/-- The part of `ReadLayers` that walks the top-level members (lines 720-793;
the branch for a mapping and the branch for an array run the same steps):
first pass, then, when a second pass is needed, sealing of the main layer and
second pass, and at last the main layer is added to the data source. -/
def ReadLayersMembers (members : List (Option String × Json)) (poArcs : Json)
    (psParams : ScalingParams) (poDS : List OGRGeoJSONLayer) : List OGRGeoJSONLayer :=
  let r := members.foldl (ReadLayersFirstPass poArcs psParams)
    (false, { poDS := poDS, poMainLayer := none, scope := emptyScope })
  let poMainLayer :=
    if r.1 then
      match r.2.poMainLayer with
      | some l =>
        some ((members.foldl (ReadLayersSecondPass poArcs psParams) (sealLayer l r.2.scope)))
      | none => none
    else r.2.poMainLayer
  match poMainLayer with
  | some l => r.2.poDS ++ [l]
  | none => r.2.poDS

/-- The `ReadLayers` method: the layers of the data source after it, for the
value tree `poGJObject_` of the reader. -/
def ReadLayers (poGJObject : Json) (poDS : List OGRGeoJSONLayer) : List OGRGeoJSONLayer :=
  if json_object_get_type poGJObject = json_type_null then poDS
  else
    let sParams := ReadLayersTransform poGJObject
    let poArcs := OGRGeoJSONFindMemberByName poGJObject "arcs"
    if json_object_get_type poArcs ≠ json_type_array then poDS
    else
      let poObjects := OGRGeoJSONFindMemberByName poGJObject "objects"
      if json_object_get_type poObjects = json_type_null then poDS
      else ReadLayersMembers (topLevelMembers poObjects) poArcs sParams poDS

/-- The result codes of `Parse`. -/
inductive OGRErr where
  | OGRERR_NONE
  | OGRERR_CORRUPT_DATA
  deriving DecidableEq, Repr

/-- The reader object: the value tree it retains, null when it has none. -/
structure OGRTopoJSONReader where
  poGJObject_ : Json

/-- The constructor: no value tree. -/
def OGRTopoJSONReader.new : OGRTopoJSONReader := { poGJObject_ := Json.null }

/-- The `Parse` method: result code and reader after it.  `OGRJSonParse` is
the JSON parser (outside the reader): `some` of the value tree when it
accepts the text.  The text is `none` for a null pointer.  The flag
`bLooseIdentification` only silences the diagnostics of the parser. -/
def OGRTopoJSONReader.Parse (OGRJSonParse : String → Option Json) (self : OGRTopoJSONReader)
    (pszText : Option String) (_bLooseIdentification : Bool) : OGRErr × OGRTopoJSONReader :=
  match pszText.bind OGRJSonParse with
  | none => (OGRErr.OGRERR_CORRUPT_DATA, self)
  | some jsobj => (OGRErr.OGRERR_NONE, { poGJObject_ := jsobj })

/-! ## Well-formed arcs and the transform rule of the specification -/

/-- A JSON number (integer or double). -/
def isNumber : Json → Bool
  | .int _ => true
  | .double _ => true
  | _ => false

/-- A well-formed coordinate pair: an array of exactly two numbers. -/
def wellFormedPair : Json → Bool
  | .array [a, b] => isNumber a && isNumber b
  | _ => false

/-- An arc of well-formed pairs: an array all of whose items are well-formed
coordinate pairs. -/
def wellFormedArc : Json → Bool
  | .array items => items.all wellFormedPair
  | _ => false

/-- The raw coordinates written in a coordinate pair. -/
def rawPoint : Json → ℚ × ℚ
  | .array [a, b] => (json_object_get_double a, json_object_get_double b)
  | _ => (0, 0)

/-- The raw coordinate pairs of an arc, in storage order. -/
def rawPoints (arc : Json) : List (ℚ × ℚ) := (arrayItems arc).map rawPoint

/-- The transform rule of the specification (section 4.2, step 2), from a
running accumulator: with the transform present each raw point is added to
the accumulator and `value*scale + translate` is applied to the accumulated
coordinate; with the transform absent it is applied to the raw point. -/
def specDecodeFrom (ps : ScalingParams) : ℚ → ℚ → List (ℚ × ℚ) → List OGRRawPoint
  | _, _, [] => []
  | ax, ay, p :: t =>
    if ps.bElementExists then
      ((ax + p.1) * ps.dfScale0 + ps.dfTranslate0, (ay + p.2) * ps.dfScale1 + ps.dfTranslate1) ::
        specDecodeFrom ps (ax + p.1) (ay + p.2) t
    else
      (p.1 * ps.dfScale0 + ps.dfTranslate0, p.2 * ps.dfScale1 + ps.dfTranslate1) ::
        specDecodeFrom ps ax ay t

/-- The decoded point list of an arc per the transform rule. -/
def specDecodeArc (ps : ScalingParams) (arc : Json) : List OGRRawPoint :=
  specDecodeFrom ps 0 0 (rawPoints arc)

/-- The slots of a line buffer sized for the items of an arc, filled in
storage order from a running accumulator: the slot of a well-formed pair
holds its decoded point, the slot of a malformed pair keeps the zero point it
was initialised with. -/
def decodeSlots (ps : ScalingParams) : ℚ → ℚ → List Json → List OGRRawPoint
  | _, _, [] => []
  | ax, ay, p :: t =>
    match ParsePoint p with
    | none => (0, 0) :: decodeSlots ps ax ay t
    | some q =>
      if ps.bElementExists then
        ((ax + q.1) * ps.dfScale0 + ps.dfTranslate0, (ay + q.2) * ps.dfScale1 + ps.dfTranslate1) ::
          decodeSlots ps (ax + q.1) (ay + q.2) t
      else
        (q.1 * ps.dfScale0 + ps.dfTranslate0, q.2 * ps.dfScale1 + ps.dfTranslate1) ::
          decodeSlots ps ax ay t

/-- The arc index a ring reference addresses, as `ParseLineString` reads it. -/
def refIndex (r : Int) : Int := (decodeArcId (json_object_get_int (Json.int r))).1

/-- Whether a ring reference is traversed in reverse. -/
def refReversed (r : Int) : Bool := (decodeArcId (json_object_get_int (Json.int r))).2

/-- The arc of the store a ring reference addresses. -/
def refArc (arcs : List Json) (r : Int) : Json := arcs.getD (refIndex r).toNat Json.null

/-- An in-range reference: its decoded index is below the arc count. -/
def refInRange (arcs : List Json) (r : Int) : Prop := refIndex r < (arcs.length : Int)

instance (arcs : List Json) (r : Int) : Decidable (refInRange arcs r) := by
  unfold refInRange; infer_instance

/-- The point list `D(r)` of a ring reference: the decoded point list of the
referenced arc per the transform rule, reversed when the reference is
negative. -/
def specRefPoints (ps : ScalingParams) (arcs : List Json) (r : Int) : List OGRRawPoint :=
  if refReversed r then (specDecodeArc ps (refArc arcs r)).reverse
  else specDecodeArc ps (refArc arcs r)

/-- Concatenation of the tails of point lists: `tail d1 ++ tail d2 ++ ...`. -/
def specJoinTails : List (List OGRRawPoint) → List OGRRawPoint
  | [] => []
  | d :: ds => d.tail ++ specJoinTails ds

/-- The continuous point sequence of the specification for the arcs of a
ring: `d1 ++ tail d2 ++ ... ++ tail dk`. -/
def specRingPoints : List (List OGRRawPoint) → List OGRRawPoint
  | [] => []
  | d :: ds => d ++ specJoinTails ds

/-- The points a ring contributes onto a line, arc by arc: an arc decoded onto
a line that is still empty contributes all its points, an arc decoded onto
a line that has points contributes all but its first.  The flag tells
whether the line is still empty. -/
def specChain : Bool → List (List OGRRawPoint) → List OGRRawPoint
  | _, [] => []
  | true, d :: ds => d ++ specChain d.isEmpty ds
  | false, d :: ds => d.tail ++ specChain false ds

/-- Number of point lists that are not empty. -/
def countNonEmpty (ds : List (List OGRRawPoint)) : Nat :=
  (ds.filter (fun d => !d.isEmpty)).length

/-- Total number of points of a list of point lists. -/
def totalPoints (ds : List (List OGRRawPoint)) : Nat :=
  (ds.map List.length).sum

/-- The point counts of the arcs a ring references, in ring order. -/
def ringArcCounts (arcs : List Json) (ring : List Int) : List Nat :=
  ring.map (fun r => json_object_array_length (refArc arcs r))

/-- The transform member carries a well-typed 2-element numeric scale array. -/
def hasValidScale (poGJObject : Json) : Bool :=
  wellFormedPair
    (OGRGeoJSONFindMemberByName (OGRGeoJSONFindMemberByName poGJObject "transform") "scale")

/-- The transform member carries a well-typed 2-element numeric translate
array. -/
def hasValidTranslate (poGJObject : Json) : Bool :=
  wellFormedPair
    (OGRGeoJSONFindMemberByName (OGRGeoJSONFindMemberByName poGJObject "transform") "translate")

/-- A ring entry that contributes to a line: an integer whose decoded index is
below the arc count. -/
def contributingRef (poArcsDB : Json) (poArcId : Json) : Bool :=
  decide (json_object_get_type poArcId = json_type_int) &&
    decide ((decodeArcId (json_object_get_int poArcId)).1 <
      (json_object_array_length poArcsDB : Int))

/-- A top-level member that is a `GeometryCollection` carrying a geometries
array. -/
def isCollectionMember (poObj : Json) : Bool :=
  decide (json_object_get_type poObj = json_type_object) &&
    decide (json_object_get_type (OGRGeoJSONFindMemberByName poObj "type") = json_type_string) &&
    decide (json_object_get_string (OGRGeoJSONFindMemberByName poObj "type") =
      "GeometryCollection") &&
    decide (json_object_get_type (OGRGeoJSONFindMemberByName poObj "geometries") =
      json_type_array)

/-- A top-level member of a bare geometry kind. -/
def isBareMember (poObj : Json) : Bool :=
  decide (json_object_get_type poObj = json_type_object) &&
    decide (json_object_get_type (OGRGeoJSONFindMemberByName poObj "type") = json_type_string) &&
    isBareGeometryKind (json_object_get_string (OGRGeoJSONFindMemberByName poObj "type"))

/-- The collection layers of the top-level members, one per collection member,
in member order. -/
def collectionLayers (members : List (Option String × Json)) (poArcs : Json)
    (psParams : ScalingParams) : List OGRGeoJSONLayer :=
  members.filterMap (fun m =>
    if isCollectionMember m.2 then some (collectionLayer m.1 m.2 poArcs psParams) else none)

/-- The bare members among the top-level members, in member order. -/
def bareMembers (members : List (Option String × Json)) : List Json :=
  (members.filter (fun m => isBareMember m.2)).map Prod.snd

/-- The geometries of a collection that are objects, in order. -/
def collectionObjects (poObj : Json) : List Json :=
  (arrayItems (OGRGeoJSONFindMemberByName poObj "geometries")).filter
    (fun g => decide (json_object_get_type g = json_type_object))

/-- The shared layer of the top-level members: the layer `TopoJSON` sealed with
the schema discovered over all bare members, then filled by the second pass
over the members. -/
def sharedLayer (members : List (Option String × Json)) (poArcs : Json)
    (psParams : ScalingParams) : OGRGeoJSONLayer :=
  members.foldl (ReadLayersSecondPass poArcs psParams)
    (sealLayer (newLayer "TopoJSON") (discoverScope (bareMembers members)))

/-- The slot of the field of a given name in a feature of a layer definition:
`none` when the definition has no field of that name, `some none` when the
field is unset, `some (some v)` when it is set to `v`. -/
def fieldSlot (poDefn : List OGRFieldDefn) (poFeature : OGRFeature) (pszName : String) :
    Option (Option OGRField) :=
  match poDefn.findIdx? (fun d => d.name == pszName) with
  | some i => poFeature.fields.get? i
  | none => none

/-- The attributes `ParseObject` gives the feature of an object (lines
317-346): the slots of a new feature after the field `id` and the properties
have been written. -/
def ParseObjectAttributes (pszId : Option String) (poObj : Json) (poDefn : List OGRFieldDefn) :
    OGRFeature :=
  let poFeature1 :=
    match resolveId pszId poObj with
    | some s => SetFieldByName poDefn (newFeature poDefn) "id" s
    | none => newFeature poDefn
  let poProperties := OGRGeoJSONFindMemberByName poObj "properties"
  if json_object_get_type poProperties = json_type_object then
    (objectMembers poProperties).foldl (ParseObjectProperty poDefn) poFeature1
  else poFeature1

/-- A layer whose fields were all added before any feature, every feature
having one slot per field. -/
def SealedThenFilled (l : OGRGeoJSONLayer) : Prop :=
  l.ops = List.replicate l.fieldDefns.length LayerOp.addFieldDefn ++
      List.replicate l.features.length LayerOp.addFeature ∧
    ∀ f ∈ l.features, f.fields.length = l.fieldDefns.length

/-- The field descriptor discovery gives a property seen once: its name and
the type inferred from its value. -/
def fieldDefnOf (kv : String × Json) : OGRFieldDefn :=
  { name := kv.1, eType := GeoJSONPropertyToFieldType kv.2 }

/-- The value a 32-bit two's-complement `int` holds after an arithmetic result
`n` has wrapped around. -/
def wrapInt32 (n : Int) : Int := (n - INT32_MIN) % 4294967296 + INT32_MIN

/-- The decoding of a signed arc reference (lines 188-193) with every
arithmetic step carried out in 32 bits: `nArcId + 1`, then the negation. -/
def decodeArcIdInt32 (nArcId : Int) : Int × Bool :=
  if nArcId < 0 then (wrapInt32 (-(wrapInt32 (nArcId + 1))), true) else (nArcId, false)

/-- The point `p*scale + translate` of a raw coordinate pair `p`, with no
accumulation. -/
def scaledPoint (ps : ScalingParams) (p : ℚ × ℚ) : OGRRawPoint :=
  (p.1 * ps.dfScale0 + ps.dfTranslate0, p.2 * ps.dfScale1 + ps.dfTranslate1)

/-- The line `ParseMultiLineString` decodes from one entry of its arcs array:
the `ParseLineString` decode of the entry, empty when the entry is not an
array. -/
def memberLineOf (poArcsDB : Json) (psParams : ScalingParams) (poRing : Json) : OGRLineString :=
  if json_object_get_type poRing = json_type_array then
    ParseLineString [] poRing poArcsDB psParams
  else []

/-! ## Concrete inputs used by the witnesses -/

/-- The coordinate pair `[a, b]` of two JSON integers. -/
def exPair (a b : Int) : Json := Json.array [Json.int a, Json.int b]

/-- An arc store with the arcs `[[1,1],[2,0]]` and `[[5,5],[1,1],[1,1]]`. -/
def exArcs : List Json :=
  [Json.array [exPair 1 1, exPair 2 0], Json.array [exPair 5 5, exPair 1 1, exPair 1 1]]

/-- The transform with scale `(2,2)` and translate `(10,10)`. -/
def exParams : ScalingParams :=
  { dfScale0 := 2, dfScale1 := 2, dfTranslate0 := 10, dfTranslate1 := 10,
    bElementExists := true }

/-- An arc store whose only arc `[null, [1,1]]` starts with a malformed pair. -/
def badFirstArcs : List Json := [Json.array [Json.null, exPair 1 1]]

/-- An arc store with an empty arc followed by the arc `[[0,0],[1,1]]`. -/
def emptyArcArcs : List Json := [Json.array [], Json.array [exPair 0 0, exPair 1 1]]

/-- The document `{"transform": {"scale": [2, 2]}}`: a scale and no
translate. -/
def scaleOnlyDoc : Json :=
  Json.object [("transform", Json.object [("scale", Json.array [Json.int 2, Json.int 2])])]

/-- A geometry object of kind `Point` with the given properties. -/
def exPointObj (props : List (String × Json)) : Json :=
  Json.object [("type", Json.string "Point"), ("coordinates", exPair 0 0),
    ("properties", Json.object props)]

/-- An object listing the properties `a` then `b`. -/
def objAB : Json := exPointObj [("a", Json.int 1), ("b", Json.int 2)]

/-- An object listing the properties `b` then `a`. -/
def objBA : Json := exPointObj [("b", Json.int 1), ("a", Json.int 2)]

/-- An object listing the properties `c` then `a`. -/
def objCA : Json := exPointObj [("c", Json.int 1), ("a", Json.int 2)]

/-- An object whose properties are `id`, then `a`. -/
def objIdA : Json := exPointObj [("id", Json.int 7), ("a", Json.int 1)]

/-- A ranking of the field names of `objAB`, `objCA` and `objIdA`
consistent with their property orders. -/
def exNameRank (name : String) : Nat :=
  if name = "id" then 0 else if name = "c" then 1 else if name = "a" then 2 else 3

/-- An arc store whose only arc `[[1,1], [5], [2,2]]` has a pair of wrong
arity in the middle. -/
def badMiddleArcs : List Json :=
  [Json.array [exPair 1 1, Json.array [Json.int 5], exPair 2 2]]

/-- The arc store of `badMiddleArcs` with the malformed pair removed. -/
def badMiddleRemovedArcs : List Json := [Json.array [exPair 1 1, exPair 2 2]]

/-- The object `{"type": "Point"}`: a point without a coordinates member. -/
def pointWithoutCoordinates : Json := Json.object [("type", Json.string "Point")]

/-- The object `{"type": "Point", "coordinates": [0]}`: a point whose
coordinates array has one entry. -/
def pointWithShortCoordinates : Json :=
  Json.object [("type", Json.string "Point"), ("coordinates", Json.array [Json.int 0])]

/-- A JSON parser that accepts the text `{}` only. -/
def exJSonParse (pszText : String) : Option Json :=
  if pszText = "{}" then some (Json.object []) else none

/-- A parsed document with an objects mapping and no arcs member. -/
def docWithoutArcs : Json :=
  Json.object [("type", Json.string "Topology"),
    ("objects", Json.object [("a", Json.object [("type", Json.string "Point"),
      ("coordinates", Json.array [Json.int 0, Json.int 0])])])]

/-- The object `{"type": "Point", "coordinates": [0,0], "properties":
{"x": 1}}`. -/
def singlePointObject : Json :=
  Json.object [("type", Json.string "Point"),
    ("coordinates", Json.array [Json.int 0, Json.int 0]),
    ("properties", Json.object [("x", Json.int 1)])]

/-- The document with empty arcs, no transform, and objects mapping the key
`a` to `singlePointObject`. -/
def singlePointDoc : Json :=
  Json.object [("type", Json.string "Topology"), ("arcs", Json.array []),
    ("objects", Json.object [("a", singlePointObject)])]

/-- The layer `TopoJSON` with the fields `id` (string) and `x` (integer) and
no feature yet. -/
def singlePointSealedLayer : OGRGeoJSONLayer :=
  { name := "TopoJSON",
    fieldDefns := [{ name := "id", eType := OGRFieldType.OFTString },
                   { name := "x", eType := OGRFieldType.OFTInteger }],
    features := [],
    ops := [LayerOp.addFieldDefn, LayerOp.addFieldDefn] }

/-- A document whose objects hold one `GeometryCollection` (key `c`, with one
point geometry) and one sibling bare `Point` (key `p`). -/
def collectionAndPointDoc : Json :=
  Json.object [("type", Json.string "Topology"), ("arcs", Json.array []),
    ("objects", Json.object [
      ("c", Json.object [("type", Json.string "GeometryCollection"),
        ("geometries", Json.array [exPointObj [("y", Json.int 2)]])]),
      ("p", exPointObj [("x", Json.int 1)])])]

/-- A point object with the single property `x = 1`. -/
def objX : Json := exPointObj [("x", Json.int 1)]

/-- A point object with the single property `y = 2`. -/
def objY : Json := exPointObj [("y", Json.int 2)]

/-- The feature of `objX` under the schema `id, x, y`: `x` set, `y` unset. -/
def featX : OGRFeature :=
  { fields := [some (OGRField.string "a"), some (OGRField.integer 1), none],
    geometry := some (OGRGeometry.point (some (0, 0))) }

/-- The feature of `objY` under the schema `id, x, y`: `y` set, `x` unset. -/
def featY : OGRFeature :=
  { fields := [some (OGRField.string "b"), none, some (OGRField.integer 2)],
    geometry := some (OGRGeometry.point (some (0, 0))) }

/-- A `MultiPoint` object with the coordinates `[[1,1], [5], [2,0]]`, the
middle pair malformed. -/
def exMultiPointObj : Json :=
  Json.object [("type", Json.string "MultiPoint"),
    ("coordinates", Json.array [exPair 1 1, Json.array [Json.int 5], exPair 2 0])]

/-- An arc store whose only arc is the closed square
`[[0,0],[1,0],[1,1],[0,0]]`. -/
def squareArcs : List Json :=
  [Json.array [exPair 0 0, exPair 1 0, exPair 1 1, exPair 0 0]]

/-- A polygon arcs array whose first ring has no reference and whose second
ring is the arc 0. -/
def degenerateFirstRing : Json := Json.array [Json.array [], Json.array [Json.int 0]]

/-- A multipolygon arcs array with three members: a polygon whose ring is the
arc 0, a polygon whose only ring has no reference, and a member that is not
an array. -/
def exMultiPolygonArcs : Json :=
  Json.array [Json.array [Json.array [Json.int 0]], Json.array [Json.array []], Json.int 5]

/-- A document whose objects hold a bare `Point` (key `p`) followed by a
`GeometryCollection` (key `c`, with one point geometry). -/
def pointThenCollectionDoc : Json :=
  Json.object [("type", Json.string "Topology"), ("arcs", Json.array []),
    ("objects", Json.object [
      ("p", exPointObj [("x", Json.int 1)]),
      ("c", Json.object [("type", Json.string "GeometryCollection"),
        ("geometries", Json.array [exPointObj [("y", Json.int 2)]])])])]

/-- A point object whose `id` member is the number `1.5`. -/
def doubleIdObj : Json :=
  Json.object [("type", Json.string "Point"), ("coordinates", exPair 0 0),
    ("id", Json.double (3 / 2))]

/-- A document whose objects are the array holding `doubleIdObj`. -/
def doubleIdDoc : Json :=
  Json.object [("type", Json.string "Topology"), ("arcs", Json.array []),
    ("objects", Json.array [doubleIdObj])]

/-- A point object listing the property `a`, then a property named `id`. -/
def idAfterObj : Json := exPointObj [("a", Json.int 1), ("id", Json.int 2)]

/-- A document whose objects map the key `k` to `idAfterObj`. -/
def idAfterDoc : Json :=
  Json.object [("type", Json.string "Topology"), ("arcs", Json.array []),
    ("objects", Json.object [("k", idAfterObj)])]

/-! # Theorems -/

/-! ## JSON accessors and the line buffer -/

theorem ParsePoint_of_wellFormedPair (p : Json) (h : wellFormedPair p = true) :
    ParsePoint p = some (rawPoint p) := by
  match p, h with
  | .array [a, b], h =>
    simp only [wellFormedPair, Bool.and_eq_true] at h
    obtain ⟨ha, hb⟩ := h
    cases a <;> cases b <;> simp_all [isNumber, ParsePoint, rawPoint, json_object_get_type,
      json_object_array_length, json_object_array_get_idx]

theorem setNumPoints_grow (poLS : OGRLineString) (z : Int) (k : Nat)
    (hz : z = (poLS.length : Int) + (k : Int)) :
    setNumPoints poLS z = poLS ++ List.replicate k ((0, 0) : OGRRawPoint) := by
  subst hz
  have h1 : ((poLS.length : Int) + (k : Int)).toNat = poLS.length + k := by omega
  unfold setNumPoints
  rw [h1, List.take_of_length_le (Nat.le_add_right _ _), Nat.add_sub_cancel_left]

theorem setPoint_at (pre rest : OGRLineString) (a : OGRRawPoint) (z : Int) (x y : ℚ)
    (hz : z = (pre.length : Int)) :
    setPoint (pre ++ a :: rest) z x y = pre ++ (x, y) :: rest := by
  subst hz
  have h1 : ¬ ((pre.length : Int) < 0) := by omega
  have h2 : ¬ (getNumPoints (pre ++ a :: rest) ≤ (pre.length : Int)) := by
    simp only [getNumPoints, List.length_append, List.length_cons]; omega
  unfold setPoint
  rw [if_neg h1, if_neg h2, Int.toNat_ofNat, List.set_append_right _ _ (Nat.le_refl _)]
  simp

/-! ## The loop of ParseArc on arcs of well-formed pairs -/

theorem get_idx_wellFormed (items : List Json) (hwf : ∀ p ∈ items, wellFormedPair p = true)
    (i : Nat) (hi : i < items.length) :
    ParsePoint (json_object_array_get_idx (Json.array items) i) = some (rawPoint items[i]) := by
  have h1 : json_object_array_get_idx (Json.array items) i = items[i] := by
    simp [json_object_array_get_idx, List.getD_eq_getElem?_getD, List.getElem?_eq_getElem hi]
  rw [h1]
  exact ParsePoint_of_wellFormedPair _ (hwf _ (List.getElem_mem hi))

theorem ParseArcLoop_forward_fill (ps : ScalingParams) (items : List Json)
    (hwf : ∀ p ∈ items, wellFormedPair p = true) :
    ∀ (k i fuel : Nat) (pre : OGRLineString) (ax ay : ℚ) (B : Int),
      i + k = items.length → i ≠ 0 → k ≤ fuel → B + (i : Int) = (pre.length : Int) →
      ParseArcLoop (Json.array items) false ps fuel i
        { poLS := pre ++ List.replicate k ((0, 0) : OGRRawPoint), dfAccX := ax, dfAccY := ay,
          nBaseIndice := B, nPoints := items.length }
      = pre ++ specDecodeFrom ps ax ay ((items.drop i).map rawPoint) := by
  intro k
  induction k with
  | zero =>
    intro i fuel pre ax ay B hik _ _ _
    have hi : ¬ i < items.length := by omega
    have hd : items.drop i = [] := List.drop_of_length_le (by omega)
    cases fuel <;> simp [ParseArcLoop, hi, hd, specDecodeFrom]
  | succ k ih =>
    intro i fuel pre ax ay B hik hi0 hfuel hB
    obtain ⟨f, rfl⟩ : ∃ f, fuel = f + 1 := ⟨fuel - 1, by omega⟩
    have hlt : i < items.length := by omega
    have hp := get_idx_wellFormed items hwf i hlt
    have hd : items.drop i = items[i] :: items.drop (i + 1) := List.drop_eq_getElem_cons hlt
    rw [hd, List.map_cons, ParseArcLoop]
    simp only [if_pos hlt, ParseArcBody, hp, if_neg hi0, ParseArcWrite, Bool.not_false, if_true]
    rw [List.replicate_succ]
    cases hE : ps.bElementExists
    · simp only [Bool.false_eq_true, if_false]
      rw [setPoint_at pre _ _ _ _ _ hB]
      have := ih (i + 1) f (pre ++ [(((rawPoint items[i]).1 * ps.dfScale0 + ps.dfTranslate0,
        (rawPoint items[i]).2 * ps.dfScale1 + ps.dfTranslate1) : OGRRawPoint)]) ax ay B
        (by omega) (by omega) (by omega) (by simp; omega)
      simp only [List.append_assoc, List.singleton_append] at this
      rw [this]
      simp [specDecodeFrom, hE]
    · simp only [if_true]
      rw [setPoint_at pre _ _ _ _ _ hB]
      have := ih (i + 1) f (pre ++ [(((ax + (rawPoint items[i]).1) * ps.dfScale0 + ps.dfTranslate0,
        (ay + (rawPoint items[i]).2) * ps.dfScale1 + ps.dfTranslate1) : OGRRawPoint)])
        (ax + (rawPoint items[i]).1) (ay + (rawPoint items[i]).2) B
        (by omega) (by omega) (by omega) (by simp; omega)
      simp only [List.append_assoc, List.singleton_append] at this
      rw [this]
      simp [specDecodeFrom, hE]


theorem replicate_succ_snoc {α : Type} (a : α) (k : Nat) :
    List.replicate (k + 1) a = List.replicate k a ++ [a] := by
  rw [List.replicate_add]; rfl

theorem ParseArcLoop_reverse_fill (ps : ScalingParams) (items : List Json)
    (hwf : ∀ p ∈ items, wellFormedPair p = true) :
    ∀ (k i fuel : Nat) (pre suf : OGRLineString) (ax ay : ℚ) (B : Int) (M : Nat),
      i + k = M → M ≤ items.length → i ≠ 0 → k ≤ fuel → B = (pre.length : Int) →
      ParseArcLoop (Json.array items) true ps fuel i
        { poLS := pre ++ List.replicate k ((0, 0) : OGRRawPoint) ++ suf, dfAccX := ax,
          dfAccY := ay, nBaseIndice := B, nPoints := M }
      = pre ++ (specDecodeFrom ps ax ay (((items.drop i).take k).map rawPoint)).reverse ++ suf := by
  intro k
  induction k with
  | zero =>
    intro i fuel pre suf ax ay B M hik _ _ _ _
    have hi : ¬ i < M := by omega
    cases fuel <;> simp [ParseArcLoop, hi, specDecodeFrom]
  | succ k ih =>
    intro i fuel pre suf ax ay B M hik hM hi0 hfuel hB
    obtain ⟨f, rfl⟩ : ∃ f, fuel = f + 1 := ⟨fuel - 1, by omega⟩
    have hlt : i < items.length := by omega
    have hltM : i < M := by omega
    have hp := get_idx_wellFormed items hwf i hlt
    have hd : items.drop i = items[i] :: items.drop (i + 1) := List.drop_eq_getElem_cons hlt
    rw [hd, List.take_succ_cons, List.map_cons, ParseArcLoop]
    simp only [if_pos hltM, ParseArcBody, hp, if_neg hi0, ParseArcWrite, Bool.not_true,
      Bool.false_eq_true, if_false]
    have hidx : B + (M : Int) - 1 - (i : Int) =
        ((pre ++ List.replicate k ((0, 0) : OGRRawPoint)).length : Int) := by
      simp only [List.length_append, List.length_replicate]; push_cast; omega
    have hline : pre ++ List.replicate (k + 1) ((0, 0) : OGRRawPoint) ++ suf =
        (pre ++ List.replicate k ((0, 0) : OGRRawPoint)) ++ (0, 0) :: suf := by
      rw [replicate_succ_snoc]; simp
    rw [hline]
    cases hE : ps.bElementExists
    · simp only [Bool.false_eq_true, if_false]
      rw [setPoint_at _ _ _ _ _ _ hidx]
      rw [ih (i + 1) f pre _ ax ay B M (by omega) hM (by omega) (by omega) hB]
      simp [specDecodeFrom, hE]
    · simp only [if_true]
      rw [setPoint_at _ _ _ _ _ _ hidx]
      rw [ih (i + 1) f pre _ _ _ B M (by omega) hM (by omega) (by omega) hB]
      simp [specDecodeFrom, hE]

theorem specDecodeFrom_take (ps : ScalingParams) (k : Nat) :
    ∀ (l : List (ℚ × ℚ)) (ax ay : ℚ),
      specDecodeFrom ps ax ay (l.take k) = (specDecodeFrom ps ax ay l).take k := by
  induction k with
  | zero => intro l ax ay; simp [specDecodeFrom]
  | succ k ih =>
    intro l ax ay
    cases l with
    | nil => simp [specDecodeFrom]
    | cons p t =>
      cases hE : ps.bElementExists <;> simp [specDecodeFrom, hE, ih]

theorem specDecodeFrom_length (ps : ScalingParams) :
    ∀ (l : List (ℚ × ℚ)) (ax ay : ℚ), (specDecodeFrom ps ax ay l).length = l.length := by
  intro l
  induction l with
  | nil => intro ax ay; simp [specDecodeFrom]
  | cons p t ih =>
    intro ax ay
    cases hE : ps.bElementExists <;> simp [specDecodeFrom, hE, ih]


theorem getNumPoints_pos (poLS : OGRLineString) (h : poLS ≠ []) :
    decide (getNumPoints poLS > 0) = true := by
  cases poLS with
  | nil => exact absurd rfl h
  | cons a t => simp [getNumPoints]

theorem getNumPoints_nil : decide (getNumPoints ([] : OGRLineString) > 0) = false := by
  simp [getNumPoints]

theorem setPoint_setNumPoints_last (poLS : OGRLineString) (z1 z2 : Int) (m : Nat) (x y : ℚ)
    (h1 : z1 = (poLS.length : Int) + ((m : Int) + 1)) (h2 : z2 = (poLS.length : Int) + (m : Int)) :
    setPoint (setNumPoints poLS z1) z2 x y =
      poLS ++ List.replicate m ((0, 0) : OGRRawPoint) ++ [(x, y)] := by
  rw [setNumPoints_grow poLS z1 (m + 1) (by rw [h1]; push_cast; rfl), replicate_succ_snoc,
    ← List.append_assoc]
  exact setPoint_at _ [] _ _ _ _ (by rw [h2]; simp)

theorem reverse_tail_cons (d : OGRRawPoint) (R : OGRLineString) (hR : R ≠ []) :
    (d :: R).reverse.tail = (R.take (R.length - 1)).reverse ++ [d] := by
  rw [List.reverse_cons, List.tail_append_of_ne_nil (by simpa using hR), List.tail_reverse,
    List.dropLast_eq_take]

/-- The points a reference contributes: all of them onto an empty line, all
but the first onto a line that already has points. -/
theorem ParseArc_wellFormed (ps : ScalingParams) (poLS : OGRLineString) (arcs : List Json)
    (nArcID : Int) (bReverse : Bool) (items : List Json) (hid : 0 ≤ nArcID)
    (harc : arcs.getD nArcID.toNat Json.null = Json.array items)
    (hwf : ∀ p ∈ items, wellFormedPair p = true) :
    ParseArc poLS (Json.array arcs) nArcID bReverse ps =
      poLS ++ (if poLS = [] then
          (if bReverse then (specDecodeFrom ps 0 0 (items.map rawPoint)).reverse
            else specDecodeFrom ps 0 0 (items.map rawPoint))
        else
          (if bReverse then (specDecodeFrom ps 0 0 (items.map rawPoint)).reverse
            else specDecodeFrom ps 0 0 (items.map rawPoint)).tail) := by
  have hneg : ¬ nArcID < 0 := by omega
  unfold ParseArc
  simp only [if_neg hneg, json_object_array_get_idx, harc, json_object_get_type,
    json_object_array_length, ne_eq, not_true_eq_false, if_false]
  cases items with
  | nil => simp [ParseArcLoop, specDecodeFrom]
  | cons p0 rest =>
    have hp := get_idx_wellFormed (p0 :: rest) hwf 0 (by simp)
    simp only [List.getElem_cons_zero] at hp
    rw [List.length_cons, ParseArcLoop]
    have hFF := ParseArcLoop_forward_fill ps (p0 :: rest) hwf rest.length 1 rest.length
    have hRF := ParseArcLoop_reverse_fill ps (p0 :: rest) hwf
    simp only [List.length_cons, List.drop_succ_cons, List.drop_zero] at hFF hRF
    have hsing : ∀ (d : OGRRawPoint) (l : OGRLineString), d :: l = [d] ++ l := fun _ _ => rfl
    by_cases hls : poLS = []
    · subst hls
      cases bReverse
      · -- forward onto an empty line
        cases hE : ps.bElementExists <;>
        simp only [Nat.zero_lt_succ, if_true, ParseArcBody, hp, List.length_cons, hE,
          getNumPoints_nil, Bool.not_false, Bool.and_false, Bool.false_eq_true, if_false,
          ParseArcWrite, Bool.and_self, Nat.zero_add] <;>
        rw [setNumPoints_grow [] _ (rest.length + 1), List.replicate_succ,
          setPoint_at [] _ _ _ _ _, List.nil_append, hsing, hFF] <;>
        first
          | omega
          | (simp [getNumPoints]; done)
          | (simp [specDecodeFrom, hE]; done)
      · -- reversed onto an empty line
        cases hE : ps.bElementExists <;>
        simp only [Nat.zero_lt_succ, if_true, ParseArcBody, hp, List.length_cons, hE,
          getNumPoints_nil, Bool.not_false, Bool.and_false, Bool.false_eq_true, if_false,
          ParseArcWrite, Bool.and_self, Nat.zero_add, Bool.not_true] <;>
        rw [setPoint_setNumPoints_last [] _ _ rest.length,
          hRF rest.length 1 rest.length []] <;>
        first
          | omega
          | (simp [getNumPoints]; done)
          | (simp [specDecodeFrom, hE]; done)
    · have hpos := getNumPoints_pos poLS hls
      cases bReverse
      · -- forward onto a line with points: the first point is skipped
        cases hE : ps.bElementExists <;>
        simp only [Nat.zero_lt_succ, if_true, ParseArcBody, hp, List.length_cons, hE,
          hpos, Bool.not_false, Bool.and_self, Bool.false_eq_true, if_false,
          Nat.zero_add] <;>
        rw [setNumPoints_grow poLS _ rest.length, hFF] <;>
        first
          | omega
          | (simp [getNumPoints]; done)
          | (simp [specDecodeFrom, hE, hls]; done)
          | (simp only [getNumPoints]; push_cast; omega)
      · -- reversed onto a line with points: the last written point is dropped
        cases rest with
        | nil =>
          cases hE : ps.bElementExists <;>
          simp only [Nat.zero_lt_succ, if_true, ParseArcBody, hp, List.length_cons, hE,
            hpos, Bool.not_true, Bool.and_self, Bool.false_eq_true, if_false,
            Nat.zero_add, Bool.false_and, List.length_nil, Nat.sub_self] <;>
          rw [setNumPoints_grow poLS _ 0] <;>
          first
            | (simp [specDecodeFrom, hE, hls]; done)
            | (simp [getNumPoints]; done)
        | cons q rest1 =>
          cases hE : ps.bElementExists <;>
          simp only [Nat.zero_lt_succ, if_true, ParseArcBody, hp, List.length_cons, hE,
            hpos, Bool.not_true, Bool.and_self, Bool.false_eq_true, if_false,
            Nat.zero_add, Bool.false_and, Nat.add_sub_cancel, Nat.succ_ne_zero,
            ParseArcWrite] <;>
          rw [setPoint_setNumPoints_last poLS _ _ rest1.length,
            hRF rest1.length 1 (rest1.length + 1) poLS] <;>
          first
            | omega
            | (simp [getNumPoints]; done)
            | (simp only [getNumPoints, List.length_cons]; push_cast; omega)
            | (simp only [List.drop_succ_cons, List.drop_zero, hls, if_false, if_true,
                List.map_cons, specDecodeFrom, hE, Bool.false_eq_true, List.map_take,
                specDecodeFrom_take]
               rw [reverse_tail_cons _ _ (by
                 cases hE2 : ps.bElementExists <;> simp [specDecodeFrom, hE2])]
               simp [specDecodeFrom_length, specDecodeFrom, hE]
               done)

/-! ## ParseLineString on rings of well-formed arcs -/

theorem refIndex_nonneg (r : Int) : 0 ≤ refIndex r := by
  unfold refIndex decodeArcId
  split <;> simp only <;> omega

theorem wellFormedArc_items (a : Json) (h : wellFormedArc a = true) :
    ∃ items, a = Json.array items ∧ ∀ p ∈ items, wellFormedPair p = true := by
  cases a with
  | array items => exact ⟨items, rfl, by simpa [wellFormedArc] using h⟩
  | _ => simp [wellFormedArc] at h

/-- One ring reference to an arc of well-formed pairs. -/
theorem ParseLineStringBody_wellFormed (ps : ScalingParams) (arcs : List Json)
    (poLS : OGRLineString) (r : Int) (hr : refInRange arcs r)
    (hwf : wellFormedArc (refArc arcs r) = true) :
    ParseLineStringBody (Json.array arcs) ps poLS (Json.int r) =
      poLS ++ (if poLS = [] then specRefPoints ps arcs r
        else (specRefPoints ps arcs r).tail) := by
  obtain ⟨items, harc, hitems⟩ := wellFormedArc_items _ hwf
  have h := ParseArc_wellFormed ps poLS arcs (refIndex r) (refReversed r) items
    (refIndex_nonneg r) harc hitems
  have hr2 : (decodeArcId (json_object_get_int (Json.int r))).1 <
      (json_object_array_length (Json.array arcs) : Int) := hr
  unfold ParseLineStringBody
  simp only [json_object_get_type, if_true, hr2]
  unfold refIndex refReversed at h
  rw [h]
  simp only [specRefPoints, specDecodeArc, rawPoints, harc, arrayItems, refReversed]

theorem ParseLineString_chain (ps : ScalingParams) (arcs : List Json) :
    ∀ (ring : List Int) (poLS : OGRLineString),
      (∀ r ∈ ring, refInRange arcs r ∧ wellFormedArc (refArc arcs r) = true) →
      ParseLineString poLS (Json.array (ring.map Json.int)) (Json.array arcs) ps =
        poLS ++ specChain poLS.isEmpty (ring.map (specRefPoints ps arcs)) := by
  intro ring
  induction ring with
  | nil => intro poLS _; simp [ParseLineString, arrayItems, specChain]
  | cons r t ih =>
    intro poLS h
    have hr := h r (List.mem_cons_self _ _)
    have ht := ih (ParseLineStringBody (Json.array arcs) ps poLS (Json.int r))
      (fun x hx => h x (List.mem_cons_of_mem _ hx))
    simp only [ParseLineString, arrayItems, List.map_cons, List.foldl_cons] at ht ⊢
    rw [ht, ParseLineStringBody_wellFormed ps arcs poLS r hr.1 hr.2]
    cases poLS with
    | nil =>
      cases hD : specRefPoints ps arcs r <;> simp [specChain]
    | cons a l => simp [specChain]

theorem specChain_false_eq (ds : List (List OGRRawPoint)) :
    specChain false ds = specJoinTails ds := by
  induction ds with
  | nil => rfl
  | cons d t ih => simp [specChain, specJoinTails, ih]

theorem specChain_true_of_nonempty (ds : List (List OGRRawPoint)) (h : ∀ d ∈ ds, d ≠ []) :
    specChain true ds = specRingPoints ds := by
  cases ds with
  | nil => rfl
  | cons d t =>
    have hd := h d (List.mem_cons_self _ _)
    cases d with
    | nil => exact absurd rfl hd
    | cons a l => simp [specChain, specRingPoints, specChain_false_eq]

theorem specRefPoints_length (ps : ScalingParams) (arcs : List Json) (r : Int) :
    (specRefPoints ps arcs r).length = json_object_array_length (refArc arcs r) := by
  unfold specRefPoints specDecodeArc rawPoints
  have : ∀ a : Json, (arrayItems a).length = json_object_array_length a := by
    intro a; cases a <;> rfl
  split <;> simp [specDecodeFrom_length, this]


theorem specRefPoints_ne_nil (ps : ScalingParams) (arcs : List Json) (r : Int)
    (h : 0 < json_object_array_length (refArc arcs r)) : specRefPoints ps arcs r ≠ [] := by
  intro h0
  have := specRefPoints_length ps arcs r
  rw [h0] at this
  simp at this
  omega

/-- C1. For every transform, every arc store whose arcs are non-empty lists of
well-formed numeric pairs and every ring of in-range integer references
`r1..rk`, `ParseLineString` applied to an empty line produces exactly
`D(r1) ++ tail (D(r2)) ++ ... ++ tail (D(rk))`, where `D(r)` is the decoded
point list of the referenced arc per the transform rule, reversed when `r` is
negative. -/
theorem C1_ParseLineString_concatenates_arcs (ps : ScalingParams) (arcs : List Json)
    (ring : List Int)
    (harcs : ∀ a ∈ arcs, wellFormedArc a = true ∧ 0 < json_object_array_length a)
    (hring : ∀ r ∈ ring, refInRange arcs r) :
    ParseLineString [] (Json.array (ring.map Json.int)) (Json.array arcs) ps =
      specRingPoints (ring.map (specRefPoints ps arcs)) := by
  have hmem : ∀ r ∈ ring, refArc arcs r ∈ arcs := by
    intro r hr
    have h1 := hring r hr
    have h2 := refIndex_nonneg r
    unfold refInRange at h1
    have h3 : (refIndex r).toNat < arcs.length := by omega
    unfold refArc
    rw [List.getD_eq_getElem?_getD, List.getElem?_eq_getElem h3]
    exact List.getElem_mem h3
  have h := ParseLineString_chain ps arcs ring []
    (fun r hr => ⟨hring r hr, (harcs _ (hmem r hr)).1⟩)
  rw [h, List.nil_append]
  apply specChain_true_of_nonempty
  intro d hd
  obtain ⟨r, hr, rfl⟩ := List.mem_map.1 hd
  exact specRefPoints_ne_nil ps arcs r (harcs _ (hmem r hr)).2


theorem C1_witness :
    (∀ a ∈ exArcs, wellFormedArc a = true ∧ 0 < json_object_array_length a) ∧
    (∀ r ∈ ([0, -2] : List Int), refInRange exArcs r) ∧
    ParseLineString [] (Json.array (([0, -2] : List Int).map Json.int)) (Json.array exArcs)
        exParams =
      specRingPoints (([0, -2] : List Int).map (specRefPoints exParams exArcs)) :=
  ⟨by decide, by decide, C1_ParseLineString_concatenates_arcs exParams exArcs [0, -2]
    (by decide) (by decide)⟩

theorem specDecodeFrom_getElem (ps : ScalingParams) :
    ∀ (l : List (ℚ × ℚ)) (ax ay : ℚ) (k : Nat) (hk : k < l.length),
      (specDecodeFrom ps ax ay l)[k]? =
        some (if ps.bElementExists then
            (((l.take (k + 1)).foldl (fun acc p => acc + p.1) ax) * ps.dfScale0
                + ps.dfTranslate0,
             ((l.take (k + 1)).foldl (fun acc p => acc + p.2) ay) * ps.dfScale1
                + ps.dfTranslate1)
          else (l[k].1 * ps.dfScale0 + ps.dfTranslate0,
                l[k].2 * ps.dfScale1 + ps.dfTranslate1)) := by
  intro l
  induction l with
  | nil => intro ax ay k hk; simp at hk
  | cons p t ih =>
    intro ax ay k hk
    cases hE : ps.bElementExists
    · cases k with
      | zero => simp [specDecodeFrom, hE]
      | succ k =>
        have hk2 : k < t.length := by simpa using hk
        have := ih ax ay k hk2
        simp only [hE, Bool.false_eq_true, if_false] at this
        simp [specDecodeFrom, hE, this]
    · cases k with
      | zero => simp [specDecodeFrom, hE]
      | succ k =>
        have hk2 : k < t.length := by simpa using hk
        have := ih (ax + p.1) (ay + p.2) k hk2
        simp only [hE, if_true] at this
        simp only [specDecodeFrom, hE, if_true, List.getElem?_cons_succ, this,
          List.take_succ_cons, List.foldl_cons]


/-- C2. For every arc of well-formed pairs `p0..p(n-1)` decoded forward into
an empty line, the line gets `n` points; with the transform present the
`k`-th point is `(p0+...+pk)*scale + translate` componentwise, the running
sum being taken from 0 in the order in which the accumulator of the code
adds the points (`((0 + p0) + p1) + ... + pk`), with the transform absent it
is `pk*scale + translate` with no accumulation, which for the absent
(identity) transform of `ReadLayers` is `pk` itself. -/
theorem C2_forward_decode_points (ps : ScalingParams) (arcs : List Json) (nArcID : Int)
    (items : List Json) (hid : 0 ≤ nArcID)
    (harc : arcs.getD nArcID.toNat Json.null = Json.array items)
    (hwf : ∀ p ∈ items, wellFormedPair p = true) :
    (ParseArc [] (Json.array arcs) nArcID false ps).length = items.length ∧
    ∀ (k : Nat) (hk : k < items.length),
      (ps.bElementExists = true →
        (ParseArc [] (Json.array arcs) nArcID false ps)[k]? =
          some (((items.take (k + 1)).foldl (fun acc p => acc + (rawPoint p).1) 0)
                  * ps.dfScale0 + ps.dfTranslate0,
                ((items.take (k + 1)).foldl (fun acc p => acc + (rawPoint p).2) 0)
                  * ps.dfScale1 + ps.dfTranslate1)) ∧
      (ps.bElementExists = false →
        (ParseArc [] (Json.array arcs) nArcID false ps)[k]? =
          some ((rawPoint items[k]).1 * ps.dfScale0 + ps.dfTranslate0,
                (rawPoint items[k]).2 * ps.dfScale1 + ps.dfTranslate1)) ∧
      (ps = identityParams →
        (ParseArc [] (Json.array arcs) nArcID false ps)[k]? = some (rawPoint items[k])) := by
  have h := ParseArc_wellFormed ps [] arcs nArcID false items hid harc hwf
  simp only [if_true, Bool.false_eq_true, if_false, List.nil_append] at h
  rw [h]
  refine ⟨by simp [specDecodeFrom_length], ?_⟩
  intro k hk
  have hk2 : k < (items.map rawPoint).length := by simpa using hk
  have hget := specDecodeFrom_getElem ps (items.map rawPoint) 0 0 k hk2
  refine ⟨?_, ?_, ?_⟩
  · intro hE
    rw [hget]
    simp only [hE, if_true, ← List.map_take, List.foldl_map]
  · intro hE
    rw [hget]
    simp [hE]
  · intro hE
    rw [hget]
    subst hE
    simp [identityParams]

theorem C2_witness :
    (0 : Int) ≤ 0 ∧
    exArcs.getD (0 : Int).toNat Json.null = Json.array [exPair 1 1, exPair 2 0] ∧
    (∀ p ∈ [exPair 1 1, exPair 2 0], wellFormedPair p = true) ∧
    (ParseArc [] (Json.array exArcs) 0 false exParams).length = 2 ∧
    (ParseArc [] (Json.array exArcs) 0 false exParams)[0]? = some (12, 12) ∧
    (ParseArc [] (Json.array exArcs) 0 false exParams)[1]? = some (16, 12) := by
  have h := C2_forward_decode_points exParams exArcs 0 [exPair 1 1, exPair 2 0]
    (by decide) rfl (by decide)
  refine ⟨by decide, rfl, by decide, h.1, ?_, ?_⟩
  · rw [(h.2 0 (by decide)).1 rfl]
    norm_num [exPair, rawPoint, json_object_get_double, exParams]
  · rw [(h.2 1 (by decide)).1 rfl]
    norm_num [exPair, rawPoint, json_object_get_double, exParams]


/-- C4. For any two non-empty arcs of well-formed pairs with `n1` and `n2`
points, and for every pair of references to them (forward or reversed, in
each of the four combinations), decoding the two-reference ring into an empty
line yields exactly `n1 + n2 - 1` points: all points of the first arc in
traversal order followed by the points of the second arc without its first
point in traversal order, so the junction point is emitted once. -/
theorem C4_two_arcs_share_boundary (ps : ScalingParams) (arcs : List Json) (r1 r2 : Int)
    (h1 : refInRange arcs r1) (h2 : refInRange arcs r2)
    (hw1 : wellFormedArc (refArc arcs r1) = true)
    (hw2 : wellFormedArc (refArc arcs r2) = true)
    (hn1 : 0 < json_object_array_length (refArc arcs r1))
    (hn2 : 0 < json_object_array_length (refArc arcs r2)) :
    (ParseLineString [] (Json.array [Json.int r1, Json.int r2]) (Json.array arcs) ps).length =
        json_object_array_length (refArc arcs r1) + json_object_array_length (refArc arcs r2) - 1 ∧
    ParseLineString [] (Json.array [Json.int r1, Json.int r2]) (Json.array arcs) ps =
        specRefPoints ps arcs r1 ++ (specRefPoints ps arcs r2).tail := by
  have h := ParseLineString_chain ps arcs [r1, r2] [] (by
    intro r hr
    simp only [List.mem_cons, List.mem_singleton, List.not_mem_nil, or_false] at hr
    rcases hr with rfl | rfl
    · exact ⟨h1, hw1⟩
    · exact ⟨h2, hw2⟩)
  have hne := specRefPoints_ne_nil ps arcs r1 hn1
  have hout : ParseLineString [] (Json.array [Json.int r1, Json.int r2]) (Json.array arcs) ps =
      specRefPoints ps arcs r1 ++ (specRefPoints ps arcs r2).tail := by
    simp only [List.map_cons, List.map_nil] at h
    rw [h]
    cases hD : specRefPoints ps arcs r1 with
    | nil => exact absurd hD hne
    | cons a l => simp [specChain]
  refine ⟨?_, hout⟩
  rw [hout, List.length_append, List.length_tail, specRefPoints_length, specRefPoints_length]
  omega

theorem C4_witness :
    refInRange exArcs 0 ∧ refInRange exArcs (-2) ∧
    wellFormedArc (refArc exArcs 0) = true ∧ wellFormedArc (refArc exArcs (-2)) = true ∧
    0 < json_object_array_length (refArc exArcs 0) ∧
    0 < json_object_array_length (refArc exArcs (-2)) ∧
    (ParseLineString [] (Json.array [Json.int 0, Json.int (-2)]) (Json.array exArcs)
        exParams).length =
      json_object_array_length (refArc exArcs 0) +
        json_object_array_length (refArc exArcs (-2)) - 1 ∧
    ParseLineString [] (Json.array [Json.int 0, Json.int (-2)]) (Json.array exArcs) exParams =
      specRefPoints exParams exArcs 0 ++ (specRefPoints exParams exArcs (-2)).tail :=
  ⟨by decide, by decide, by decide, by decide, by decide, by decide,
    C4_two_arcs_share_boundary exParams exArcs 0 (-2) (by decide) (by decide) (by decide)
      (by decide) (by decide) (by decide)⟩

theorem specChain_false_length (ds : List (List OGRRawPoint)) :
    (specChain false ds).length + countNonEmpty ds = totalPoints ds := by
  induction ds with
  | nil => rfl
  | cons d t ih =>
    cases d with
    | nil => simpa [specChain, countNonEmpty, totalPoints] using ih
    | cons a l =>
      simp only [specChain, countNonEmpty, totalPoints, List.tail_cons, List.length_append,
        List.filter_cons, List.isEmpty_cons, Bool.not_false, if_true, List.length_cons,
        List.map_cons, List.sum_cons] at ih ⊢
      omega

theorem specChain_true_length (ds : List (List OGRRawPoint)) :
    (specChain true ds).length + (countNonEmpty ds - 1) = totalPoints ds := by
  induction ds with
  | nil => rfl
  | cons d t ih =>
    cases d with
    | nil => simpa [specChain, countNonEmpty, totalPoints] using ih
    | cons a l =>
      have h := specChain_false_length t
      simp only [specChain, countNonEmpty, totalPoints, List.length_append,
        List.filter_cons, List.isEmpty_cons, Bool.not_false, if_true, List.length_cons,
        List.map_cons, List.sum_cons, Nat.add_sub_cancel] at h ⊢
      omega

theorem totalPoints_specRefPoints (ps : ScalingParams) (arcs : List Json) (ring : List Int) :
    totalPoints (ring.map (specRefPoints ps arcs)) = (ringArcCounts arcs ring).sum := by
  induction ring with
  | nil => rfl
  | cons r t ih =>
    simp only [totalPoints, ringArcCounts, List.map_cons, List.sum_cons, List.map_map] at ih ⊢
    rw [ih, specRefPoints_length]

theorem countNonEmpty_specRefPoints (ps : ScalingParams) (arcs : List Json) (ring : List Int) :
    countNonEmpty (ring.map (specRefPoints ps arcs)) =
      ((ringArcCounts arcs ring).filter (fun n => decide (0 < n))).length := by
  induction ring with
  | nil => rfl
  | cons r t ih =>
    have hl := specRefPoints_length ps arcs r
    simp only [countNonEmpty, ringArcCounts, List.map_cons, List.filter_cons] at ih ⊢
    cases hD : specRefPoints ps arcs r with
    | nil =>
      rw [hD] at hl
      simp only [List.length_nil] at hl
      simp [← hl, ih]
    | cons a l =>
      rw [hD] at hl
      simp only [List.length_cons] at hl
      simp [← hl, ih]

/-- C5 (as amended). For every ring of in-range references to arcs of
well-formed pairs, the line decoded by `ParseLineString` from an empty line
has as many points as the referenced arcs have in total, minus one per
boundary between consecutive non-empty arcs: `sum - (m - 1)` where `m` is the
number of referenced arcs that are not empty. -/
theorem C5_point_count (ps : ScalingParams) (arcs : List Json) (ring : List Int)
    (h : ∀ r ∈ ring, refInRange arcs r ∧ wellFormedArc (refArc arcs r) = true) :
    (ParseLineString [] (Json.array (ring.map Json.int)) (Json.array arcs) ps).length =
      (ringArcCounts arcs ring).sum -
        (((ringArcCounts arcs ring).filter (fun n => decide (0 < n))).length - 1) := by
  rw [ParseLineString_chain ps arcs ring [] h, List.nil_append]
  have h1 := specChain_true_length (ring.map (specRefPoints ps arcs))
  rw [totalPoints_specRefPoints, countNonEmpty_specRefPoints] at h1
  simp only [List.isEmpty_nil]
  omega

theorem C5_witness :
    (∀ r ∈ ([0, 1] : List Int),
      refInRange emptyArcArcs r ∧ wellFormedArc (refArc emptyArcArcs r) = true) ∧
    (ParseLineString [] (Json.array (([0, 1] : List Int).map Json.int))
        (Json.array emptyArcArcs) identityParams).length =
      (ringArcCounts emptyArcArcs [0, 1]).sum -
        (((ringArcCounts emptyArcArcs [0, 1]).filter (fun n => decide (0 < n))).length - 1) :=
  ⟨by decide, C5_point_count identityParams emptyArcArcs [0, 1] (by decide)⟩

/-- C5 fails as stated: the ring `[0, 1]` over an empty arc and a two-point
arc decodes to 2 points, while `sum - (k - 1)` is `2 - 1 = 1`. -/
theorem C5_counterexample :
    (∀ r ∈ ([0, 1] : List Int),
      refInRange emptyArcArcs r ∧ wellFormedArc (refArc emptyArcArcs r) = true) ∧
    (ParseLineString [] (Json.array (([0, 1] : List Int).map Json.int))
        (Json.array emptyArcArcs) identityParams).length = 2 ∧
    (ringArcCounts emptyArcArcs [0, 1]).sum - (([0, 1] : List Int).length - 1) = 1 := by
  decide

/-! ## Reversed references -/

theorem json_object_get_int_int (n : Int) :
    json_object_get_int (Json.int n) =
      if n ≤ -2147483648 then -2147483648 else if 2147483647 ≤ n then 2147483647 else n := rfl

theorem refIndex_neg_succ (r : Int) (hr : 0 ≤ r) :
    refIndex (-(r + 1)) = refIndex r ∧ refReversed r = false ∧
      refReversed (-(r + 1)) = true := by
  unfold refIndex refReversed decodeArcId
  rw [json_object_get_int_int, json_object_get_int_int]
  refine ⟨?_, ?_, ?_⟩ <;> (repeat' split) <;> simp only <;> omega

/-! ## Polygons and multipolygons -/

theorem closeRings_closed (poLR : OGRLineString) :
    (closeRings poLR).head? = (closeRings poLR).getLast? := by
  cases poLR with
  | nil => rfl
  | cons a t =>
    have hne : (a :: t) ≠ [] := by simp
    have hl : (a :: t).getLast? = some ((a :: t).getLast hne) := List.getLast?_eq_getLast _ hne
    by_cases heq : a = (a :: t).getLast hne
    · have hc : closeRings (a :: t) = a :: t := by
        unfold closeRings
        rw [hl, List.head?_cons]
        exact if_pos heq
      rw [hc, hl, List.head?_cons, ← heq]
    · have hc : closeRings (a :: t) = (a :: t) ++ [a] := by
        unfold closeRings
        rw [hl, List.head?_cons]
        exact if_neg heq
      rw [hc, List.getLast?_concat]
      rfl

theorem foldl_filter_append {α β : Type} (f : β → α) (keep : α → Bool) :
    ∀ (l : List β) (acc : List α),
      l.foldl (fun acc x => if keep (f x) then acc ++ [f x] else acc) acc =
        acc ++ (l.map f).filter keep := by
  intro l
  induction l with
  | nil => intro acc; simp
  | cons x t ih =>
    intro acc
    simp only [List.foldl_cons, List.map_cons, List.filter_cons]
    rw [ih]
    split <;> simp

/-- The rings of a polygon are the closed decoded rings with at least 4
points, in the order of the arcs array. -/
theorem ParsePolygon_eq_filter (poPoly : OGRPolygon) (poArcsObj poArcsDB : Json)
    (ps : ScalingParams) :
    ParsePolygon poPoly poArcsObj poArcsDB ps =
      poPoly ++ ((arrayItems poArcsObj).map (closedRingOf poArcsDB ps)).filter
        (fun r => decide (4 ≤ r.length)) := by
  unfold ParsePolygon
  rw [← foldl_filter_append]
  congr 1
  funext acc x
  unfold ParsePolygonBody getNumPoints
  by_cases h : 4 ≤ (closedRingOf poArcsDB ps x).length
  · have h2 : ¬ ((closedRingOf poArcsDB ps x).length : Int) < 4 := by omega
    simp [h, h2]
  · have h2 : ((closedRingOf poArcsDB ps x).length : Int) < 4 := by omega
    simp [h, h2]

theorem ParsePolygon_rings (poArcsObj poArcsDB : Json) (ps : ScalingParams) :
    ∀ ring ∈ ParsePolygon [] poArcsObj poArcsDB ps,
      4 ≤ ring.length ∧ ring.head? = ring.getLast? := by
  intro ring hring
  rw [ParsePolygon_eq_filter, List.nil_append, List.mem_filter, List.mem_map] at hring
  obtain ⟨⟨poRing, _, rfl⟩, hlen⟩ := hring
  exact ⟨by simpa using hlen, closeRings_closed _⟩

/-- C6. For every list of ring specs, arc store and transform, every ring of
the polygon built by `ParsePolygon` has at least 4 points and its first point
equals its last point; a decoded ring that has fewer than 4 points after
forced closure is not a ring of the polygon. -/
theorem C6_polygon_rings_closed_and_long (poArcsObj poArcsDB : Json) (ps : ScalingParams) :
    (∀ ring ∈ ParsePolygon [] poArcsObj poArcsDB ps,
      4 ≤ ring.length ∧ ring.head? = ring.getLast?) ∧
    (∀ poRing ∈ arrayItems poArcsObj, (closedRingOf poArcsDB ps poRing).length < 4 →
      closedRingOf poArcsDB ps poRing ∉ ParsePolygon [] poArcsObj poArcsDB ps) := by
  refine ⟨ParsePolygon_rings poArcsObj poArcsDB ps, ?_⟩
  intro poRing _ hshort hmem
  have := (ParsePolygon_rings poArcsObj poArcsDB ps _ hmem).1
  omega

theorem ParsePolygon_IsEmpty (poArcsObj poArcsDB : Json) (ps : ScalingParams) :
    IsEmpty (ParsePolygon [] poArcsObj poArcsDB ps) =
      decide (ParsePolygon [] poArcsObj poArcsDB ps = []) := by
  have h := ParsePolygon_rings poArcsObj poArcsDB ps
  cases hP : ParsePolygon [] poArcsObj poArcsDB ps with
  | nil => simp [IsEmpty]
  | cons r t =>
    rw [hP] at h
    have hr := (h r (List.mem_cons_self _ _)).1
    cases r with
    | nil => simp at hr
    | cons a l => simp [IsEmpty]


theorem polygonOf_IsEmpty (poArcsDB : Json) (ps : ScalingParams) (poPolyArcs : Json) :
    IsEmpty (polygonOf poArcsDB ps poPolyArcs) = decide (polygonOf poArcsDB ps poPolyArcs = []) := by
  unfold polygonOf
  split
  · exact ParsePolygon_IsEmpty _ _ _
  · simp [IsEmpty]

theorem polygonOf_eq_nil_iff (poArcsDB : Json) (ps : ScalingParams) (poPolyArcs : Json) :
    polygonOf poArcsDB ps poPolyArcs = [] ↔
      (json_object_get_type poPolyArcs ≠ json_type_array ∨
        ∀ poRing ∈ arrayItems poPolyArcs, (closedRingOf poArcsDB ps poRing).length < 4) := by
  unfold polygonOf
  by_cases h : json_object_get_type poPolyArcs = json_type_array
  · rw [if_pos h, ParsePolygon_eq_filter, List.nil_append, List.filter_eq_nil_iff]
    simp [h]
  · simp [h]

/-- The polygon built from one member of a multipolygon arcs array, in terms
of its rings. -/
theorem polygonOf_eq_filter (poArcsDB : Json) (ps : ScalingParams) (poPolyArcs : Json) :
    polygonOf poArcsDB ps poPolyArcs =
      if json_object_get_type poPolyArcs = json_type_array then
        ((arrayItems poPolyArcs).map (closedRingOf poArcsDB ps)).filter
          (fun r => decide (4 ≤ r.length))
      else [] := by
  unfold polygonOf
  split
  · rw [ParsePolygon_eq_filter, List.nil_append]
  · rfl

theorem ParseMultiPolygon_eq_filter (poArcsObj poArcsDB : Json) (ps : ScalingParams) :
    ParseMultiPolygon [] poArcsObj poArcsDB ps =
      ((arrayItems poArcsObj).map (polygonOf poArcsDB ps)).filter (fun p => decide (p ≠ [])) := by
  unfold ParseMultiPolygon
  have h := foldl_filter_append (polygonOf poArcsDB ps) (fun p => decide (p ≠ []))
    (arrayItems poArcsObj) []
  rw [List.nil_append] at h
  rw [← h]
  congr 1
  funext acc x
  unfold ParseMultiPolygonBody
  simp only [polygonOf_IsEmpty]
  by_cases hx : polygonOf poArcsDB ps x = [] <;> simp [hx]

/-- C7. For every multipolygon arcs array, the multipolygon built by
`ParseMultiPolygon` contains, in order, exactly the polygons of those members
that keep at least one ring, each with the rings it keeps (the closed decoded
rings of at least 4 points); a member yields an empty polygon, and is
omitted, exactly when it is not an array or its every ring closes to fewer
than 4 points; a member that keeps a ring is in the result; and no member of
the result is empty. -/
theorem C7_multipolygon_omits_empty_polygons (poArcsObj poArcsDB : Json) (ps : ScalingParams) :
    ParseMultiPolygon [] poArcsObj poArcsDB ps =
      ((arrayItems poArcsObj).map (fun poPolyArcs =>
        if json_object_get_type poPolyArcs = json_type_array then
          ((arrayItems poPolyArcs).map (closedRingOf poArcsDB ps)).filter
            (fun r => decide (4 ≤ r.length))
        else [])).filter (fun p => decide (p ≠ [])) ∧
    (∀ poPolyArcs : Json,
      (IsEmpty (polygonOf poArcsDB ps poPolyArcs) = true ↔
        (json_object_get_type poPolyArcs ≠ json_type_array ∨
          ∀ poRing ∈ arrayItems poPolyArcs, (closedRingOf poArcsDB ps poRing).length < 4)) ∧
      (polygonOf poArcsDB ps poPolyArcs = [] ↔
        (json_object_get_type poPolyArcs ≠ json_type_array ∨
          ∀ poRing ∈ arrayItems poPolyArcs, (closedRingOf poArcsDB ps poRing).length < 4))) ∧
    (∀ poPolyArcs ∈ arrayItems poArcsObj,
      json_object_get_type poPolyArcs = json_type_array →
      (∃ poRing ∈ arrayItems poPolyArcs, 4 ≤ (closedRingOf poArcsDB ps poRing).length) →
      ((arrayItems poPolyArcs).map (closedRingOf poArcsDB ps)).filter
          (fun r => decide (4 ≤ r.length)) ∈ ParseMultiPolygon [] poArcsObj poArcsDB ps) ∧
    (∀ poPoly ∈ ParseMultiPolygon [] poArcsObj poArcsDB ps,
      IsEmpty poPoly = false ∧ poPoly ≠ [] ∧
      ∃ poPolyArcs ∈ arrayItems poArcsObj,
        json_object_get_type poPolyArcs = json_type_array ∧
        (∃ poRing ∈ arrayItems poPolyArcs, 4 ≤ (closedRingOf poArcsDB ps poRing).length) ∧
        poPoly = ((arrayItems poPolyArcs).map (closedRingOf poArcsDB ps)).filter
          (fun r => decide (4 ≤ r.length))) := by
  have hfun : polygonOf poArcsDB ps = fun poPolyArcs =>
      if json_object_get_type poPolyArcs = json_type_array then
        ((arrayItems poPolyArcs).map (closedRingOf poArcsDB ps)).filter
          (fun r => decide (4 ≤ r.length))
      else [] := funext (polygonOf_eq_filter poArcsDB ps)
  refine ⟨?_, ?_, ?_, ?_⟩
  · rw [ParseMultiPolygon_eq_filter, hfun]
  · intro poPolyArcs
    have h := polygonOf_eq_nil_iff poArcsDB ps poPolyArcs
    refine ⟨?_, h⟩
    rw [polygonOf_IsEmpty, decide_eq_true_iff]
    exact h
  · intro poPolyArcs hx harr hring
    obtain ⟨poRing, hr, hlen⟩ := hring
    rw [ParseMultiPolygon_eq_filter, List.mem_filter, List.mem_map]
    refine ⟨⟨poPolyArcs, hx, by rw [polygonOf_eq_filter, if_pos harr]⟩, ?_⟩
    rw [decide_eq_true_iff]
    intro hnil
    have hmem : closedRingOf poArcsDB ps poRing ∈
        ((arrayItems poPolyArcs).map (closedRingOf poArcsDB ps)).filter
          (fun r => decide (4 ≤ r.length)) :=
      List.mem_filter.2 ⟨List.mem_map.2 ⟨poRing, hr, rfl⟩, by simpa using hlen⟩
    rw [hnil] at hmem
    cases hmem
  · intro poPoly hmem
    rw [ParseMultiPolygon_eq_filter, List.mem_filter, List.mem_map] at hmem
    obtain ⟨⟨x, hx, rfl⟩, hne⟩ := hmem
    have hne2 : polygonOf poArcsDB ps x ≠ [] := by simpa using hne
    have hcond := mt (polygonOf_eq_nil_iff poArcsDB ps x).2 hne2
    rw [not_or, not_not] at hcond
    obtain ⟨harr, hex⟩ := hcond
    refine ⟨by rw [polygonOf_IsEmpty]; simp [hne2], hne2, x, hx, harr, ?_, ?_⟩
    · by_contra hno
      apply hex
      intro poRing hr
      by_contra hge
      exact hno ⟨poRing, hr, by omega⟩
    · rw [polygonOf_eq_filter, if_pos harr]

/-! ## The transform of ReadLayers -/

theorem wellFormedPair_iff (j : Json) :
    wellFormedPair j = true ↔
      ((json_object_get_type j = json_type_array ∧ json_object_array_length j = 2) ∧
        (json_object_get_type (json_object_array_get_idx j 0) = json_type_double ∨
          json_object_get_type (json_object_array_get_idx j 0) = json_type_int) ∧
        (json_object_get_type (json_object_array_get_idx j 1) = json_type_double ∨
          json_object_get_type (json_object_array_get_idx j 1) = json_type_int)) := by
  cases j with
  | array items =>
    match items with
    | [] => simp [wellFormedPair, json_object_array_length]
    | [a] => simp [wellFormedPair, json_object_array_length]
    | [a, b] =>
      cases a <;> cases b <;>
        simp [wellFormedPair, isNumber, json_object_array_length, json_object_get_type,
          json_object_array_get_idx]
    | a :: b :: c :: t => simp [wellFormedPair, json_object_array_length]
  | _ => simp [wellFormedPair, json_object_get_type]

theorem FindMemberByName_of_not_object (j : Json) (name : String)
    (h : json_object_get_type j ≠ json_type_object) :
    OGRGeoJSONFindMemberByName j name = Json.null := by
  cases j <;> simp_all [OGRGeoJSONFindMemberByName, json_object_get_type]

theorem pair_guard {α : Type} (j : Json) (a b : α) :
    (if json_object_get_type j = json_type_array ∧ json_object_array_length j = 2 then
      (if (json_object_get_type (json_object_array_get_idx j 0) = json_type_double ∨
            json_object_get_type (json_object_array_get_idx j 0) = json_type_int) ∧
          (json_object_get_type (json_object_array_get_idx j 1) = json_type_double ∨
            json_object_get_type (json_object_array_get_idx j 1) = json_type_int) then a
        else b)
      else b) = if wellFormedPair j = true then a else b := by
  by_cases h : wellFormedPair j = true
  · rw [if_pos h]
    obtain ⟨h1, h2⟩ := (wellFormedPair_iff j).1 h
    rw [if_pos h1, if_pos h2]
  · rw [if_neg h]
    have h3 := fun hh => h ((wellFormedPair_iff j).2 hh)
    by_cases h1 : json_object_get_type j = json_type_array ∧ json_object_array_length j = 2
    · rw [if_pos h1, if_neg (fun h2 => h3 ⟨h1, h2⟩)]
    · rw [if_neg h1]

/-- C10 (as amended). For every document, the transform resolved in
`ReadLayers` is present if and only if the transform member carries a
well-typed 2-element numeric scale array or a well-typed 2-element numeric
translate array; when it carries neither, the result is the identity
transform with `present = false`, scale `(1,1)` and translate `(0,0)`. -/
theorem C10_transform_present_iff_scale_or_translate (poGJObject : Json) :
    ((ReadLayersTransform poGJObject).bElementExists = true ↔
      (hasValidScale poGJObject = true ∨ hasValidTranslate poGJObject = true)) ∧
    ((hasValidScale poGJObject = false ∧ hasValidTranslate poGJObject = false) →
      ReadLayersTransform poGJObject = identityParams) := by
  unfold hasValidScale hasValidTranslate ReadLayersTransform
  by_cases hobj : json_object_get_type (OGRGeoJSONFindMemberByName poGJObject "transform") =
      json_type_object
  · simp only [if_pos hobj, pair_guard]
    cases hs : wellFormedPair (OGRGeoJSONFindMemberByName
        (OGRGeoJSONFindMemberByName poGJObject "transform") "scale") <;>
    cases ht : wellFormedPair (OGRGeoJSONFindMemberByName
        (OGRGeoJSONFindMemberByName poGJObject "transform") "translate") <;>
    simp [identityParams]
  · simp only [if_neg hobj]
    rw [FindMemberByName_of_not_object _ _ hobj, FindMemberByName_of_not_object _ _ hobj]
    simp [wellFormedPair, identityParams]

/-- C10 fails as stated: for the document `{"transform": {"scale": [2, 2]}}`
the resolved transform is present although the transform member carries no
translate array. -/
theorem C10_counterexample :
    (ReadLayersTransform scaleOnlyDoc).bElementExists = true ∧
    ¬ (hasValidScale scaleOnlyDoc = true ∧ hasValidTranslate scaleOnlyDoc = true) ∧
    ReadLayersTransform scaleOnlyDoc ≠ identityParams := by
  decide

/-! ## The topological sort -/

theorem noIncoming_iff (edges : List (Nat × Nat)) (n : Nat) :
    noIncoming edges n = true ↔ ∀ e ∈ edges, e.2 ≠ n := by
  simp [noIncoming]

/-- The topological loop only outputs remaining nodes. -/
theorem topologicalLoop_subset :
    ∀ (fuel : Nat) (nodes : List Nat) (edges : List (Nat × Nat)) (x : Nat),
      x ∈ topologicalLoop fuel nodes edges → x ∈ nodes := by
  intro fuel
  induction fuel with
  | zero => intro nodes edges x hx; simp [topologicalLoop] at hx
  | succ fuel ih =>
    intro nodes edges x hx
    unfold topologicalLoop at hx
    cases hf : nodes.find? (noIncoming edges) with
    | none => rw [hf] at hx; simp at hx
    | some n =>
      rw [hf] at hx
      simp only [List.mem_cons] at hx
      rcases hx with rfl | hx
      · exact List.mem_of_find?_eq_some hf
      · exact List.mem_of_mem_erase (ih _ _ _ hx)

/-- A node constrained by a recorded edge is output only after the source of
the edge. -/
theorem topologicalLoop_edge_order :
    ∀ (fuel : Nat) (nodes : List Nat) (edges : List (Nat × Nat)) (a b : Nat),
      (a, b) ∈ edges → b ∈ topologicalLoop fuel nodes edges →
      ∃ l1 l2 l3, topologicalLoop fuel nodes edges = l1 ++ a :: l2 ++ b :: l3 := by
  intro fuel
  induction fuel with
  | zero => intro nodes edges a b _ hb; simp [topologicalLoop] at hb
  | succ fuel ih =>
    intro nodes edges a b hab hb
    unfold topologicalLoop at hb ⊢
    cases hf : nodes.find? (noIncoming edges) with
    | none => rw [hf] at hb; simp at hb
    | some n =>
      rw [hf] at hb
      simp only [hf]
      have hn : noIncoming edges n = true := List.find?_some hf
      have hbn : b ≠ n := (noIncoming_iff edges n).1 hn (a, b) hab
      simp only [List.mem_cons] at hb
      rcases hb with hb | hb
      · exact absurd hb hbn
      · by_cases han : a = n
        · subst han
          obtain ⟨l2, l3, h23⟩ := List.append_of_mem hb
          exact ⟨[], l2, l3, by rw [h23]; rfl⟩
        · have hab2 : (a, b) ∈ edges.filter (fun e => e.1 != n) := by
            rw [List.mem_filter]; exact ⟨hab, by simpa using han⟩
          obtain ⟨l1, l2, l3, h⟩ := ih _ _ a b hab2 hb
          exact ⟨n :: l1, l2, l3, by rw [h]; rfl⟩

/-- When the remaining edges admit a strict ranking (the graph has no cycle)
and start at remaining nodes, the loop outputs every remaining node. -/
theorem topologicalLoop_perm (rank : Nat → Nat) :
    ∀ (fuel : Nat) (nodes : List Nat) (edges : List (Nat × Nat)),
      nodes.length ≤ fuel →
      (∀ e ∈ edges, e.1 ∈ nodes ∧ rank e.1 < rank e.2) →
      (topologicalLoop fuel nodes edges).Perm nodes := by
  intro fuel
  induction fuel with
  | zero =>
    intro nodes edges hlen _
    have : nodes = [] := List.eq_nil_of_length_eq_zero (by omega)
    subst this
    simp [topologicalLoop]
  | succ fuel ih =>
    intro nodes edges hlen hedges
    unfold topologicalLoop
    cases hf : nodes.find? (noIncoming edges) with
    | none =>
      simp only
      cases nodes with
      | nil => exact List.Perm.refl _
      | cons x t =>
        exfalso
        have hne : (x :: t).toFinset.Nonempty := ⟨x, by simp⟩
        obtain ⟨m, hm, hmin⟩ := Finset.exists_min_image (x :: t).toFinset rank hne
        rw [List.mem_toFinset] at hm
        have hnone := List.find?_eq_none.1 hf m hm
        apply hnone
        rw [noIncoming_iff]
        intro e he hem
        obtain ⟨h1, h2⟩ := hedges e he
        have := hmin e.1 (by rw [List.mem_toFinset]; exact h1)
        rw [hem] at h2
        omega
    | some n =>
      simp only
      have hn : n ∈ nodes := List.mem_of_find?_eq_some hf
      have hlen2 : (nodes.erase n).length ≤ fuel := by
        rw [List.length_erase_of_mem hn]; omega
      have hedges2 : ∀ e ∈ edges.filter (fun e => e.1 != n),
          e.1 ∈ nodes.erase n ∧ rank e.1 < rank e.2 := by
        intro e he
        rw [List.mem_filter] at he
        obtain ⟨he1, he2⟩ := he
        have hne : e.1 ≠ n := by simpa using he2
        obtain ⟨h1, h2⟩ := hedges e he1
        exact ⟨(List.mem_erase_of_ne hne).2 h1, h2⟩
      exact ((ih _ _ hlen2 hedges2).cons n).trans (List.perm_cons_erase hn).symm

/-- More fuel than there are nodes changes nothing. -/
theorem topologicalLoop_fuel :
    ∀ (fuel : Nat) (nodes : List Nat) (edges : List (Nat × Nat)),
      nodes.length ≤ fuel →
      topologicalLoop fuel nodes edges = topologicalLoop nodes.length nodes edges := by
  intro fuel
  induction fuel with
  | zero =>
    intro nodes edges hlen
    have : nodes = [] := List.eq_nil_of_length_eq_zero (by omega)
    subst this
    rfl
  | succ fuel ih =>
    intro nodes edges hlen
    cases nodes with
    | nil => simp [topologicalLoop]
    | cons x t =>
      simp only [List.length_cons]
      unfold topologicalLoop
      cases hf : (x :: t).find? (noIncoming edges) with
      | none => rfl
      | some n =>
        simp only
        have hn : n ∈ x :: t := List.mem_of_find?_eq_some hf
        have hl : ((x :: t).erase n).length = t.length := by
          rw [List.length_erase_of_mem hn]; simp
        rw [ih _ _ (by rw [hl]; simpa using hlen), hl]

/-- The topological loop outputs no node twice. -/
theorem topologicalLoop_nodup :
    ∀ (fuel : Nat) (nodes : List Nat) (edges : List (Nat × Nat)),
      nodes.Nodup → (topologicalLoop fuel nodes edges).Nodup := by
  intro fuel
  induction fuel with
  | zero => intro nodes edges _; simp [topologicalLoop]
  | succ fuel ih =>
    intro nodes edges hnd
    unfold topologicalLoop
    cases hf : nodes.find? (noIncoming edges) with
    | none => exact List.nodup_nil
    | some n =>
      simp only
      rw [List.nodup_cons]
      refine ⟨fun hmem => ?_, ih _ _ (hnd.erase n)⟩
      exact hnd.not_mem_erase (topologicalLoop_subset _ _ _ _ hmem)

theorem indexOf_lt_of_split (l l1 l2 l3 : List Nat) (a b : Nat) (hnd : l.Nodup)
    (h : l = l1 ++ a :: l2 ++ b :: l3) : l.indexOf a < l.indexOf b := by
  subst h
  rw [List.nodup_append] at hnd
  obtain ⟨h12, _, hdisj⟩ := hnd
  have ha1 : a ∉ l1 := by
    rw [List.nodup_append] at h12
    intro hm
    exact h12.2.2 hm (List.mem_cons_self _ _)
  have hb : b ∉ l1 ++ a :: l2 := fun hm => hdisj hm (List.mem_cons_self _ _)
  rw [List.indexOf_append_of_mem (by simp), List.indexOf_append_of_not_mem ha1,
    List.indexOf_cons_self, List.indexOf_append_of_not_mem hb, List.indexOf_cons_self]
  simp

/-- When the topological loop outputs every node, the positions in its output
rank the nodes strictly along every edge: the edges have no cycle. -/
theorem rank_of_complete (nodes : List Nat) (edges : List (Nat × Nat)) (hnd : nodes.Nodup)
    (htgt : ∀ e ∈ edges, e.2 ∈ nodes)
    (hlen : (topologicalLoop nodes.length nodes edges).length = nodes.length) :
    ∃ rank : Nat → Nat, ∀ e ∈ edges, rank e.1 < rank e.2 := by
  have hout := topologicalLoop_nodup nodes.length nodes edges hnd
  have hperm : (topologicalLoop nodes.length nodes edges).Perm nodes :=
    (List.subperm_of_subset hout (fun x hx => topologicalLoop_subset _ _ _ _ hx)).perm_of_length_le
      (by omega)
  refine ⟨fun x => (topologicalLoop nodes.length nodes edges).indexOf x, ?_⟩
  intro e he
  have hb : e.2 ∈ topologicalLoop nodes.length nodes edges := hperm.mem_iff.2 (htgt e he)
  obtain ⟨l1, l2, l3, hsplit⟩ := topologicalLoop_edge_order _ _ _ e.1 e.2 he hb
  exact indexOf_lt_of_split _ l1 l2 l3 e.1 e.2 hout hsplit

theorem addEdge_nodes (dag : DirectedAcyclicGraph) (i j : Nat) :
    (dag.addEdge i j).nodes = dag.nodes := by
  unfold DirectedAcyclicGraph.addEdge
  split
  · rfl
  · split <;> rfl

/-- An edge of the graph after `addEdge` is an edge from before or the edge
added. -/
theorem addEdge_edges_cases (dag : DirectedAcyclicGraph) (i j : Nat) (e : Nat × Nat)
    (he : e ∈ (dag.addEdge i j).edges) : e ∈ dag.edges ∨ e = (i, j) := by
  unfold DirectedAcyclicGraph.addEdge at he
  split at he
  · exact Or.inl he
  · split at he
    · simpa [List.mem_append] using he
    · exact Or.inl he

theorem addEdge_edges_mono (dag : DirectedAcyclicGraph) (i j : Nat) (e : Nat × Nat)
    (he : e ∈ dag.edges) : e ∈ (dag.addEdge i j).edges := by
  unfold DirectedAcyclicGraph.addEdge
  split
  · exact he
  · split
    · exact List.mem_append_left _ he
    · exact he

/-- `addEdge` keeps the graph free of cycles. -/
theorem addEdge_acyclic (dag : DirectedAcyclicGraph) (i j : Nat) (hnd : dag.nodes.Nodup)
    (htgt : ∀ e ∈ dag.edges, e.2 ∈ dag.nodes) (hj : j ∈ dag.nodes)
    (hr : ∃ rank : Nat → Nat, ∀ e ∈ dag.edges, rank e.1 < rank e.2) :
    ∃ rank : Nat → Nat, ∀ e ∈ (dag.addEdge i j).edges, rank e.1 < rank e.2 := by
  unfold DirectedAcyclicGraph.addEdge
  split
  · exact hr
  · split
    · rename_i hadm
      unfold DirectedAcyclicGraph.admitsOrder at hadm
      apply rank_of_complete dag.nodes _ hnd
      · intro e he
        rw [List.mem_append, List.mem_singleton] at he
        rcases he with he | he
        · exact htgt e he
        · rw [he]; exact hj
      · simpa using hadm
    · exact hr

/-- `addEdge` records an edge that closes no cycle. -/
theorem addEdge_recorded (dag : DirectedAcyclicGraph) (i j : Nat) (rank : Nat → Nat)
    (hsrc : ∀ e ∈ dag.edges, e.1 ∈ dag.nodes) (hi : i ∈ dag.nodes)
    (hr : ∀ e ∈ dag.edges, rank e.1 < rank e.2) (hij : rank i < rank j) :
    (i, j) ∈ (dag.addEdge i j).edges := by
  unfold DirectedAcyclicGraph.addEdge
  split
  · assumption
  · have hperm := topologicalLoop_perm rank dag.nodes.length dag.nodes (dag.edges ++ [(i, j)])
      (le_refl _) (by
        intro e he
        rw [List.mem_append, List.mem_singleton] at he
        rcases he with he | he
        · exact ⟨hsrc e he, hr e he⟩
        · rw [he]; exact ⟨hi, hij⟩)
    have hadm : dag.admitsOrder (dag.edges ++ [(i, j)]) = true := by
      unfold DirectedAcyclicGraph.admitsOrder
      simpa using hperm.length_eq
    rw [if_pos hadm]
    simp

/-- A graph without cycle has no self-loop. -/
theorem not_mem_self_of_rank (edges : List (Nat × Nat)) (i : Nat)
    (hr : ∃ rank : Nat → Nat, ∀ e ∈ edges, rank e.1 < rank e.2) : (i, i) ∉ edges := by
  obtain ⟨rank, h⟩ := hr
  intro hmem
  exact lt_irrefl _ (h _ hmem)

/-- The test of `addEdge` is the absence of a cycle: over distinct nodes and
edges that join them, the topological loop outputs every node exactly when
some ranking of the nodes increases strictly along every edge. -/
theorem admitsOrder_iff (dag : DirectedAcyclicGraph) (edges : List (Nat × Nat))
    (hnd : dag.nodes.Nodup) (hin : ∀ e ∈ edges, e.1 ∈ dag.nodes ∧ e.2 ∈ dag.nodes) :
    dag.admitsOrder edges = true ↔ ∃ rank : Nat → Nat, ∀ e ∈ edges, rank e.1 < rank e.2 := by
  unfold DirectedAcyclicGraph.admitsOrder
  rw [beq_iff_eq]
  constructor
  · intro hlen
    exact rank_of_complete dag.nodes edges hnd (fun e he => (hin e he).2) hlen
  · rintro ⟨rank, hr⟩
    exact (topologicalLoop_perm rank dag.nodes.length dag.nodes edges (le_refl _)
      (fun e he => ⟨(hin e he).1, hr e he⟩)).length_eq

/-! ## Schema discovery -/

theorem ScopeLe.refl (sc : SchemaScope) : ScopeLe sc sc :=
  ⟨List.prefix_refl _, fun _ h => h⟩

theorem ScopeLe.trans {a b c : SchemaScope} (h1 : ScopeLe a b) (h2 : ScopeLe b c) :
    ScopeLe a c :=
  ⟨h1.names_prefix.trans h2.names_prefix, fun e he => h2.edges_sub e (h1.edges_sub e he)⟩

theorem ScopeLe.getElem? {a b : SchemaScope} (h : ScopeLe a b) (i : Nat) (key : String)
    (hi : (fieldNames a)[i]? = some key) : (fieldNames b)[i]? = some key := by
  obtain ⟨t, ht⟩ := h.names_prefix
  rw [← ht]
  have hlt : i < (fieldNames a).length := by
    by_contra hge
    rw [List.getElem?_eq_none (by omega)] at hi
    exact Option.noConfusion hi
  rw [List.getElem?_append_left hlt]
  exact hi

theorem initialScope_inv : ScopeInv initialScope := by
  refine ⟨?_, ?_, ?_, ⟨fun _ => 0, by simp [initialScope, DirectedAcyclicGraph.addNode]⟩⟩
  · intro key idx
    simp only [initialScope, fieldNames, List.map_cons, List.map_nil, List.lookup_cons,
      List.lookup_nil]
    by_cases hk : key = "id"
    · subst hk
      cases idx with
      | zero => simp
      | succ k => simp
    · have : (key == "id") = false := by simpa using hk
      rw [this]
      cases idx with
      | zero => simp; exact fun h => hk h.symm
      | succ k => simp
  · simp [initialScope, DirectedAcyclicGraph.addNode, fieldNames]
    rfl
  · simp [initialScope, DirectedAcyclicGraph.addNode]


theorem map_modify_name (f : OGRFieldDefn → OGRFieldDefn) (hf : ∀ d, (f d).name = d.name) :
    ∀ (l : List OGRFieldDefn) (idx : Nat),
      (List.modify f idx l).map OGRFieldDefn.name = l.map OGRFieldDefn.name := by
  intro l
  induction l with
  | nil => intro idx; simp
  | cons a t ih =>
    intro idx
    cases idx with
    | zero => simp [List.modify_zero_cons, hf]
    | succ k => simp [List.modify_succ_cons, ih]

theorem getElem?_lt_of_eq_some {α : Type} (l : List α) (i : Nat) (a : α)
    (h : l[i]? = some a) : i < l.length := by
  by_contra hge
  rw [List.getElem?_eq_none (by omega)] at h
  exact Option.noConfusion h

theorem EstablishLayerDefnIdx_eq (p : Int) (sc : SchemaScope) (idx : Nat) (hpne : p ≠ -1) :
    EstablishLayerDefnIdx (p, sc) idx =
      ((idx : Int),
        { sc with dag := (sc.dag.addNode idx (fieldName sc idx)).addEdge p.toNat idx }) := by
  unfold EstablishLayerDefnIdx
  simp only [if_pos hpne]

theorem addEdge_addNode_nodes (dag : DirectedAcyclicGraph) (i j k : Nat) (s : String) :
    ((dag.addNode k s).addEdge i j).nodes =
      if k ∈ dag.nodes then dag.nodes else dag.nodes ++ [k] := by
  rw [addEdge_nodes]
  rfl

theorem mem_addEdge_edges_cases (dag : DirectedAcyclicGraph) (i j k : Nat) (s : String)
    (e : Nat × Nat) (he : e ∈ ((dag.addNode k s).addEdge i j).edges) :
    e ∈ dag.edges ∨ e = (i, j) :=
  addEdge_edges_cases (dag.addNode k s) i j e he

theorem mem_addEdge_edges_mono (dag : DirectedAcyclicGraph) (i j k : Nat) (s : String)
    (e : Nat × Nat) (he : e ∈ dag.edges) : e ∈ ((dag.addNode k s).addEdge i j).edges :=
  addEdge_edges_mono (dag.addNode k s) i j e he

/-- Adding the node of a field and an edge to it keeps the graph of a
consistent scope free of cycles. -/
theorem addNode_addEdge_acyclic (sc : SchemaScope) (hinv : ScopeInv sc) (i idx : Nat)
    (s : String) (hidx : idx ≤ (fieldNames sc).length) :
    ∃ rank : Nat → Nat,
      ∀ e ∈ ((sc.dag.addNode idx s).addEdge i idx).edges, rank e.1 < rank e.2 := by
  have hnodes : (sc.dag.addNode idx s).nodes =
      if idx < (fieldNames sc).length then List.range (fieldNames sc).length
      else List.range ((fieldNames sc).length + 1) := by
    simp only [DirectedAcyclicGraph.addNode, hinv.nodes_eq, List.mem_range]
    split
    · rfl
    · have : idx = (fieldNames sc).length := by omega
      rw [this, List.range_succ]
  apply addEdge_acyclic
  · rw [hnodes]
    split <;> exact List.nodup_range _
  · intro e he
    have := (hinv.edges_lt e he).2
    rw [hnodes]
    split <;> rw [List.mem_range] <;> omega
  · rw [hnodes]
    split <;> rw [List.mem_range] <;> omega
  · exact hinv.acyclic

/-- One property observed: the scope stays consistent and the field of that
name exists afterwards, at the index that becomes `nPrevFieldIdx`. -/
theorem EstablishLayerDefnProp_spec (sc : SchemaScope) (p : Int) (key : String) (val : Json)
    (hinv : ScopeInv sc) (hp0 : 0 ≤ p) (hp : p < ((fieldNames sc).length : Int)) :
    0 ≤ (EstablishLayerDefnProp (p, sc) (key, val)).1 ∧
    ScopeInv (EstablishLayerDefnProp (p, sc) (key, val)).2 ∧
    ScopeLe sc (EstablishLayerDefnProp (p, sc) (key, val)).2 ∧
    (fieldNames (EstablishLayerDefnProp (p, sc) (key, val)).2)[
      (EstablishLayerDefnProp (p, sc) (key, val)).1.toNat]? = some key := by
  have hpne : p ≠ -1 := by omega
  have hpn : p.toNat < (fieldNames sc).length := by omega
  have hlen : sc.apoFieldDefn.length = (fieldNames sc).length := by simp [fieldNames]
  unfold EstablishLayerDefnProp OGRGeoJSONReaderAddOrUpdateField
  cases hlk : sc.oMapFieldNameToIdx.lookup key with
  | none =>
    have hnew : ∀ i : Nat, (fieldNames sc)[i]? ≠ some key := by
      intro i hi
      rw [← hinv.map_iff, hlk] at hi
      exact Option.noConfusion hi
    simp only [List.foldl_cons, List.foldl_nil, EstablishLayerDefnIdx_eq _ _ _ hpne,
      Int.toNat_ofNat]
    refine ⟨Int.ofNat_nonneg _, ⟨?_, ?_, ?_, ?_⟩, ⟨?_, ?_⟩, ?_⟩
    · intro key2 idx2
      simp only [fieldNames, List.map_append, List.map_cons, List.map_nil, List.lookup_cons]
      by_cases hk : key2 = key
      · subst hk
        simp only [beq_self_eq_true]
        constructor
        · intro h
          have : idx2 = sc.apoFieldDefn.length := by simpa using h.symm
          subst this
          have := List.getElem?_concat_length (sc.apoFieldDefn.map OGRFieldDefn.name) key2
          simpa using this
        · intro h
          by_cases hlt : idx2 < (sc.apoFieldDefn.map OGRFieldDefn.name).length
          · rw [List.getElem?_append_left hlt] at h
            exact absurd h (hnew idx2)
          · have h3 := getElem?_lt_of_eq_some _ _ _ h
            simp only [List.length_append, List.length_map, List.length_singleton] at h3 hlt
            have : idx2 = sc.apoFieldDefn.length := by omega
            rw [this]
      · have hb : (key2 == key) = false := by simpa using hk
        simp only [hb]
        rw [hinv.map_iff]
        simp only [fieldNames]
        constructor
        · intro h
          rw [List.getElem?_append_left (getElem?_lt_of_eq_some _ _ _ h)]
          exact h
        · intro h
          by_cases hlt : idx2 < (sc.apoFieldDefn.map OGRFieldDefn.name).length
          · rw [List.getElem?_append_left hlt] at h
            exact h
          · have h3 := getElem?_lt_of_eq_some _ _ _ h
            simp only [List.length_append, List.length_map, List.length_singleton] at h3 hlt
            have h4 : idx2 = (sc.apoFieldDefn.map OGRFieldDefn.name).length := by
              simp only [List.length_map]; omega
            rw [h4, List.getElem?_concat_length] at h
            exact absurd (Option.some.inj h).symm hk
    · simp only [addEdge_addNode_nodes, fieldNames, List.map_append, List.length_append,
        List.length_map, List.map_cons, List.map_nil, List.length_singleton, List.range_succ]
      rw [hinv.nodes_eq]
      simp [fieldNames]
    · intro e he
      have he := mem_addEdge_edges_cases _ _ _ _ _ _ he
      simp only [fieldNames, List.map_append, List.length_append, List.length_map,
        List.map_cons, List.map_nil, List.length_singleton]
      rcases he with he | he
      · have := hinv.edges_lt e he
        simp only [fieldNames, List.length_map] at this
        omega
      · subst he
        simp only
        omega
    · exact addNode_addEdge_acyclic sc hinv _ _ _ (by rw [← hlen])
    · simp only [fieldNames, List.map_append]
      exact List.prefix_append _ _
    · intro e he
      exact mem_addEdge_edges_mono _ _ _ _ _ _ he
    · simp only [fieldNames, List.map_append, List.map_cons, List.map_nil]
      have := List.getElem?_concat_length (sc.apoFieldDefn.map OGRFieldDefn.name) key
      simpa using this
  | some idx =>
    have hidx : (fieldNames sc)[idx]? = some key := (hinv.map_iff key idx).1 hlk
    have hidxlt : idx < (fieldNames sc).length := getElem?_lt_of_eq_some _ _ _ hidx
    have hnames : (List.modify
        (fun d : OGRFieldDefn => { d with eType := widenFieldType d.eType val }) idx
        sc.apoFieldDefn).map OGRFieldDefn.name = fieldNames sc :=
      map_modify_name (fun d : OGRFieldDefn => { d with eType := widenFieldType d.eType val })
        (fun _ => rfl) sc.apoFieldDefn idx
    simp only [List.foldl_cons, List.foldl_nil, EstablishLayerDefnIdx_eq _ _ _ hpne,
      Int.toNat_ofNat]
    refine ⟨Int.ofNat_nonneg _, ⟨?_, ?_, ?_, ?_⟩, ⟨?_, ?_⟩, ?_⟩
    · intro key2 idx2
      simp only [fieldNames]
      rw [hnames]
      exact hinv.map_iff key2 idx2
    · simp only [addEdge_addNode_nodes, fieldNames]
      rw [hnames, hinv.nodes_eq]
      simp [hidxlt]
    · intro e he
      have he := mem_addEdge_edges_cases _ _ _ _ _ _ he
      simp only [fieldNames]
      rw [hnames]
      rcases he with he | he
      · exact hinv.edges_lt e he
      · subst he
        exact ⟨hpn, hidxlt⟩
    · exact addNode_addEdge_acyclic sc hinv _ _ _ (le_of_lt hidxlt)
    · simp only [fieldNames]
      rw [hnames]
      exact List.prefix_refl _
    · intro e he
      exact mem_addEdge_edges_mono _ _ _ _ _ _ he
    · simp only [fieldNames]
      rw [hnames]
      exact hidx


/-- The loop over the properties of one object keeps the scope consistent. -/
theorem EstablishLayerDefnProp_foldl (props : List (String × Json)) :
    ∀ (p : Int) (sc : SchemaScope), ScopeInv sc → 0 ≤ p → p < ((fieldNames sc).length : Int) →
      0 ≤ (props.foldl EstablishLayerDefnProp (p, sc)).1 ∧
      (props.foldl EstablishLayerDefnProp (p, sc)).1 <
        ((fieldNames (props.foldl EstablishLayerDefnProp (p, sc)).2).length : Int) ∧
      ScopeInv (props.foldl EstablishLayerDefnProp (p, sc)).2 ∧
      ScopeLe sc (props.foldl EstablishLayerDefnProp (p, sc)).2 := by
  induction props with
  | nil => intro p sc hinv hp0 hp; exact ⟨hp0, hp, hinv, ScopeLe.refl sc⟩
  | cons kv t ih =>
    intro p sc hinv hp0 hp
    obtain ⟨key, val⟩ := kv
    obtain ⟨h0, hinv2, hle, hname⟩ := EstablishLayerDefnProp_spec sc p key val hinv hp0 hp
    have hlt := getElem?_lt_of_eq_some _ _ _ hname
    have hlt2 : (EstablishLayerDefnProp (p, sc) (key, val)).1 <
        ((fieldNames (EstablishLayerDefnProp (p, sc) (key, val)).2).length : Int) := by omega
    obtain ⟨k0, k1, k2, k3⟩ := ih _ _ hinv2 h0 hlt2
    simp only [List.foldl_cons]
    exact ⟨k0, k1, k2, hle.trans k3⟩

theorem addNode_edges (dag : DirectedAcyclicGraph) (k : Nat) (s : String) :
    (dag.addNode k s).edges = dag.edges := by
  unfold DirectedAcyclicGraph.addNode
  split <;> rfl

theorem mem_addNode_nodes (dag : DirectedAcyclicGraph) (k n : Nat) (s : String)
    (h : n ∈ dag.nodes) : n ∈ (dag.addNode k s).nodes := by
  unfold DirectedAcyclicGraph.addNode
  split
  · exact h
  · exact List.mem_append_left _ h

/-- The graph after one property: the node of the field is added, then the
edge from the previous field to it. -/
theorem EstablishLayerDefnProp_dag (sc : SchemaScope) (p : Int) (key : String) (val : Json)
    (hp0 : 0 ≤ p) :
    ∃ s : String, (EstablishLayerDefnProp (p, sc) (key, val)).2.dag =
      (sc.dag.addNode (EstablishLayerDefnProp (p, sc) (key, val)).1.toNat s).addEdge p.toNat
        (EstablishLayerDefnProp (p, sc) (key, val)).1.toNat := by
  have hpne : p ≠ -1 := by omega
  unfold EstablishLayerDefnProp OGRGeoJSONReaderAddOrUpdateField
  cases hl : sc.oMapFieldNameToIdx.lookup key with
  | some i0 =>
    simp only [hl, List.foldl_cons, List.foldl_nil]
    rw [EstablishLayerDefnIdx_eq _ _ _ hpne]
    exact ⟨_, rfl⟩
  | none =>
    simp only [hl, List.foldl_cons, List.foldl_nil]
    rw [EstablishLayerDefnIdx_eq _ _ _ hpne]
    exact ⟨_, rfl⟩

/-- One property adds at most the edge from the previous field to its own. -/
theorem EstablishLayerDefnProp_edges_cases (sc : SchemaScope) (p : Int) (key : String)
    (val : Json) (hp0 : 0 ≤ p) (e : Nat × Nat)
    (he : e ∈ (EstablishLayerDefnProp (p, sc) (key, val)).2.dag.edges) :
    e ∈ sc.dag.edges ∨ e = (p.toNat, (EstablishLayerDefnProp (p, sc) (key, val)).1.toNat) := by
  obtain ⟨s, hs⟩ := EstablishLayerDefnProp_dag sc p key val hp0
  rw [hs] at he
  exact mem_addEdge_edges_cases _ _ _ _ _ e he

/-- One property records the edge from the previous field to its own when
some ranking of the indices increases along the edges recorded so far and
along that edge. -/
theorem EstablishLayerDefnProp_recorded (rank : Nat → Nat) (sc : SchemaScope) (p : Int)
    (key : String) (val : Json) (hinv : ScopeInv sc) (hp0 : 0 ≤ p)
    (hp : p < ((fieldNames sc).length : Int))
    (hr : ∀ e ∈ sc.dag.edges, rank e.1 < rank e.2)
    (hij : rank p.toNat < rank (EstablishLayerDefnProp (p, sc) (key, val)).1.toNat) :
    (p.toNat, (EstablishLayerDefnProp (p, sc) (key, val)).1.toNat) ∈
      (EstablishLayerDefnProp (p, sc) (key, val)).2.dag.edges := by
  obtain ⟨s, hs⟩ := EstablishLayerDefnProp_dag sc p key val hp0
  rw [hs]
  apply addEdge_recorded _ _ _ rank
  · intro e he
    rw [addNode_edges] at he
    apply mem_addNode_nodes
    rw [hinv.nodes_eq, List.mem_range]
    exact (hinv.edges_lt e he).1
  · apply mem_addNode_nodes
    rw [hinv.nodes_eq, List.mem_range]
    omega
  · intro e he
    rw [addNode_edges] at he
    exact hr e he
  · exact hij

/-- One property whose name ranks above the name of the previous field
keeps the ranking of the names in agreement with the graph, and the edge from
the previous field to its own is recorded. -/
theorem EstablishLayerDefnProp_ranked (rank : String → Nat) (sc : SchemaScope) (p : Int)
    (key : String) (val : Json) (P : String) (hinv : ScopeInv sc) (hp0 : 0 ≤ p)
    (hp : p < ((fieldNames sc).length : Int))
    (hP : (fieldNames sc)[p.toNat]? = some P)
    (hPk : P ≠ key → rank P < rank key)
    (hJ : RankedEdges rank sc) :
    RankedEdges rank (EstablishLayerDefnProp (p, sc) (key, val)).2 ∧
    (P ≠ key → (p.toNat, (EstablishLayerDefnProp (p, sc) (key, val)).1.toNat) ∈
      (EstablishLayerDefnProp (p, sc) (key, val)).2.dag.edges) := by
  obtain ⟨h0, hinv2, hle, hname⟩ := EstablishLayerDefnProp_spec sc p key val hinv hp0 hp
  have hP2 := hle.getElem? _ _ hP
  have hedge : P ≠ key → (p.toNat, (EstablishLayerDefnProp (p, sc) (key, val)).1.toNat) ∈
      (EstablishLayerDefnProp (p, sc) (key, val)).2.dag.edges := by
    intro hne
    apply EstablishLayerDefnProp_recorded
      (fun i => rank ((fieldNames (EstablishLayerDefnProp (p, sc) (key, val)).2)[i]?.getD ""))
      sc p key val hinv hp0 hp
    · intro e he
      obtain ⟨h1, h2⟩ := hinv.edges_lt e he
      have e1 : (fieldNames sc)[e.1]? = some (fieldNames sc)[e.1] := List.getElem?_eq_getElem h1
      have e2 : (fieldNames sc)[e.2]? = some (fieldNames sc)[e.2] := List.getElem?_eq_getElem h2
      simp only [hle.getElem? _ _ e1, hle.getElem? _ _ e2, Option.getD_some]
      exact hJ e he _ _ e1 e2
    · simp only [hP2, hname, Option.getD_some]
      exact hPk hne
  refine ⟨?_, hedge⟩
  intro e he a b ha hb
  rcases EstablishLayerDefnProp_edges_cases sc p key val hp0 e he with h | h
  · obtain ⟨h1, h2⟩ := hinv.edges_lt e h
    have e1 : (fieldNames sc)[e.1]? = some (fieldNames sc)[e.1] := List.getElem?_eq_getElem h1
    have e2 : (fieldNames sc)[e.2]? = some (fieldNames sc)[e.2] := List.getElem?_eq_getElem h2
    have a1 := hle.getElem? _ _ e1
    have a2 := hle.getElem? _ _ e2
    rw [ha] at a1
    rw [hb] at a2
    rw [Option.some.inj a1, Option.some.inj a2]
    exact hJ e h _ _ e1 e2
  · subst h
    simp only at ha hb
    rw [hP2] at ha
    rw [hname] at hb
    have ha2 := Option.some.inj ha
    have hb2 := Option.some.inj hb
    subst ha2
    subst hb2
    by_cases hne : P = key
    · exfalso
      have e1 := (hinv2.map_iff key p.toNat).2 (hne ▸ hP2)
      have e2 := (hinv2.map_iff key _).2 hname
      rw [e1] at e2
      have heq := Option.some.inj e2
      obtain ⟨rk, hrk⟩ := hinv2.acyclic
      have hlt := hrk _ he
      simp only at hlt
      rw [← heq] at hlt
      exact lt_irrefl _ hlt
    · exact hPk hne

/-- The loop over the properties of one object keeps a ranking of the names
in agreement with the graph when the names of the properties, after the name
of the previous field, rank in increasing order. -/
theorem EstablishLayerDefnProp_foldl_ranked (rank : String → Nat)
    (props : List (String × Json)) :
    ∀ (p : Int) (sc : SchemaScope) (P : String), ScopeInv sc → 0 ≤ p →
      p < ((fieldNames sc).length : Int) → (fieldNames sc)[p.toNat]? = some P →
      List.Chain (fun a b => a ≠ b → rank a < rank b) P (props.map Prod.fst) →
      RankedEdges rank sc →
      RankedEdges rank (props.foldl EstablishLayerDefnProp (p, sc)).2 := by
  induction props with
  | nil => intro p sc P _ _ _ _ _ hJ; exact hJ
  | cons kv t ih =>
    intro p sc P hinv hp0 hp hP hchain hJ
    obtain ⟨key, val⟩ := kv
    rw [List.map_cons, List.chain_cons] at hchain
    obtain ⟨h0, hinv2, _, hname⟩ := EstablishLayerDefnProp_spec sc p key val hinv hp0 hp
    have hlt := getElem?_lt_of_eq_some _ _ _ hname
    have hlt2 : (EstablishLayerDefnProp (p, sc) (key, val)).1 <
        ((fieldNames (EstablishLayerDefnProp (p, sc) (key, val)).2).length : Int) := by omega
    have hstep := EstablishLayerDefnProp_ranked rank sc p key val P hinv hp0 hp hP hchain.1 hJ
    rw [List.foldl_cons]
    exact ih _ _ key hinv2 h0 hlt2 hname hchain.2 hstep.1

/-- Two properties in immediate succession in one object, in a list whose
names rank in increasing order, leave an edge between their fields. -/
theorem EstablishLayerDefnProp_adjacent (rank : String → Nat) (l1 l2 : List (String × Json))
    (A B : String) (vA vB : Json) (p : Int) (sc : SchemaScope) (P : String)
    (hinv : ScopeInv sc) (hp0 : 0 ≤ p) (hp : p < ((fieldNames sc).length : Int))
    (hP : (fieldNames sc)[p.toNat]? = some P)
    (hchain : List.Chain (fun a b => a ≠ b → rank a < rank b) P
      ((l1 ++ (A, vA) :: (B, vB) :: l2).map Prod.fst))
    (hAB : A ≠ B) (hJ : RankedEdges rank sc) :
    ∃ ia ib : Nat,
      (fieldNames ((l1 ++ (A, vA) :: (B, vB) :: l2).foldl EstablishLayerDefnProp (p, sc)).2)[ia]?
        = some A ∧
      (fieldNames ((l1 ++ (A, vA) :: (B, vB) :: l2).foldl EstablishLayerDefnProp (p, sc)).2)[ib]?
        = some B ∧
      (ia, ib) ∈ ((l1 ++ (A, vA) :: (B, vB) :: l2).foldl EstablishLayerDefnProp (p, sc)).2.dag.edges := by
  obtain ⟨a0, a1, a2, _⟩ := EstablishLayerDefnProp_foldl l1 p sc hinv hp0 hp
  have hsplit : (l1 ++ (A, vA) :: (B, vB) :: l2).map Prod.fst =
      l1.map Prod.fst ++ A :: B :: l2.map Prod.fst := by simp
  rw [hsplit, List.chain_append_cons_cons] at hchain
  obtain ⟨hc1, hAB2, _⟩ := hchain
  have hJ2 := EstablishLayerDefnProp_foldl_ranked rank (l1 ++ [(A, vA)]) p sc P hinv hp0 hp hP
    (by simpa using hc1) hJ
  rw [List.foldl_append, List.foldl_cons, List.foldl_nil] at hJ2
  rw [List.foldl_append, List.foldl_cons, List.foldl_cons]
  generalize l1.foldl EstablishLayerDefnProp (p, sc) = s1 at a0 a1 a2 hJ2 ⊢
  obtain ⟨p1, sc1⟩ := s1
  obtain ⟨b0, b1, _, bname⟩ := EstablishLayerDefnProp_spec sc1 p1 A vA a2 a0 a1
  have blt := getElem?_lt_of_eq_some _ _ _ bname
  generalize EstablishLayerDefnProp (p1, sc1) (A, vA) = s2 at b0 b1 bname blt hJ2 ⊢
  obtain ⟨p2, sc2⟩ := s2
  simp only at b0 b1 bname blt hJ2
  obtain ⟨c0, c1, cle, cname⟩ :=
    EstablishLayerDefnProp_spec sc2 p2 B vB b1 b0 (by omega)
  have cedge := (EstablishLayerDefnProp_ranked rank sc2 p2 B vB A b1 b0 (by omega) bname
    hAB2 hJ2).2 hAB
  have clt := getElem?_lt_of_eq_some _ _ _ cname
  generalize EstablishLayerDefnProp (p2, sc2) (B, vB) = s3 at c0 c1 cle cname cedge clt ⊢
  obtain ⟨p3, sc3⟩ := s3
  simp only at c0 c1 cle cname cedge clt
  obtain ⟨_, _, _, dle⟩ := EstablishLayerDefnProp_foldl l2 p3 sc3 c1 c0 (by omega)
  exact ⟨p2.toNat, p3.toNat, dle.getElem? _ _ (cle.getElem? _ _ bname),
    dle.getElem? _ _ cname, dle.edges_sub _ cedge⟩

theorem fieldNames_pos_of_le {a b : SchemaScope} (h : ScopeLe a b)
    (ha : 0 < (fieldNames a).length) : 0 < (fieldNames b).length :=
  Nat.lt_of_lt_of_le ha h.names_prefix.length_le

/-- One object observed: the scope stays consistent and only grows. -/
theorem EstablishLayerDefn_spec (sc : SchemaScope) (poObj : Json) (hinv : ScopeInv sc)
    (hpos : 0 < (fieldNames sc).length) :
    ScopeInv (EstablishLayerDefn 0 sc poObj) ∧ ScopeLe sc (EstablishLayerDefn 0 sc poObj) := by
  unfold EstablishLayerDefn
  simp only
  split
  · obtain ⟨_, _, h2, h3⟩ := EstablishLayerDefnProp_foldl
      (objectMembers (OGRGeoJSONFindMemberByName poObj "properties")) 0 sc hinv (le_refl _)
      (by omega)
    exact ⟨h2, h3⟩
  · exact ⟨hinv, ScopeLe.refl sc⟩

theorem objectMembers_ne_nil (j : Json) (h : objectMembers j ≠ []) :
    json_object_get_type j = json_type_object := by
  cases j <;> simp_all [objectMembers, json_object_get_type]

/-- One object whose property names, after `id`, rank in increasing order
keeps the ranking of the names in agreement with the graph. -/
theorem EstablishLayerDefn_ranked (rank : String → Nat) (sc : SchemaScope) (poObj : Json)
    (hinv : ScopeInv sc) (h0 : (fieldNames sc)[0]? = some "id")
    (hchain : List.Chain (fun a b => a ≠ b → rank a < rank b) "id"
      ((propertyList poObj).map Prod.fst))
    (hJ : RankedEdges rank sc) : RankedEdges rank (EstablishLayerDefn 0 sc poObj) := by
  have hpos := getElem?_lt_of_eq_some _ _ _ h0
  unfold EstablishLayerDefn
  simp only
  split
  · exact EstablishLayerDefnProp_foldl_ranked rank _ 0 sc "id" hinv (le_refl _) (by omega) h0
      hchain hJ
  · exact hJ

theorem EstablishLayerDefn_adjacent (rank : String → Nat) (sc : SchemaScope) (poObj : Json)
    (hinv : ScopeInv sc) (h0 : (fieldNames sc)[0]? = some "id")
    (hchain : List.Chain (fun a b => a ≠ b → rank a < rank b) "id"
      ((propertyList poObj).map Prod.fst))
    (hJ : RankedEdges rank sc) (l1 l2 : List (String × Json)) (A B : String)
    (vA vB : Json) (hprops : propertyList poObj = l1 ++ (A, vA) :: (B, vB) :: l2)
    (hAB : A ≠ B) :
    ∃ ia ib : Nat,
      (fieldNames (EstablishLayerDefn 0 sc poObj))[ia]? = some A ∧
      (fieldNames (EstablishLayerDefn 0 sc poObj))[ib]? = some B ∧
      (ia, ib) ∈ (EstablishLayerDefn 0 sc poObj).dag.edges := by
  have hpos := getElem?_lt_of_eq_some _ _ _ h0
  rw [hprops] at hchain
  unfold propertyList at hprops
  have hobj := objectMembers_ne_nil _ (by rw [hprops]; simp)
  unfold EstablishLayerDefn
  simp only [if_pos hobj, hprops]
  exact EstablishLayerDefnProp_adjacent rank l1 l2 A B vA vB 0 sc "id" hinv (le_refl _)
    (by omega) h0 hchain hAB hJ

/-- The discovery pass from any consistent scope. -/
theorem foldl_EstablishLayerDefn_spec (objs : List Json) :
    ∀ (sc : SchemaScope), ScopeInv sc → 0 < (fieldNames sc).length →
      ScopeInv (objs.foldl (EstablishLayerDefn 0) sc) ∧
      ScopeLe sc (objs.foldl (EstablishLayerDefn 0) sc) := by
  induction objs with
  | nil => intro sc hinv _; exact ⟨hinv, ScopeLe.refl sc⟩
  | cons o t ih =>
    intro sc hinv hpos
    obtain ⟨h1, h2⟩ := EstablishLayerDefn_spec sc o hinv hpos
    obtain ⟨h3, h4⟩ := ih _ h1 (fieldNames_pos_of_le h2 hpos)
    exact ⟨h3, h2.trans h4⟩

theorem initialScope_pos : 0 < (fieldNames initialScope).length := by
  simp [fieldNames, initialScope]

theorem discoverScope_inv (objs : List Json) : ScopeInv (discoverScope objs) :=
  (foldl_EstablishLayerDefn_spec objs initialScope initialScope_inv initialScope_pos).1

theorem initialScope_id : (fieldNames initialScope)[0]? = some "id" := rfl

theorem initialScope_ranked (rank : String → Nat) : RankedEdges rank initialScope := by
  intro e he
  simp [initialScope, DirectedAcyclicGraph.addNode] at he

/-- The discovery pass over objects whose property names, after `id`, rank
in increasing order keeps the ranking of the names in agreement with the
graph. -/
theorem foldl_EstablishLayerDefn_ranked (rank : String → Nat) (objs : List Json) :
    ∀ (sc : SchemaScope), ScopeInv sc → (fieldNames sc)[0]? = some "id" →
      (∀ o ∈ objs, List.Chain (fun a b => a ≠ b → rank a < rank b) "id"
        ((propertyList o).map Prod.fst)) →
      RankedEdges rank sc → RankedEdges rank (objs.foldl (EstablishLayerDefn 0) sc) := by
  induction objs with
  | nil => intro sc _ _ _ hJ; exact hJ
  | cons o t ih =>
    intro sc hinv h0 hcons hJ
    have hpos := getElem?_lt_of_eq_some _ _ _ h0
    obtain ⟨h1, h2⟩ := EstablishLayerDefn_spec sc o hinv hpos
    rw [List.foldl_cons]
    exact ih _ h1 (h2.getElem? _ _ h0) (fun o2 ho2 => hcons o2 (List.mem_cons_of_mem _ ho2))
      (EstablishLayerDefn_ranked rank sc o hinv h0 (hcons o (List.mem_cons_self _ _)) hJ)

/-- Two properties in immediate succession in an observed object leave, in
the scope at sealing, an edge between the fields of those names, when the
property names of every object, after `id`, rank in increasing order. -/
theorem discoverScope_adjacent (rank : String → Nat) (objs : List Json)
    (hcons : ∀ o ∈ objs, List.Chain (fun a b => a ≠ b → rank a < rank b) "id"
      ((propertyList o).map Prod.fst))
    (poObj : Json) (hmem : poObj ∈ objs)
    (l1 l2 : List (String × Json)) (A B : String) (vA vB : Json)
    (hprops : propertyList poObj = l1 ++ (A, vA) :: (B, vB) :: l2) (hAB : A ≠ B) :
    ∃ ia ib : Nat,
      (fieldNames (discoverScope objs))[ia]? = some A ∧
      (fieldNames (discoverScope objs))[ib]? = some B ∧
      (ia, ib) ∈ (discoverScope objs).dag.edges := by
  obtain ⟨o1, o2, rfl⟩ := List.append_of_mem hmem
  have hc1 : ∀ o ∈ o1, List.Chain (fun a b => a ≠ b → rank a < rank b) "id"
      ((propertyList o).map Prod.fst) := fun o ho => hcons o (List.mem_append_left _ ho)
  have hJ1 := foldl_EstablishLayerDefn_ranked rank o1 initialScope initialScope_inv
    initialScope_id hc1 (initialScope_ranked rank)
  unfold discoverScope
  rw [List.foldl_append, List.foldl_cons]
  obtain ⟨h1, h2⟩ := foldl_EstablishLayerDefn_spec o1 initialScope initialScope_inv
    initialScope_pos
  have hid := h2.getElem? _ _ initialScope_id
  have hpos := fieldNames_pos_of_le h2 initialScope_pos
  obtain ⟨ia, ib, ha, hb, he⟩ := EstablishLayerDefn_adjacent rank _ poObj h1 hid
    (hcons poObj hmem) hJ1 l1 l2 A B vA vB hprops hAB
  obtain ⟨h3, h4⟩ := EstablishLayerDefn_spec _ poObj h1 hpos
  obtain ⟨_, h6⟩ := foldl_EstablishLayerDefn_spec o2 _ h3 (fieldNames_pos_of_le h4 hpos)
  exact ⟨ia, ib, h6.getElem? _ _ ha, h6.getElem? _ _ hb, h6.edges_sub _ he⟩

/-- The names of a property list rank in increasing order after `id` when
`id` ranks below a first property of another name and every property ranks
below the next. -/
theorem chain_of_adjacent (rank : String → Nat) :
    ∀ (t : List (String × Json)) (kv : String × Json),
      (∀ (l1 : List (String × Json)) (A : String) (vA : Json) (B : String) (vB : Json)
        (l2 : List (String × Json)), kv :: t = l1 ++ (A, vA) :: (B, vB) :: l2 →
        rank A < rank B) →
      List.Chain (fun a b => a ≠ b → rank a < rank b) kv.1 (t.map Prod.fst) := by
  intro t
  induction t with
  | nil => intro _ _; exact List.Chain.nil
  | cons kv2 t2 ih =>
    intro kv h
    rw [List.map_cons]
    refine List.Chain.cons (fun _ => h [] kv.1 kv.2 kv2.1 kv2.2 t2 rfl) ?_
    exact ih kv2 (fun l1 A vA B vB l2 heq => h (kv :: l1) A vA B vB l2 (by rw [heq]; rfl))

theorem chain_of_first_adjacent (rank : String → Nat) (props : List (String × Json))
    (hfirst : ∀ (kv : String × Json) (rest : List (String × Json)), props = kv :: rest →
      kv.1 ≠ "id" → rank "id" < rank kv.1)
    (hadj : ∀ (l1 : List (String × Json)) (A : String) (vA : Json) (B : String) (vB : Json)
      (l2 : List (String × Json)), props = l1 ++ (A, vA) :: (B, vB) :: l2 → rank A < rank B) :
    List.Chain (fun a b => a ≠ b → rank a < rank b) "id" (props.map Prod.fst) := by
  cases props with
  | nil => exact List.Chain.nil
  | cons kv t =>
    rw [List.map_cons]
    exact List.Chain.cons (fun hne => hfirst kv t rfl (fun h => hne h.symm))
      (chain_of_adjacent rank t kv hadj)

/-! ## The sealed schema -/

theorem sortedFields_lt (sc : SchemaScope) (hinv : ScopeInv sc) (idx : Nat)
    (h : idx ∈ sortedFields sc) : idx < (fieldNames sc).length := by
  have h1 := topologicalLoop_subset _ _ _ _ h
  rw [hinv.nodes_eq, List.mem_range] at h1
  exact h1

/-- The names of the fields at a list of valid field indices. -/
theorem names_of_indices (sc : SchemaScope) :
    ∀ (l : List Nat), (∀ idx ∈ l, idx < (fieldNames sc).length) →
      ((l.filterMap (fun idx => sc.apoFieldDefn.get? idx)).map OGRFieldDefn.name).length =
        l.length ∧
      ∀ (k : Nat) (idx : Nat), l[k]? = some idx →
        ((l.filterMap (fun idx => sc.apoFieldDefn.get? idx)).map OGRFieldDefn.name)[k]? =
          (fieldNames sc)[idx]? := by
  intro l
  induction l with
  | nil => intro _; exact ⟨rfl, fun k idx h => by simp at h⟩
  | cons a t ih =>
    intro h
    have ha : a < sc.apoFieldDefn.length := by
      have := h a (List.mem_cons_self _ _)
      simpa [fieldNames] using this
    obtain ⟨ih1, ih2⟩ := ih (fun idx hidx => h idx (List.mem_cons_of_mem _ hidx))
    have hget : sc.apoFieldDefn.get? a = some sc.apoFieldDefn[a] := by
      rw [List.get?_eq_getElem?, List.getElem?_eq_getElem ha]
    refine ⟨?_, ?_⟩
    · simp only [List.filterMap_cons, hget, List.map_cons, List.length_cons, ih1]
    · intro k idx hk
      simp only [List.filterMap_cons, hget, List.map_cons]
      cases k with
      | zero =>
        simp only [List.getElem?_cons_zero, Option.some.injEq] at hk ⊢
        subst hk
        simp [fieldNames, List.getElem?_eq_getElem ha]
      | succ k =>
        simp only [List.getElem?_cons_succ] at hk ⊢
        exact ih2 k idx hk

theorem getElem?_append_cons_length (l1 l2 : List Nat) (a : Nat) :
    (l1 ++ a :: l2)[l1.length]? = some a := by
  rw [List.getElem?_append_right (le_refl _)]
  simp

/-- When the recorded edges admit a strict ranking, the order returned at
sealing is a rearrangement of the field indices. -/
theorem sortedFields_perm (sc : SchemaScope) (hinv : ScopeInv sc) (rank : Nat → Nat)
    (hacyclic : ∀ e ∈ sc.dag.edges, rank e.1 < rank e.2) :
    (sortedFields sc).Perm (List.range sc.apoFieldDefn.length) := by
  have hlen : (fieldNames sc).length = sc.apoFieldDefn.length := by simp [fieldNames]
  have h := topologicalLoop_perm rank sc.dag.nodes.length sc.dag.nodes sc.dag.edges
    (le_refl _) (by
      intro e he
      refine ⟨?_, hacyclic e he⟩
      rw [hinv.nodes_eq, List.mem_range]
      exact (hinv.edges_lt e he).1)
  rw [← hlen, ← hinv.nodes_eq]
  exact h

/-- The order returned at sealing is a rearrangement of the field indices. -/
theorem sortedFields_perm_range (sc : SchemaScope) (hinv : ScopeInv sc) :
    (sortedFields sc).Perm (List.range sc.apoFieldDefn.length) := by
  obtain ⟨rank, hrank⟩ := hinv.acyclic
  exact sortedFields_perm sc hinv rank hrank

/-- An edge between two fields places the name of the first strictly before
the name of the second in the sealed schema. -/
theorem sealedNames_order_of_edge (sc : SchemaScope) (hinv : ScopeInv sc) (ia ib : Nat)
    (A B : String) (ha : (fieldNames sc)[ia]? = some A) (hb : (fieldNames sc)[ib]? = some B)
    (he : (ia, ib) ∈ sc.dag.edges) :
    ∃ i j : Nat, i < j ∧
      (sealedNames sc)[i]? = some A ∧ (sealedNames sc)[j]? = some B := by
  obtain ⟨_, hnames⟩ := names_of_indices sc (sortedFields sc) (sortedFields_lt sc hinv)
  have hsn : sealedNames sc =
      ((sortedFields sc).filterMap (fun idx => sc.apoFieldDefn.get? idx)).map
        OGRFieldDefn.name := rfl
  have hib : ib ∈ sortedFields sc := by
    rw [(sortedFields_perm_range sc hinv).mem_iff, List.mem_range]
    have := getElem?_lt_of_eq_some _ _ _ hb
    simpa [fieldNames] using this
  obtain ⟨m1, m2, m3, hsplit⟩ := topologicalLoop_edge_order _ _ _ ia ib he hib
  have hsplit2 : sortedFields sc = m1 ++ ia :: m2 ++ ib :: m3 := hsplit
  have hi : (sortedFields sc)[m1.length]? = some ia := by
    rw [hsplit2, List.append_assoc, List.cons_append, getElem?_append_cons_length]
  have hj : (sortedFields sc)[m1.length + 1 + m2.length]? = some ib := by
    have e : m1.length + 1 + m2.length = (m1 ++ ia :: m2).length := by
      simp only [List.length_append, List.length_cons]; omega
    rw [hsplit2, e, getElem?_append_cons_length]
  refine ⟨m1.length, m1.length + 1 + m2.length, by omega, ?_, ?_⟩
  · rw [hsn, hnames _ _ hi]; exact ha
  · rw [hsn, hnames _ _ hj]; exact hb

/-- The two neighbours named by a split of a list of two properties. -/
theorem adjacent_pair_cases (x y : String × Json) (l1 l2 : List (String × Json))
    (A B : String) (vA vB : Json) (h : [x, y] = l1 ++ (A, vA) :: (B, vB) :: l2) :
    A = x.1 ∧ B = y.1 := by
  cases l1 with
  | nil =>
    simp only [List.nil_append, List.cons.injEq] at h
    obtain ⟨h1, h2, _⟩ := h
    rw [h1, h2]
    exact ⟨rfl, rfl⟩
  | cons a t =>
    cases t with
    | nil => simp at h
    | cons b t2 => simp at h

/-- C8 (as amended). For every sequence of objects observed in one schema
scope whose property orders are mutually consistent (some ranking of the
field names puts `id` below the first property of every object, unless that
property is `id` itself, and every property below the property that follows
it in the same object), and for every object and every pair of properties `A`
immediately followed by `B` in that object's own property list, field `A`
appears strictly before field `B` in the sealed schema of that scope. -/
theorem C8_adjacent_properties_ordered (objs : List Json) (rank : String → Nat)
    (hfirst : ∀ o ∈ objs, ∀ (kv : String × Json) (rest : List (String × Json)),
      propertyList o = kv :: rest → kv.1 ≠ "id" → rank "id" < rank kv.1)
    (hadj : ∀ o ∈ objs, ∀ (l1 : List (String × Json)) (A : String) (vA : Json) (B : String)
      (vB : Json) (l2 : List (String × Json)),
      propertyList o = l1 ++ (A, vA) :: (B, vB) :: l2 → rank A < rank B)
    (poObj : Json) (hmem : poObj ∈ objs)
    (l1 l2 : List (String × Json)) (A B : String) (vA vB : Json)
    (hprops : propertyList poObj = l1 ++ (A, vA) :: (B, vB) :: l2) :
    ∃ i j : Nat, i < j ∧
      (sealedNames (discoverScope objs))[i]? = some A ∧
      (sealedNames (discoverScope objs))[j]? = some B := by
  have hAB : A ≠ B := by
    intro h
    have := hadj poObj hmem l1 A vA B vB l2 hprops
    rw [h] at this
    exact lt_irrefl _ this
  obtain ⟨ia, ib, ha, hb, he⟩ := discoverScope_adjacent rank objs
    (fun o ho => chain_of_first_adjacent rank (propertyList o) (hfirst o ho) (hadj o ho))
    poObj hmem l1 l2 A B vA vB hprops hAB
  exact sealedNames_order_of_edge (discoverScope objs) (discoverScope_inv objs) ia ib A B ha hb he

theorem C8_witness :
    (∃ i j : Nat, i < j ∧
      (sealedNames (discoverScope [objAB, objCA]))[i]? = some "a" ∧
      (sealedNames (discoverScope [objAB, objCA]))[j]? = some "b") ∧
    (∃ i j : Nat, i < j ∧
      (sealedNames (discoverScope [objIdA]))[i]? = some "id" ∧
      (sealedNames (discoverScope [objIdA]))[j]? = some "a") :=
  ⟨C8_adjacent_properties_ordered [objAB, objCA] exNameRank
    (by
      intro o ho kv rest h _
      simp only [List.mem_cons, List.mem_singleton, List.not_mem_nil, or_false] at ho
      rcases ho with rfl | rfl
      · have h2 : kv = ("a", Json.int 1) := (List.cons.inj (h.symm.trans rfl)).1
        rw [h2]
        decide
      · have h2 : kv = ("c", Json.int 1) := (List.cons.inj (h.symm.trans rfl)).1
        rw [h2]
        decide)
    (by
      intro o ho l1 A vA B vB l2 h
      simp only [List.mem_cons, List.mem_singleton, List.not_mem_nil, or_false] at ho
      rcases ho with rfl | rfl
      · obtain ⟨h1, h2⟩ := adjacent_pair_cases ("a", Json.int 1) ("b", Json.int 2) l1 l2 A B vA vB
          (Eq.trans rfl h)
        rw [h1, h2]
        decide
      · obtain ⟨h1, h2⟩ := adjacent_pair_cases ("c", Json.int 1) ("a", Json.int 2) l1 l2 A B vA vB
          (Eq.trans rfl h)
        rw [h1, h2]
        decide)
    objAB (List.mem_cons_self _ _) [] [] "a" "b" (Json.int 1) (Json.int 2) rfl,
   C8_adjacent_properties_ordered [objIdA] exNameRank
    (by
      intro o ho kv rest h hne
      simp only [List.mem_singleton] at ho
      subst ho
      have h2 : kv = ("id", Json.int 7) := (List.cons.inj (h.symm.trans rfl)).1
      rw [h2] at hne
      exact absurd rfl hne)
    (by
      intro o ho l1 A vA B vB l2 h
      simp only [List.mem_singleton] at ho
      subst ho
      obtain ⟨h1, h2⟩ := adjacent_pair_cases ("id", Json.int 7) ("a", Json.int 1) l1 l2 A B vA vB
        (Eq.trans rfl h)
      rw [h1, h2]
      decide)
    objIdA (List.mem_singleton_self _) [] [] "id" "a" (Json.int 7) (Json.int 1) rfl⟩

/-- C8 fails as stated: an object listing `a, b` and an object listing
`b, a` ask for `a` strictly before `b` and for `b` strictly before `a`; the
sealed schema of the scope that observed both does not place the two fields
in both orders. -/
theorem C8_counterexample :
    objAB ∈ [objAB, objBA] ∧ objBA ∈ [objAB, objBA] ∧
    propertyList objAB = [] ++ ("a", Json.int 1) :: ("b", Json.int 2) :: [] ∧
    propertyList objBA = [] ++ ("b", Json.int 1) :: ("a", Json.int 2) :: [] ∧
    ¬ ((∃ i j : Nat, i < j ∧
        (sealedNames (discoverScope [objAB, objBA]))[i]? = some "a" ∧
        (sealedNames (discoverScope [objAB, objBA]))[j]? = some "b") ∧
      (∃ i j : Nat, i < j ∧
        (sealedNames (discoverScope [objAB, objBA]))[i]? = some "b" ∧
        (sealedNames (discoverScope [objAB, objBA]))[j]? = some "a")) := by
  have h : sealedNames (discoverScope [objAB, objBA]) = ["id", "a", "b"] := by decide
  refine ⟨List.mem_cons_self _ _, List.mem_cons_of_mem _ (List.mem_cons_self _ _), rfl, rfl, ?_⟩
  rw [h]
  rintro ⟨_, i, j, hij, hi, hj⟩
  have hi2 : i = 2 := by
    match i, hi with
    | 0, h => simp at h
    | 1, h => simp at h
    | 2, _ => rfl
    | i + 3, h => simp at h
  have hj2 : j = 1 := by
    match j, hj with
    | 0, h => simp at h
    | 1, _ => rfl
    | 2, h => simp at h
    | j + 3, h => simp at h
  omega

/-- The order returned at sealing after an object listing `a, b` and an
object listing `b, a`: the edge from `b` to `a`, which would close a cycle,
is not recorded, and every field is in the order. -/
theorem sortedFields_opposite_orders :
    (discoverScope [objAB, objBA]).dag.edges = [(0, 1), (1, 2), (0, 2)] ∧
    sortedFields (discoverScope [objAB, objBA]) = [0, 1, 2] ∧
    sealedNames (discoverScope [objAB, objBA]) = ["id", "a", "b"] := by
  decide

/-! ## Arcs with malformed pairs -/

theorem get_idx_array (items : List Json) (i : Nat) (hi : i < items.length) :
    json_object_array_get_idx (Json.array items) i = items[i] := by
  simp [json_object_array_get_idx, List.getD_eq_getElem?_getD, List.getElem?_eq_getElem hi]

theorem ParseArcLoop_forward_slots (ps : ScalingParams) (items : List Json) :
    ∀ (k i fuel : Nat) (pre : OGRLineString) (ax ay : ℚ) (B : Int),
      i + k = items.length → i ≠ 0 → k ≤ fuel → B + (i : Int) = (pre.length : Int) →
      ParseArcLoop (Json.array items) false ps fuel i
        { poLS := pre ++ List.replicate k ((0, 0) : OGRRawPoint), dfAccX := ax, dfAccY := ay,
          nBaseIndice := B, nPoints := items.length }
      = pre ++ decodeSlots ps ax ay (items.drop i) := by
  intro k
  induction k with
  | zero =>
    intro i fuel pre ax ay B hik _ _ _
    have hi : ¬ i < items.length := by omega
    have hd : items.drop i = [] := List.drop_of_length_le (by omega)
    cases fuel <;> simp [ParseArcLoop, hi, hd, decodeSlots]
  | succ k ih =>
    intro i fuel pre ax ay B hik hi0 hfuel hB
    obtain ⟨f, rfl⟩ : ∃ f, fuel = f + 1 := ⟨fuel - 1, by omega⟩
    have hlt : i < items.length := by omega
    have hd : items.drop i = items[i] :: items.drop (i + 1) := List.drop_eq_getElem_cons hlt
    rw [hd, ParseArcLoop, decodeSlots]
    simp only [if_pos hlt, ParseArcBody, get_idx_array items i hlt]
    cases hp : ParsePoint items[i] with
    | none =>
      simp only
      have hline : pre ++ List.replicate (k + 1) ((0, 0) : OGRRawPoint) =
          (pre ++ [(0, 0)]) ++ List.replicate k ((0, 0) : OGRRawPoint) := by
        rw [List.replicate_succ]; simp
      rw [hline, ih (i + 1) f (pre ++ [(0, 0)]) ax ay B (by omega) (by omega) (by omega)
        (by simp; omega)]
      simp
    | some q =>
      simp only [if_neg hi0, ParseArcWrite, Bool.not_false, if_true]
      rw [List.replicate_succ]
      cases hE : ps.bElementExists
      · simp only [Bool.false_eq_true, if_false]
        rw [setPoint_at pre _ _ _ _ _ hB]
        have := ih (i + 1) f (pre ++ [((q.1 * ps.dfScale0 + ps.dfTranslate0,
          q.2 * ps.dfScale1 + ps.dfTranslate1) : OGRRawPoint)]) ax ay B
          (by omega) (by omega) (by omega) (by simp; omega)
        simp only [List.append_assoc, List.singleton_append] at this
        rw [this]
      · simp only [if_true]
        rw [setPoint_at pre _ _ _ _ _ hB]
        have := ih (i + 1) f (pre ++ [(((ax + q.1) * ps.dfScale0 + ps.dfTranslate0,
          (ay + q.2) * ps.dfScale1 + ps.dfTranslate1) : OGRRawPoint)])
          (ax + q.1) (ay + q.2) B
          (by omega) (by omega) (by omega) (by simp; omega)
        simp only [List.append_assoc, List.singleton_append] at this
        rw [this]

theorem ParseArcLoop_reverse_slots (ps : ScalingParams) (items : List Json) :
    ∀ (k i fuel : Nat) (pre suf : OGRLineString) (ax ay : ℚ) (B : Int) (M : Nat),
      i + k = M → M ≤ items.length → i ≠ 0 → k ≤ fuel → B = (pre.length : Int) →
      ParseArcLoop (Json.array items) true ps fuel i
        { poLS := pre ++ List.replicate k ((0, 0) : OGRRawPoint) ++ suf, dfAccX := ax,
          dfAccY := ay, nBaseIndice := B, nPoints := M }
      = pre ++ (decodeSlots ps ax ay ((items.drop i).take k)).reverse ++ suf := by
  intro k
  induction k with
  | zero =>
    intro i fuel pre suf ax ay B M hik _ _ _ _
    have hi : ¬ i < M := by omega
    cases fuel <;> simp [ParseArcLoop, hi, decodeSlots]
  | succ k ih =>
    intro i fuel pre suf ax ay B M hik hM hi0 hfuel hB
    obtain ⟨f, rfl⟩ : ∃ f, fuel = f + 1 := ⟨fuel - 1, by omega⟩
    have hlt : i < items.length := by omega
    have hltM : i < M := by omega
    have hd : items.drop i = items[i] :: items.drop (i + 1) := List.drop_eq_getElem_cons hlt
    rw [hd, List.take_succ_cons, ParseArcLoop, decodeSlots]
    simp only [if_pos hltM, ParseArcBody, get_idx_array items i hlt]
    have hidx : B + (M : Int) - 1 - (i : Int) =
        ((pre ++ List.replicate k ((0, 0) : OGRRawPoint)).length : Int) := by
      simp only [List.length_append, List.length_replicate]; push_cast; omega
    have hline : pre ++ List.replicate (k + 1) ((0, 0) : OGRRawPoint) ++ suf =
        (pre ++ List.replicate k ((0, 0) : OGRRawPoint)) ++ (0, 0) :: suf := by
      rw [replicate_succ_snoc]; simp
    rw [hline]
    cases hp : ParsePoint items[i] with
    | none =>
      simp only
      rw [ih (i + 1) f pre _ ax ay B M (by omega) hM (by omega) (by omega) hB]
      simp
    | some q =>
      simp only [if_neg hi0, ParseArcWrite, Bool.not_true, Bool.false_eq_true, if_false]
      cases hE : ps.bElementExists
      · simp only [Bool.false_eq_true, if_false]
        rw [setPoint_at _ _ _ _ _ _ hidx]
        rw [ih (i + 1) f pre _ ax ay B M (by omega) hM (by omega) (by omega) hB]
        simp
      · simp only [if_true]
        rw [setPoint_at _ _ _ _ _ _ hidx]
        rw [ih (i + 1) f pre _ _ _ B M (by omega) hM (by omega) (by omega) hB]
        simp

/-- An arc whose first pair is well-formed, decoded onto an empty line: the
line is sized for the items of the arc and each well-formed pair is written
to its slot, counted from the start (forward) or from the end (reversed). -/
theorem ParseArc_empty_of_first_wellFormed (ps : ScalingParams) (arcs : List Json)
    (nArcID : Int) (bReverse : Bool) (hid : 0 ≤ nArcID)
    (hfirst : wellFormedPair
      (json_object_array_get_idx (arcs.getD nArcID.toNat Json.null) 0) = true) :
    ParseArc [] (Json.array arcs) nArcID bReverse ps =
      if bReverse then
        (decodeSlots ps 0 0 (arrayItems (arcs.getD nArcID.toNat Json.null))).reverse
      else decodeSlots ps 0 0 (arrayItems (arcs.getD nArcID.toNat Json.null)) := by
  have hneg : ¬ nArcID < 0 := by omega
  cases harc : arcs.getD nArcID.toNat Json.null with
  | array items =>
    rw [harc] at hfirst
    cases items with
    | nil => simp [json_object_array_get_idx, wellFormedPair] at hfirst
    | cons p0 rest =>
      have hp0 : wellFormedPair p0 = true := by
        simpa [json_object_array_get_idx] using hfirst
      have hp := ParsePoint_of_wellFormedPair p0 hp0
      unfold ParseArc
      simp only [if_neg hneg, json_object_array_get_idx, harc, json_object_get_type,
        json_object_array_length, ne_eq, not_true_eq_false, if_false, arrayItems]
      rw [List.length_cons, ParseArcLoop]
      have hFF := ParseArcLoop_forward_slots ps (p0 :: rest) rest.length 1 rest.length
      have hRF := ParseArcLoop_reverse_slots ps (p0 :: rest)
      simp only [List.length_cons, List.drop_succ_cons, List.drop_zero] at hFF hRF
      have hsing : ∀ (d : OGRRawPoint) (l : OGRLineString), d :: l = [d] ++ l := fun _ _ => rfl
      have hget : json_object_array_get_idx (Json.array (p0 :: rest)) 0 = p0 := rfl
      cases bReverse
      · cases hE : ps.bElementExists <;>
        simp only [Nat.zero_lt_succ, if_true, ParseArcBody, hget, hp, List.length_cons, hE,
          getNumPoints_nil, Bool.not_false, Bool.and_false, Bool.false_eq_true, if_false,
          ParseArcWrite, Bool.and_self, Nat.zero_add] <;>
        rw [setNumPoints_grow [] _ (rest.length + 1), List.replicate_succ,
          setPoint_at [] _ _ _ _ _, List.nil_append, hsing, hFF] <;>
        first
          | omega
          | (simp [getNumPoints]; done)
          | (simp [decodeSlots, hp, hE]; done)
      · cases hE : ps.bElementExists <;>
        simp only [Nat.zero_lt_succ, if_true, ParseArcBody, hget, hp, List.length_cons, hE,
          getNumPoints_nil, Bool.not_false, Bool.and_false, Bool.false_eq_true, if_false,
          ParseArcWrite, Bool.and_self, Nat.zero_add, Bool.not_true] <;>
        rw [setPoint_setNumPoints_last [] _ _ rest.length,
          hRF rest.length 1 rest.length []] <;>
        first
          | omega
          | (simp [getNumPoints]; done)
          | (simp [decodeSlots, hp, hE]; done)
  | _ => rw [harc] at hfirst; simp [json_object_array_get_idx, wellFormedPair] at hfirst


theorem ParseLineString_single (ps : ScalingParams) (arcs : List Json) (r : Int)
    (hin : refInRange arcs r) :
    ParseLineString [] (Json.array [Json.int r]) (Json.array arcs) ps =
      ParseArc [] (Json.array arcs) (refIndex r) (refReversed r) ps := by
  have hr2 : (decodeArcId (json_object_get_int (Json.int r))).1 <
      (json_object_array_length (Json.array arcs) : Int) := hin
  simp only [ParseLineString, arrayItems, List.foldl_cons, List.foldl_nil, ParseLineStringBody,
    json_object_get_type, if_true, hr2]
  rfl

/-- For every arc store, every in-range index `i` whose arc starts with a
well-formed pair, and every transform, decoding the reversed reference
`-(i+1)` into an empty line yields exactly the reverse of the point sequence
obtained by decoding the forward reference `i` into an empty line: the line
is sized at the first pair, and both directions fill mirrored slots. -/
theorem reversed_mirrors_forward_of_first_wellFormed (ps : ScalingParams) (arcs : List Json) (i : Int)
    (hi : 0 ≤ i) (hin : refInRange arcs i)
    (hfirst : wellFormedPair (json_object_array_get_idx (refArc arcs i) 0) = true) :
    ParseLineString [] (Json.array [Json.int (-(i + 1))]) (Json.array arcs) ps =
      (ParseLineString [] (Json.array [Json.int i]) (Json.array arcs) ps).reverse := by
  obtain ⟨hidx, hf, hrev⟩ := refIndex_neg_succ i hi
  have hin2 : refInRange arcs (-(i + 1)) := by unfold refInRange at *; rw [hidx]; exact hin
  rw [ParseLineString_single ps arcs i hin, ParseLineString_single ps arcs _ hin2, hidx, hf,
    hrev]
  unfold refArc at hfirst
  rw [ParseArc_empty_of_first_wellFormed ps arcs (refIndex i) true (refIndex_nonneg i) hfirst,
    ParseArc_empty_of_first_wellFormed ps arcs (refIndex i) false (refIndex_nonneg i) hfirst]
  simp

theorem reversed_mirrors_forward_example :
    (0 : Int) ≤ 0 ∧ refInRange exArcs 0 ∧
    wellFormedPair (json_object_array_get_idx (refArc exArcs 0) 0) = true ∧
    ParseLineString [] (Json.array [Json.int (-(0 + 1))]) (Json.array exArcs) exParams =
      (ParseLineString [] (Json.array [Json.int 0]) (Json.array exArcs) exParams).reverse :=
  ⟨by decide, by decide, by decide,
    reversed_mirrors_forward_of_first_wellFormed exParams exArcs 0 (by decide) (by decide)
      (by decide)⟩

/-- C3 at a failing input: over the arc `[null, [1,1]]`, whose first pair is
malformed, the line is not sized at the first pair; the in-range forward
reference `0` decodes into an empty line to `(0,0), (1,1)`, with a zero point
in the slot of the malformed pair, and the reversed reference `-1` decodes to
`(1,1)` alone, which is not the reverse of the forward decode. -/
theorem C3_malformed_first_pair_breaks_mirror :
    refInRange badFirstArcs 0 ∧
    ParseLineString [] (Json.array [Json.int 0]) (Json.array badFirstArcs) identityParams =
      [(0, 0), (1, 1)] ∧
    ParseLineString [] (Json.array [Json.int (-(0 + 1))]) (Json.array badFirstArcs)
      identityParams = [(1, 1)] ∧
    ParseLineString [] (Json.array [Json.int (-(0 + 1))]) (Json.array badFirstArcs)
      identityParams ≠
    (ParseLineString [] (Json.array [Json.int 0]) (Json.array badFirstArcs)
      identityParams).reverse := by
  have h1 : ParseLineString [] (Json.array [Json.int 0]) (Json.array badFirstArcs)
      identityParams = [(0, 0), (1, 1)] := by
    simp [ParseLineString, arrayItems, ParseLineStringBody, decodeArcId, json_object_get_int,
      json_object_get_type, json_object_array_length, badFirstArcs, ParseArc,
      json_object_array_get_idx, ParseArcLoop, ParseArcBody, ParsePoint, exPair,
      json_object_get_double, identityParams, ParseArcWrite, setPoint, setNumPoints,
      getNumPoints, INT32_MIN, INT32_MAX]
  have h2 : ParseLineString [] (Json.array [Json.int (-(0 + 1))]) (Json.array badFirstArcs)
      identityParams = [(1, 1)] := by
    simp [ParseLineString, arrayItems, ParseLineStringBody, decodeArcId, json_object_get_int,
      json_object_get_type, json_object_array_length, badFirstArcs, ParseArc,
      json_object_array_get_idx, ParseArcLoop, ParseArcBody, ParsePoint, exPair,
      json_object_get_double, identityParams, ParseArcWrite, setPoint, setNumPoints,
      getNumPoints, INT32_MIN, INT32_MAX]
  refine ⟨by decide, h1, h2, ?_⟩
  rw [h1, h2]
  simp

/-! ## Fuel of the loop of ParseArc -/

theorem ParseArcWrite_nPoints (bReverse : Bool) (i : Nat) (st : ArcLoopState) (x y : ℚ) :
    (ParseArcWrite bReverse i st x y).nPoints = st.nPoints := by
  unfold ParseArcWrite
  split <;> rfl

/-- The loop body never raises the loop bound `nPoints`. -/
theorem ParseArcBody_nPoints_le (poArcDB : Json) (bReverse : Bool) (ps : ScalingParams)
    (i : Nat) (st st1 : ArcLoopState)
    (h : ParseArcBody poArcDB bReverse ps i st = LoopCtl.next st1) :
    st1.nPoints ≤ st.nPoints := by
  unfold ParseArcBody at h
  cases hp : ParsePoint (json_object_array_get_idx poArcDB i) with
  | none => rw [hp] at h; cases h; exact le_refl _
  | some q =>
    rw [hp] at h
    simp only at h
    cases hE : ps.bElementExists <;> by_cases hi0 : i = 0 <;> cases bReverse <;>
      by_cases hpos : getNumPoints st.poLS > 0 <;>
      simp only [hE, hi0, hpos, if_true, if_false, Bool.false_eq_true, Bool.not_false,
        Bool.not_true, Bool.true_and, Bool.false_and, decide_True, decide_False,
        Bool.and_self, Bool.and_false, Bool.and_true] at h <;>
      (try split at h) <;>
      first
        | (cases h; done)
        | (cases h; simp [ParseArcWrite_nPoints]; done)

/-- The loop of `ParseArc` needs no more fuel than passes remain: any two
amounts of fuel that cover `nPoints - i` give the same line. -/
theorem ParseArcLoop_fuel (poArcDB : Json) (bReverse : Bool) (ps : ScalingParams) :
    ∀ (f1 f2 i : Nat) (st : ArcLoopState),
      st.nPoints - i ≤ f1 → st.nPoints - i ≤ f2 →
      ParseArcLoop poArcDB bReverse ps f1 i st = ParseArcLoop poArcDB bReverse ps f2 i st := by
  intro f1
  induction f1 with
  | zero =>
    intro f2 i st h1 _
    have hi : ¬ i < st.nPoints := by omega
    cases f2 <;> simp [ParseArcLoop, hi]
  | succ f1 ih =>
    intro f2 i st h1 h2
    by_cases hi : i < st.nPoints
    · obtain ⟨g, rfl⟩ : ∃ g, f2 = g + 1 := ⟨f2 - 1, by omega⟩
      rw [ParseArcLoop, ParseArcLoop]
      simp only [if_pos hi]
      cases hb : ParseArcBody poArcDB bReverse ps i st with
      | next st1 =>
        have hle := ParseArcBody_nPoints_le _ _ _ _ _ _ hb
        exact ih g (i + 1) st1 (by omega) (by omega)
      | brk st1 => rfl
    · cases f2 <;> simp [ParseArcLoop, hi]

/-! ## Independent reads of the transform, skipped ring entries -/

/-- C11. For every transform member, scale and translate are read
independently: the resolved scale is the document's when the scale member is
a well-typed 2-element numeric array and `(1,1)` otherwise, the resolved
translate is the document's when the translate member is a well-typed
2-element numeric array and `(0,0)` otherwise; in particular a missing or
malformed scale does not block a valid translate, and vice versa. -/
theorem C11_scale_translate_independent (poGJObject : Json) :
    (((ReadLayersTransform poGJObject).dfScale0, (ReadLayersTransform poGJObject).dfScale1) =
      if hasValidScale poGJObject = true then
        rawPoint (OGRGeoJSONFindMemberByName
          (OGRGeoJSONFindMemberByName poGJObject "transform") "scale")
      else (1, 1)) ∧
    (((ReadLayersTransform poGJObject).dfTranslate0,
        (ReadLayersTransform poGJObject).dfTranslate1) =
      if hasValidTranslate poGJObject = true then
        rawPoint (OGRGeoJSONFindMemberByName
          (OGRGeoJSONFindMemberByName poGJObject "transform") "translate")
      else (0, 0)) ∧
    (hasValidScale poGJObject = false → hasValidTranslate poGJObject = true →
      ((ReadLayersTransform poGJObject).dfTranslate0,
          (ReadLayersTransform poGJObject).dfTranslate1) =
        rawPoint (OGRGeoJSONFindMemberByName
          (OGRGeoJSONFindMemberByName poGJObject "transform") "translate") ∧
      (ReadLayersTransform poGJObject).dfScale0 = 1 ∧
      (ReadLayersTransform poGJObject).dfScale1 = 1) ∧
    (hasValidTranslate poGJObject = false → hasValidScale poGJObject = true →
      ((ReadLayersTransform poGJObject).dfScale0, (ReadLayersTransform poGJObject).dfScale1) =
        rawPoint (OGRGeoJSONFindMemberByName
          (OGRGeoJSONFindMemberByName poGJObject "transform") "scale") ∧
      (ReadLayersTransform poGJObject).dfTranslate0 = 0 ∧
      (ReadLayersTransform poGJObject).dfTranslate1 = 0) := by
  have hraw : ∀ j : Json, wellFormedPair j = true →
      rawPoint j = (json_object_get_double (json_object_array_get_idx j 0),
        json_object_get_double (json_object_array_get_idx j 1)) := by
    intro j hj
    match j, hj with
    | .array [a, b], _ => rfl
  unfold hasValidScale hasValidTranslate ReadLayersTransform
  by_cases hobj : json_object_get_type (OGRGeoJSONFindMemberByName poGJObject "transform") =
      json_type_object
  · simp only [if_pos hobj, pair_guard]
    cases hs : wellFormedPair (OGRGeoJSONFindMemberByName
        (OGRGeoJSONFindMemberByName poGJObject "transform") "scale") <;>
    cases ht : wellFormedPair (OGRGeoJSONFindMemberByName
        (OGRGeoJSONFindMemberByName poGJObject "transform") "translate") <;>
    simp [identityParams, hraw _, hs, ht]
  · simp only [if_neg hobj]
    rw [FindMemberByName_of_not_object _ _ hobj, FindMemberByName_of_not_object _ _ hobj]
    simp [wellFormedPair, identityParams]

theorem ParseLineStringBody_of_not_contributing (poArcsDB : Json) (ps : ScalingParams)
    (poLS : OGRLineString) (poArcId : Json) (h : contributingRef poArcsDB poArcId = false) :
    ParseLineStringBody poArcsDB ps poLS poArcId = poLS := by
  unfold ParseLineStringBody
  unfold contributingRef at h
  by_cases h1 : json_object_get_type poArcId = json_type_int
  · simp only [h1, decide_True, Bool.true_and, decide_eq_false_iff_not] at h
    simp only [if_pos h1, if_neg h]
  · simp only [if_neg h1]

theorem foldl_ParseLineStringBody_filter (poArcsDB : Json) (ps : ScalingParams) :
    ∀ (ring : List Json) (poLS : OGRLineString),
      ring.foldl (ParseLineStringBody poArcsDB ps) poLS =
        (ring.filter (contributingRef poArcsDB)).foldl (ParseLineStringBody poArcsDB ps) poLS := by
  intro ring
  induction ring with
  | nil => intro poLS; rfl
  | cons e t ih =>
    intro poLS
    cases he : contributingRef poArcsDB e
    · simp only [List.foldl_cons, List.filter_cons, he, Bool.false_eq_true, if_false]
      rw [ParseLineStringBody_of_not_contributing _ _ _ _ he]
      exact ih poLS
    · simp only [List.foldl_cons, List.filter_cons, he, if_true]
      exact ih _

/-- C13. For every ring, arc store and transform, an entry that is not an
integer, or whose decoded index is not below the arc count, leaves the line
as it is, and `ParseLineString` on the ring yields the same line as on the
ring with those entries removed. -/
theorem C13_out_of_range_references_skipped (poLS : OGRLineString) (ring : List Json)
    (poArcsDB : Json) (ps : ScalingParams) :
    (∀ poArcId : Json, contributingRef poArcsDB poArcId = false →
      ∀ l : OGRLineString, ParseLineStringBody poArcsDB ps l poArcId = l) ∧
    ParseLineString poLS (Json.array ring) poArcsDB ps =
      ParseLineString poLS (Json.array (ring.filter (contributingRef poArcsDB))) poArcsDB ps := by
  refine ⟨fun e he l => ParseLineStringBody_of_not_contributing _ _ l e he, ?_⟩
  unfold ParseLineString
  exact foldl_ParseLineStringBody_filter poArcsDB ps ring poLS

/-! ## Points without coordinates, malformed pairs, Parse and the guards of ReadLayers -/

theorem ParsePoint_eq_none_iff (j : Json) : ParsePoint j = none ↔ wellFormedPair j = false := by
  constructor
  · intro h
    cases hw : wellFormedPair j
    · rfl
    · rw [ParsePoint_of_wellFormedPair j hw] at h
      exact Option.noConfusion h
  · intro h
    have hn : ¬ wellFormedPair j = true := by rw [h]; exact Bool.false_ne_true
    have h3 := fun hh => hn ((wellFormedPair_iff j).2 hh)
    unfold ParsePoint
    by_cases h1 : json_object_get_type j = json_type_array ∧ json_object_array_length j = 2
    · rw [if_pos h1]
      simp only
      rw [if_neg]
      intro h2
      exact h3 ⟨h1, h2.1.symm, h2.2.symm⟩
    · rw [if_neg h1]

theorem json_object_get_type_string (j : Json) (s : String) (h : j = Json.string s) :
    json_object_get_type j = json_type_string ∧ json_object_get_string j = s := by
  subst h; exact ⟨rfl, rfl⟩

/-- C12 (as amended). For every object of kind `Point` whose coordinates
member is an array that is malformed (wrong arity or non-numeric entries),
`ParseObject` adds to the layer a feature whose geometry is an empty point;
when the coordinates member is absent or not an array, `ParseObject` adds no
feature. -/
theorem C12_point_with_malformed_coordinates (pszId : Option String) (poObj : Json)
    (poLayer : OGRGeoJSONLayer) (poArcsDB : Json) (ps : ScalingParams)
    (hkind : OGRGeoJSONFindMemberByName poObj "type" = Json.string "Point") :
    (json_object_get_type (OGRGeoJSONFindMemberByName poObj "coordinates") = json_type_array →
      wellFormedPair (OGRGeoJSONFindMemberByName poObj "coordinates") = false →
      ∃ poFeature : OGRFeature,
        ParseObject pszId poObj poLayer poArcsDB ps = AddFeature poLayer poFeature ∧
        poFeature.geometry = some (OGRGeometry.point none)) ∧
    (json_object_get_type (OGRGeoJSONFindMemberByName poObj "coordinates") ≠ json_type_array →
      ParseObject pszId poObj poLayer poArcsDB ps = poLayer) := by
  obtain ⟨ht, hs⟩ := json_object_get_type_string _ _ hkind
  constructor
  · intro harr hbad
    have hpp := (ParsePoint_eq_none_iff _).2 hbad
    unfold ParseObject ParseObjectFeature
    simp only [ht, hs, ne_eq, not_true_eq_false, if_false, true_or, if_true, harr]
    refine ⟨_, rfl, ?_⟩
    simp only [ParseObjectGeometry, if_true, hpp]
  · intro harr
    unfold ParseObject ParseObjectFeature
    simp only [ht, hs, ne_eq, not_true_eq_false, if_false, true_or, if_true, harr,
      not_false_eq_true]

theorem C12_witness :
    OGRGeoJSONFindMemberByName pointWithShortCoordinates "type" = Json.string "Point" ∧
    ((json_object_get_type (OGRGeoJSONFindMemberByName pointWithShortCoordinates "coordinates")
        = json_type_array →
      wellFormedPair (OGRGeoJSONFindMemberByName pointWithShortCoordinates "coordinates")
        = false →
      ∃ poFeature : OGRFeature,
        ParseObject none pointWithShortCoordinates (newLayer "TopoJSON") (Json.array [])
          identityParams = AddFeature (newLayer "TopoJSON") poFeature ∧
        poFeature.geometry = some (OGRGeometry.point none)) ∧
    (json_object_get_type (OGRGeoJSONFindMemberByName pointWithShortCoordinates "coordinates")
        ≠ json_type_array →
      ParseObject none pointWithShortCoordinates (newLayer "TopoJSON") (Json.array [])
        identityParams = newLayer "TopoJSON")) :=
  ⟨rfl, C12_point_with_malformed_coordinates none pointWithShortCoordinates
    (newLayer "TopoJSON") (Json.array []) identityParams rfl⟩

/-- C12 fails as stated: for the object `{"type": "Point"}`, whose
coordinates member is absent, `ParseObject` builds no feature and leaves the
layer without features. -/
theorem C12_counterexample :
    OGRGeoJSONFindMemberByName pointWithoutCoordinates "type" = Json.string "Point" ∧
    json_object_get_type (OGRGeoJSONFindMemberByName pointWithoutCoordinates "coordinates") =
      json_type_null ∧
    (ParseObjectFeature none pointWithoutCoordinates (newLayer "TopoJSON").fieldDefns
      (Json.array []) identityParams).isNone = true ∧
    (ParseObject none pointWithoutCoordinates (newLayer "TopoJSON") (Json.array [])
      identityParams).features.length = 0 := by
  refine ⟨rfl, rfl, ?_, ?_⟩ <;> decide

/-- C14 at a failing input: the arc `[[1,1], [5], [2,2]]` decodes, forward
into an empty line with no transform, to the three points
`(1,1), (0,0), (2,2)`, while the arc with the malformed pair removed decodes
to the two points `(1,1), (2,2)`. -/
theorem C14_malformed_pair_leaves_zero_point :
    ParseLineString [] (Json.array [Json.int 0]) (Json.array badMiddleArcs) identityParams =
      [(1, 1), (0, 0), (2, 2)] ∧
    ParseLineString [] (Json.array [Json.int 0]) (Json.array badMiddleRemovedArcs)
      identityParams = [(1, 1), (2, 2)] ∧
    (ParseLineString [] (Json.array [Json.int 0]) (Json.array badMiddleArcs)
      identityParams).length ≠
    ((arrayItems (Json.array [exPair 1 1, Json.array [Json.int 5], exPair 2 2])).filter wellFormedPair).length := by
  have h1 : ParseLineString [] (Json.array [Json.int 0]) (Json.array badMiddleArcs)
      identityParams = [(1, 1), (0, 0), (2, 2)] := by
    simp [ParseLineString, arrayItems, ParseLineStringBody, decodeArcId, json_object_get_int,
      json_object_get_type, json_object_array_length, badMiddleArcs, ParseArc,
      json_object_array_get_idx, ParseArcLoop, ParseArcBody, ParsePoint, exPair,
      json_object_get_double, identityParams, ParseArcWrite, setPoint, setNumPoints,
      getNumPoints, INT32_MIN, INT32_MAX]
  have h2 : ParseLineString [] (Json.array [Json.int 0]) (Json.array badMiddleRemovedArcs)
      identityParams = [(1, 1), (2, 2)] := by
    simp [ParseLineString, arrayItems, ParseLineStringBody, decodeArcId, json_object_get_int,
      json_object_get_type, json_object_array_length, badMiddleRemovedArcs, ParseArc,
      json_object_array_get_idx, ParseArcLoop, ParseArcBody, ParsePoint, exPair,
      json_object_get_double, identityParams, ParseArcWrite, setPoint, setNumPoints,
      getNumPoints, INT32_MIN, INT32_MAX]
  refine ⟨h1, h2, ?_⟩
  rw [h1]
  decide

/-- C18. `Parse` returns `CorruptData` for a null text whatever the
loose/strict flag, and for any text the JSON parser rejects; in both cases
the reader retains the tree it had, none for a new reader, so that a
subsequent `ReadLayers` adds no layer. -/
theorem C18_parse_corrupt_data (OGRJSonParse : String → Option Json)
    (self : OGRTopoJSONReader) (bLooseIdentification : Bool) (poDS : List OGRGeoJSONLayer) :
    OGRTopoJSONReader.Parse OGRJSonParse self none bLooseIdentification =
      (OGRErr.OGRERR_CORRUPT_DATA, self) ∧
    ReadLayers (OGRTopoJSONReader.Parse OGRJSonParse OGRTopoJSONReader.new none
      bLooseIdentification).2.poGJObject_ poDS = poDS ∧
    (∀ pszText : String, OGRJSonParse pszText = none →
      OGRTopoJSONReader.Parse OGRJSonParse self (some pszText) bLooseIdentification =
        (OGRErr.OGRERR_CORRUPT_DATA, self) ∧
      ReadLayers (OGRTopoJSONReader.Parse OGRJSonParse OGRTopoJSONReader.new (some pszText)
        bLooseIdentification).2.poGJObject_ poDS = poDS) := by
  refine ⟨rfl, rfl, ?_⟩
  intro pszText h
  have hp : OGRTopoJSONReader.Parse OGRJSonParse self (some pszText) bLooseIdentification =
      (OGRErr.OGRERR_CORRUPT_DATA, self) := by
    unfold OGRTopoJSONReader.Parse
    simp only [Option.bind, h]
  refine ⟨hp, ?_⟩
  have hp2 : OGRTopoJSONReader.Parse OGRJSonParse OGRTopoJSONReader.new (some pszText)
      bLooseIdentification = (OGRErr.OGRERR_CORRUPT_DATA, OGRTopoJSONReader.new) := by
    unfold OGRTopoJSONReader.Parse
    simp only [Option.bind, h]
  rw [hp2]
  rfl

theorem C18_witness :
    exJSonParse "not json" = none ∧
    OGRTopoJSONReader.Parse exJSonParse OGRTopoJSONReader.new (some "not json") false =
      (OGRErr.OGRERR_CORRUPT_DATA, OGRTopoJSONReader.new) ∧
    ReadLayers (OGRTopoJSONReader.Parse exJSonParse OGRTopoJSONReader.new (some "not json")
      false).2.poGJObject_ [] = [] :=
  ⟨by simp [exJSonParse],
   (C18_parse_corrupt_data exJSonParse OGRTopoJSONReader.new false []).2.2 "not json"
     (by simp [exJSonParse])⟩

/-- C19. For every value tree in which the arcs member is missing or not an
array, or the objects member is missing or is neither an object nor an
array, `ReadLayers` adds no layer to the data source. -/
theorem C19_missing_arcs_or_objects (poGJObject : Json) (poDS : List OGRGeoJSONLayer) :
    (json_object_get_type (OGRGeoJSONFindMemberByName poGJObject "arcs") ≠ json_type_array →
      ReadLayers poGJObject poDS = poDS) ∧
    ((json_object_get_type (OGRGeoJSONFindMemberByName poGJObject "objects") ≠ json_type_object ∧
      json_object_get_type (OGRGeoJSONFindMemberByName poGJObject "objects") ≠ json_type_array) →
      ReadLayers poGJObject poDS = poDS) := by
  constructor
  · intro h
    unfold ReadLayers
    split
    · rfl
    · simp only [h, ne_eq, not_false_eq_true, if_true]
  · intro h
    unfold ReadLayers
    split
    · rfl
    · simp only
      split
      · rfl
      · split
        · rfl
        · have hm : topLevelMembers (OGRGeoJSONFindMemberByName poGJObject "objects") = [] := by
            cases hj : OGRGeoJSONFindMemberByName poGJObject "objects" <;>
              simp_all [topLevelMembers, json_object_get_type]
          rw [hm]
          rfl

theorem C19_witness :
    json_object_get_type (OGRGeoJSONFindMemberByName docWithoutArcs "arcs") ≠ json_type_array ∧
    ReadLayers docWithoutArcs [] = [] :=
  ⟨by decide, (C19_missing_arcs_or_objects docWithoutArcs []).1 (by decide)⟩

/-! ## A document with a single point -/

/-- C17. For the document with empty arcs, no transform, and objects mapping
the key `a` to a `Point` with coordinates `[0,0]` and properties `{x: 1}`,
`ReadLayers` produces exactly one layer (`TopoJSON`, fields `id` and `x`)
holding exactly one feature whose geometry is the point `(0,0)`, whose field
`x` is the integer 1 and whose field `id` is the string `a`. -/
theorem C17_single_point_document :
    ReadLayers singlePointDoc [] =
      [{ name := "TopoJSON",
         fieldDefns := [{ name := "id", eType := OGRFieldType.OFTString },
                        { name := "x", eType := OGRFieldType.OFTInteger }],
         features := [{ fields := [some (OGRField.string "a"), some (OGRField.integer 1)],
                        geometry := some (OGRGeometry.point (some (0, 0))) }],
         ops := [LayerOp.addFieldDefn, LayerOp.addFieldDefn, LayerOp.addFeature] }] := by
  have h1 : ReadLayers singlePointDoc [] =
      [ParseObject (some "a") singlePointObject singlePointSealedLayer (Json.array [])
        identityParams] := by
    rfl
  have h2 : ParseObject (some "a") singlePointObject singlePointSealedLayer (Json.array [])
      identityParams =
      AddFeature singlePointSealedLayer
        { fields := [some (OGRField.string "a"), some (OGRField.integer 1)],
          geometry := ParseObjectGeometry "Point" Json.null
            (Json.array [Json.int 0, Json.int 0]) (Json.array []) identityParams } := by
    rfl
  have h3 : ParseObjectGeometry "Point" Json.null (Json.array [Json.int 0, Json.int 0])
      (Json.array []) identityParams = some (OGRGeometry.point (some (0, 0))) := by
    simp [ParseObjectGeometry, ParsePoint, json_object_get_type, json_object_array_length,
      json_object_array_get_idx, json_object_get_double, identityParams]
  rw [h1, h2, h3]
  rfl

/-! ## The layers ReadLayers produces -/

theorem isBareGeometryKind_collection : isBareGeometryKind "GeometryCollection" = false := by
  decide

/-- What one call of `ParseObjectMain` does, by the kind of the member. -/
theorem ParseObjectMain_eq (pszId : Option String) (poObj poArcs : Json) (ps : ScalingParams)
    (st : MainState) :
    ParseObjectMain pszId poObj poArcs ps st =
      if isCollectionMember poObj then
        (false, { st with poDS := st.poDS ++ [collectionLayer pszId poObj poArcs ps] })
      else if isBareMember poObj then
        (true,
          { poDS := st.poDS
            poMainLayer := some (st.poMainLayer.getD (newLayer "TopoJSON"))
            scope := EstablishLayerDefn 0
              (if st.poMainLayer.isSome then st.scope else registerIdField st.scope) poObj })
      else (false, st) := by
  unfold ParseObjectMain isCollectionMember isBareMember
  by_cases h1 : json_object_get_type poObj = json_type_object
  · by_cases h2 : json_object_get_type (OGRGeoJSONFindMemberByName poObj "type") =
        json_type_string
    · by_cases h3 : json_object_get_string (OGRGeoJSONFindMemberByName poObj "type") =
          "GeometryCollection"
      · by_cases h4 : json_object_get_type (OGRGeoJSONFindMemberByName poObj "geometries") =
            json_type_array
        · simp [h1, h2, h3, h4]
        · simp [h1, h2, h3, h4, isBareGeometryKind_collection]
      · by_cases h5 : isBareGeometryKind
            (json_object_get_string (OGRGeoJSONFindMemberByName poObj "type")) = true
        · cases hm : st.poMainLayer <;> simp [h1, h2, h3, h5, hm]
        · simp [h1, h2, h3, h5]
    · simp [h1, h2]
  · simp [h1]


theorem isBareMember_of_isCollectionMember (poObj : Json) (h : isCollectionMember poObj = true) :
    isBareMember poObj = false := by
  unfold isCollectionMember at h
  unfold isBareMember
  simp only [Bool.and_eq_true, decide_eq_true_eq] at h
  simp [h.1.2, isBareGeometryKind_collection]

theorem bareMembers_cons (m : Option String × Json) (t : List (Option String × Json)) :
    bareMembers (m :: t) = if isBareMember m.2 then m.2 :: bareMembers t else bareMembers t := by
  unfold bareMembers
  rw [List.filter_cons]
  split <;> simp

theorem collectionLayers_cons (m : Option String × Json) (t : List (Option String × Json))
    (poArcs : Json) (ps : ScalingParams) :
    collectionLayers (m :: t) poArcs ps =
      if isCollectionMember m.2 then
        collectionLayer m.1 m.2 poArcs ps :: collectionLayers t poArcs ps
      else collectionLayers t poArcs ps := by
  unfold collectionLayers
  rw [List.filterMap_cons]
  split <;> simp_all

theorem ReadLayersFirstPass_eq (poArcs : Json) (ps : ScalingParams) (b : Bool) (st : MainState)
    (m : Option String × Json) :
    ReadLayersFirstPass poArcs ps (b, st) m =
      if isCollectionMember m.2 then
        (b, { st with poDS := st.poDS ++ [collectionLayer m.1 m.2 poArcs ps] })
      else if isBareMember m.2 then
        (true,
          { poDS := st.poDS
            poMainLayer := some (st.poMainLayer.getD (newLayer "TopoJSON"))
            scope := EstablishLayerDefn 0
              (if st.poMainLayer.isSome then st.scope else registerIdField st.scope) m.2 })
      else (b, st) := by
  unfold ReadLayersFirstPass
  rw [ParseObjectMain_eq]
  by_cases h1 : isCollectionMember m.2 = true
  · simp [h1]
  · by_cases h2 : isBareMember m.2 = true
    · simp [h1, h2]
    · simp [h1, h2]

/-- The first pass over the top-level members once the main layer exists. -/
theorem foldl_ReadLayersFirstPass_some (poArcs : Json) (ps : ScalingParams)
    (members : List (Option String × Json)) :
    ∀ (b : Bool) (st : MainState) (l : OGRGeoJSONLayer), st.poMainLayer = some l →
      members.foldl (ReadLayersFirstPass poArcs ps) (b, st) =
        (b || !(bareMembers members).isEmpty,
          { poDS := st.poDS ++ collectionLayers members poArcs ps
            poMainLayer := some l
            scope := (bareMembers members).foldl (EstablishLayerDefn 0) st.scope }) := by
  induction members with
  | nil =>
    intro b st l h
    cases st
    simp_all [bareMembers, collectionLayers]
  | cons m t ih =>
    intro b st l h
    rw [List.foldl_cons, ReadLayersFirstPass_eq]
    by_cases h1 : isCollectionMember m.2 = true
    · have h2 := isBareMember_of_isCollectionMember _ h1
      rw [if_pos h1, ih b { st with poDS := st.poDS ++ [collectionLayer m.1 m.2 poArcs ps] } l h,
        bareMembers_cons, collectionLayers_cons, if_pos h1, h2]
      simp
    · by_cases h2 : isBareMember m.2 = true
      · rw [if_neg h1, if_pos h2, ih true _ l (by simp [h]), bareMembers_cons,
          collectionLayers_cons, if_neg h1, if_pos h2]
        simp [h]
      · rw [if_neg h1, if_neg h2, ih b st l h, bareMembers_cons, collectionLayers_cons,
          if_neg h1, if_neg h2]

/-- The first pass over the top-level members from the start of `ReadLayers`. -/
theorem foldl_ReadLayersFirstPass_none (poArcs : Json) (ps : ScalingParams)
    (members : List (Option String × Json)) :
    ∀ (poDS : List OGRGeoJSONLayer),
      members.foldl (ReadLayersFirstPass poArcs ps)
          (false, { poDS := poDS, poMainLayer := none, scope := emptyScope }) =
        if (bareMembers members).isEmpty then
          (false, { poDS := poDS ++ collectionLayers members poArcs ps
                    poMainLayer := none, scope := emptyScope })
        else
          (true, { poDS := poDS ++ collectionLayers members poArcs ps
                   poMainLayer := some (newLayer "TopoJSON")
                   scope := discoverScope (bareMembers members) }) := by
  induction members with
  | nil =>
    intro poDS
    simp [bareMembers, collectionLayers]
  | cons m t ih =>
    intro poDS
    rw [List.foldl_cons, ReadLayersFirstPass_eq]
    by_cases h1 : isCollectionMember m.2 = true
    · have h2 := isBareMember_of_isCollectionMember _ h1
      rw [if_pos h1]
      simp only []
      rw [ih, bareMembers_cons, collectionLayers_cons, if_pos h1, h2]
      simp
    · by_cases h2 : isBareMember m.2 = true
      · rw [if_neg h1, if_pos h2,
          foldl_ReadLayersFirstPass_some poArcs ps t true _ (newLayer "TopoJSON") (by simp),
          bareMembers_cons, collectionLayers_cons, if_neg h1, if_pos h2]
        simp [discoverScope]
        rfl
      · rw [if_neg h1, if_neg h2, ih, bareMembers_cons, collectionLayers_cons, if_neg h1,
          if_neg h2]

/-- The layers `ReadLayers` adds for the top-level members: the collection
layers in member order, then the shared layer when there is a bare member. -/
theorem ReadLayersMembers_eq (members : List (Option String × Json)) (poArcs : Json)
    (ps : ScalingParams) (poDS : List OGRGeoJSONLayer) :
    ReadLayersMembers members poArcs ps poDS =
      poDS ++ collectionLayers members poArcs ps ++
        (if (bareMembers members).isEmpty then [] else [sharedLayer members poArcs ps]) := by
  unfold ReadLayersMembers
  rw [foldl_ReadLayersFirstPass_none]
  by_cases h : (bareMembers members).isEmpty = true
  · simp [h]
  · simp [h, sharedLayer]


/-- The layer after sealing: the sealed schema is appended to the field list,
one field addition each, and nothing else changes. -/
theorem sealLayer_eq (poLayer : OGRGeoJSONLayer) (sc : SchemaScope) :
    sealLayer poLayer sc =
      { name := poLayer.name
        fieldDefns := poLayer.fieldDefns ++ sealedSchema sc
        features := poLayer.features
        ops := poLayer.ops ++ List.replicate (sealedSchema sc).length LayerOp.addFieldDefn } := by
  unfold sealLayer sealedSchema
  generalize sortedFields sc = idxs
  induction idxs generalizing poLayer with
  | nil => simp
  | cons i t ih =>
    rw [List.foldl_cons, ih, List.filterMap_cons]
    cases h : sc.apoFieldDefn.get? i with
    | none => simp
    | some d => simp [AddFieldDefn, List.replicate_succ]

theorem setFieldSlot_length (poFeature : OGRFeature) (nField : Int) (v : OGRField) :
    (setFieldSlot poFeature nField v).fields.length = poFeature.fields.length := by
  unfold setFieldSlot
  split <;> simp

theorem OGRGeoJSONReaderSetField_length (poDefn : List OGRFieldDefn) (poFeature : OGRFeature)
    (nField : Int) (poVal : Json) :
    (OGRGeoJSONReaderSetField poDefn poFeature nField poVal).fields.length =
      poFeature.fields.length := by
  unfold OGRGeoJSONReaderSetField
  split
  · rfl
  · split
    · exact setFieldSlot_length _ _ _
    · rfl

theorem foldl_ParseObjectProperty_length (poDefn : List OGRFieldDefn)
    (props : List (String × Json)) :
    ∀ poFeature : OGRFeature,
      (props.foldl (ParseObjectProperty poDefn) poFeature).fields.length =
        poFeature.fields.length := by
  induction props with
  | nil => intro f; rfl
  | cons p t ih =>
    intro f
    rw [List.foldl_cons, ih]
    exact OGRGeoJSONReaderSetField_length _ _ _ _

/-- The feature `ParseObject` builds, when it builds one: the attributes of
the object and the geometry of its kind. -/
theorem ParseObjectFeature_some (pszId : Option String) (poObj : Json)
    (poDefn : List OGRFieldDefn) (poArcsDB : Json) (ps : ScalingParams) (poFeature : OGRFeature)
    (h : ParseObjectFeature pszId poObj poDefn poArcsDB ps = some poFeature) :
    poFeature =
      { fields := (ParseObjectAttributes pszId poObj poDefn).fields
        geometry := ParseObjectGeometry
          (json_object_get_string (OGRGeoJSONFindMemberByName poObj "type"))
          (OGRGeoJSONFindMemberByName poObj "arcs")
          (OGRGeoJSONFindMemberByName poObj "coordinates") poArcsDB ps } := by
  unfold ParseObjectFeature at h
  simp only at h
  by_cases ht : json_object_get_type (OGRGeoJSONFindMemberByName poObj "type") ≠ json_type_string
  · rw [if_pos ht] at h
    cases h
  · rw [if_neg ht] at h
    by_cases hg : (if json_object_get_string (OGRGeoJSONFindMemberByName poObj "type") = "Point" ∨
          json_object_get_string (OGRGeoJSONFindMemberByName poObj "type") = "MultiPoint" then
        json_object_get_type (OGRGeoJSONFindMemberByName poObj "coordinates") ≠ json_type_array
        else json_object_get_type (OGRGeoJSONFindMemberByName poObj "arcs") ≠ json_type_array)
    · rw [if_pos hg] at h
      cases h
    · rw [if_neg hg] at h
      exact (Option.some.inj h).symm

theorem ParseObjectAttributes_length (pszId : Option String) (poObj : Json)
    (poDefn : List OGRFieldDefn) :
    (ParseObjectAttributes pszId poObj poDefn).fields.length = poDefn.length := by
  have h0 : (newFeature poDefn).fields.length = poDefn.length := by
    simp [newFeature]
  have h1 : (match resolveId pszId poObj with
      | some s => SetFieldByName poDefn (newFeature poDefn) "id" s
      | none => newFeature poDefn).fields.length = poDefn.length := by
    split
    · unfold SetFieldByName
      rw [setFieldSlot_length]; exact h0
    · exact h0
  unfold ParseObjectAttributes
  simp only
  split
  · rw [foldl_ParseObjectProperty_length]
    exact h1
  · exact h1

/-- A feature `ParseObject` builds has one slot per field of the layer
definition. -/
theorem ParseObjectFeature_length (pszId : Option String) (poObj : Json)
    (poDefn : List OGRFieldDefn) (poArcsDB : Json) (ps : ScalingParams) (poFeature : OGRFeature)
    (h : ParseObjectFeature pszId poObj poDefn poArcsDB ps = some poFeature) :
    poFeature.fields.length = poDefn.length := by
  rw [ParseObjectFeature_some _ _ _ _ _ _ h]
  exact ParseObjectAttributes_length _ _ _

/-- `ParseObject` keeps the name and the fields of the layer and adds at most
one feature, after every operation already applied. -/
theorem ParseObject_SealedThenFilled (pszId : Option String) (poObj : Json)
    (poLayer : OGRGeoJSONLayer) (poArcsDB : Json) (ps : ScalingParams)
    (h : SealedThenFilled poLayer) :
    (ParseObject pszId poObj poLayer poArcsDB ps).name = poLayer.name ∧
    (ParseObject pszId poObj poLayer poArcsDB ps).fieldDefns = poLayer.fieldDefns ∧
    SealedThenFilled (ParseObject pszId poObj poLayer poArcsDB ps) := by
  unfold ParseObject
  cases hf : ParseObjectFeature pszId poObj poLayer.fieldDefns poArcsDB ps with
  | none => exact ⟨rfl, rfl, h⟩
  | some f =>
    refine ⟨rfl, rfl, ?_, ?_⟩
    · simp only [AddFeature, List.length_append, List.length_singleton]
      rw [h.1, List.replicate_add, List.append_assoc]
      rfl
    · intro g hg
      simp only [AddFeature, List.mem_append, List.mem_singleton] at hg
      rcases hg with hg | hg
      · exact h.2 g hg
      · rw [hg]
        exact ParseObjectFeature_length _ _ _ _ _ _ hf

theorem foldl_collectionSecondPass_SealedThenFilled (poArcs : Json) (ps : ScalingParams)
    (items : List Json) :
    ∀ poLayer : OGRGeoJSONLayer, SealedThenFilled poLayer →
      (items.foldl (collectionSecondPass poArcs ps) poLayer).name = poLayer.name ∧
      (items.foldl (collectionSecondPass poArcs ps) poLayer).fieldDefns = poLayer.fieldDefns ∧
      SealedThenFilled (items.foldl (collectionSecondPass poArcs ps) poLayer) := by
  induction items with
  | nil => intro l h; exact ⟨rfl, rfl, h⟩
  | cons g t ih =>
    intro l h
    rw [List.foldl_cons]
    have hstep : (collectionSecondPass poArcs ps l g).name = l.name ∧
        (collectionSecondPass poArcs ps l g).fieldDefns = l.fieldDefns ∧
        SealedThenFilled (collectionSecondPass poArcs ps l g) := by
      unfold collectionSecondPass
      split
      · exact ParseObject_SealedThenFilled _ _ _ _ _ h
      · exact ⟨rfl, rfl, h⟩
    obtain ⟨h1, h2, h3⟩ := ih _ hstep.2.2
    exact ⟨h1.trans hstep.1, h2.trans hstep.2.1, h3⟩

theorem foldl_ReadLayersSecondPass_SealedThenFilled (poArcs : Json) (ps : ScalingParams)
    (members : List (Option String × Json)) :
    ∀ poLayer : OGRGeoJSONLayer, SealedThenFilled poLayer →
      (members.foldl (ReadLayersSecondPass poArcs ps) poLayer).name = poLayer.name ∧
      (members.foldl (ReadLayersSecondPass poArcs ps) poLayer).fieldDefns = poLayer.fieldDefns ∧
      SealedThenFilled (members.foldl (ReadLayersSecondPass poArcs ps) poLayer) := by
  induction members with
  | nil => intro l h; exact ⟨rfl, rfl, h⟩
  | cons m t ih =>
    intro l h
    rw [List.foldl_cons]
    have hstep : (ReadLayersSecondPass poArcs ps l m).name = l.name ∧
        (ReadLayersSecondPass poArcs ps l m).fieldDefns = l.fieldDefns ∧
        SealedThenFilled (ReadLayersSecondPass poArcs ps l m) := by
      unfold ReadLayersSecondPass ParseObjectMainSecondPass
      split
      · simp only
        split
        · split
          · exact ParseObject_SealedThenFilled _ _ _ _ _ h
          · exact ⟨rfl, rfl, h⟩
        · exact ⟨rfl, rfl, h⟩
      · exact ⟨rfl, rfl, h⟩
    obtain ⟨h1, h2, h3⟩ := ih _ hstep.2.2
    exact ⟨h1.trans hstep.1, h2.trans hstep.2.1, h3⟩

theorem sealLayer_newLayer (pszName : String) (sc : SchemaScope) :
    (sealLayer (newLayer pszName) sc).name = pszName ∧
    (sealLayer (newLayer pszName) sc).fieldDefns = sealedSchema sc ∧
    SealedThenFilled (sealLayer (newLayer pszName) sc) := by
  rw [sealLayer_eq]
  refine ⟨rfl, by simp [newLayer], ?_, ?_⟩
  · simp [newLayer]
  · intro f hf
    simp [newLayer] at hf

theorem foldl_collectionFirstPass (items : List Json) :
    ∀ sc : SchemaScope,
      items.foldl collectionFirstPass sc =
        (items.filter (fun g => decide (json_object_get_type g = json_type_object))).foldl
          (EstablishLayerDefn 0) sc := by
  induction items with
  | nil => intro sc; rfl
  | cons g t ih =>
    intro sc
    rw [List.foldl_cons, ih, List.filter_cons]
    unfold collectionFirstPass
    by_cases h : json_object_get_type g = json_type_object
    · simp [h]
    · simp [h]

/-- A collection layer: named after the identifier of the collection, sealed
with the schema discovered over its own geometries, then filled. -/
theorem collectionLayer_spec (pszId : Option String) (poObj poArcs : Json)
    (ps : ScalingParams) :
    (collectionLayer pszId poObj poArcs ps).name = (resolveId pszId poObj).getD "TopoJSON" ∧
    (collectionLayer pszId poObj poArcs ps).fieldDefns =
      sealedSchema (discoverScope (collectionObjects poObj)) ∧
    SealedThenFilled (collectionLayer pszId poObj poArcs ps) := by
  unfold collectionLayer
  simp only
  rw [foldl_collectionFirstPass]
  obtain ⟨h1, h2, h3⟩ := sealLayer_newLayer ((resolveId pszId poObj).getD "TopoJSON")
    (discoverScope (collectionObjects poObj))
  obtain ⟨g1, g2, g3⟩ := foldl_collectionSecondPass_SealedThenFilled poArcs ps
    (arrayItems (OGRGeoJSONFindMemberByName poObj "geometries")) _ h3
  exact ⟨g1.trans h1, g2.trans h2, g3⟩

/-- The shared layer: named `TopoJSON`, sealed with the schema discovered over
all bare members, then filled. -/
theorem sharedLayer_spec (members : List (Option String × Json)) (poArcs : Json)
    (ps : ScalingParams) :
    (sharedLayer members poArcs ps).name = "TopoJSON" ∧
    (sharedLayer members poArcs ps).fieldDefns =
      sealedSchema (discoverScope (bareMembers members)) ∧
    SealedThenFilled (sharedLayer members poArcs ps) := by
  unfold sharedLayer
  obtain ⟨h1, h2, h3⟩ := sealLayer_newLayer "TopoJSON" (discoverScope (bareMembers members))
  obtain ⟨g1, g2, g3⟩ := foldl_ReadLayersSecondPass_SealedThenFilled poArcs ps members _ h3
  exact ⟨g1.trans h1, g2.trans h2, g3⟩


/-- The layers `ReadLayers` adds for a document with an arcs array. -/
theorem ReadLayers_eq (poGJObject : Json) (poDS : List OGRGeoJSONLayer)
    (harcs : json_object_get_type (OGRGeoJSONFindMemberByName poGJObject "arcs") =
      json_type_array) :
    ReadLayers poGJObject poDS =
      poDS ++
        collectionLayers (topLevelMembers (OGRGeoJSONFindMemberByName poGJObject "objects"))
          (OGRGeoJSONFindMemberByName poGJObject "arcs") (ReadLayersTransform poGJObject) ++
        (if (bareMembers
            (topLevelMembers (OGRGeoJSONFindMemberByName poGJObject "objects"))).isEmpty then []
          else [sharedLayer (topLevelMembers (OGRGeoJSONFindMemberByName poGJObject "objects"))
            (OGRGeoJSONFindMemberByName poGJObject "arcs") (ReadLayersTransform poGJObject)]) := by
  have hnn : json_object_get_type poGJObject ≠ json_type_null := by
    intro h
    cases poGJObject <;> simp_all [json_object_get_type, OGRGeoJSONFindMemberByName]
  unfold ReadLayers
  rw [if_neg hnn]
  simp only [harcs, ne_eq, not_true_eq_false, if_false]
  by_cases ho : json_object_get_type (OGRGeoJSONFindMemberByName poGJObject "objects") =
      json_type_null
  · rw [if_pos ho]
    have hm : topLevelMembers (OGRGeoJSONFindMemberByName poGJObject "objects") = [] := by
      cases hj : OGRGeoJSONFindMemberByName poGJObject "objects" <;>
        simp_all [topLevelMembers, json_object_get_type]
    rw [hm]
    simp [collectionLayers, bareMembers]
  · rw [if_neg ho]
    exact ReadLayersMembers_eq _ _ _ _

theorem length_bareMembers (members : List (Option String × Json)) :
    (bareMembers members).length = (members.filter (fun m => isBareMember m.2)).length := by
  simp [bareMembers]

theorem length_collectionLayers (members : List (Option String × Json)) (poArcs : Json)
    (ps : ScalingParams) :
    (collectionLayers members poArcs ps).length =
      (members.filter (fun m => isCollectionMember m.2)).length := by
  induction members with
  | nil => rfl
  | cons m t ih =>
    rw [collectionLayers_cons, List.filter_cons]
    by_cases h : isCollectionMember m.2 = true
    · simp [h, ih]
    · simp [h, ih]

theorem mem_collectionLayers (members : List (Option String × Json)) (poArcs : Json)
    (ps : ScalingParams) (l : OGRGeoJSONLayer) (h : l ∈ collectionLayers members poArcs ps) :
    ∃ m ∈ members, isCollectionMember m.2 = true ∧ l = collectionLayer m.1 m.2 poArcs ps := by
  unfold collectionLayers at h
  rw [List.mem_filterMap] at h
  obtain ⟨m, hm, hl⟩ := h
  refine ⟨m, hm, ?_⟩
  by_cases hc : isCollectionMember m.2 = true
  · rw [if_pos hc] at hl
    exact ⟨hc, (Option.some.inj hl).symm⟩
  · rw [if_neg hc] at hl
    cases hl

/-- C15 (as amended). For every document with an arcs array whose top-level
objects hold `c` `GeometryCollection` members carrying a geometries array and
`b` members of a bare geometry kind, `ReadLayers` adds exactly
`c + (1 if b > 0 else 0)` layers: the collection layers in member order, each
sealed with the schema discovered over its own geometries, then a single
shared layer `TopoJSON` sealed with the schema discovered over all bare
members. -/
theorem C15_layers_per_collection_and_shared (poGJObject : Json) (poDS : List OGRGeoJSONLayer)
    (harcs : json_object_get_type (OGRGeoJSONFindMemberByName poGJObject "arcs") =
      json_type_array) :
    ReadLayers poGJObject poDS =
      poDS ++
        collectionLayers (topLevelMembers (OGRGeoJSONFindMemberByName poGJObject "objects"))
          (OGRGeoJSONFindMemberByName poGJObject "arcs") (ReadLayersTransform poGJObject) ++
        (if (bareMembers
            (topLevelMembers (OGRGeoJSONFindMemberByName poGJObject "objects"))).isEmpty then []
          else [sharedLayer (topLevelMembers (OGRGeoJSONFindMemberByName poGJObject "objects"))
            (OGRGeoJSONFindMemberByName poGJObject "arcs") (ReadLayersTransform poGJObject)]) ∧
    (ReadLayers poGJObject poDS).length =
      poDS.length +
        ((topLevelMembers (OGRGeoJSONFindMemberByName poGJObject "objects")).filter
          (fun m => isCollectionMember m.2)).length +
        (if 0 < ((topLevelMembers (OGRGeoJSONFindMemberByName poGJObject "objects")).filter
          (fun m => isBareMember m.2)).length then 1 else 0) ∧
    (∀ l ∈ collectionLayers (topLevelMembers (OGRGeoJSONFindMemberByName poGJObject "objects"))
        (OGRGeoJSONFindMemberByName poGJObject "arcs") (ReadLayersTransform poGJObject),
      ∃ m ∈ topLevelMembers (OGRGeoJSONFindMemberByName poGJObject "objects"),
        isCollectionMember m.2 = true ∧
        l.name = (resolveId m.1 m.2).getD "TopoJSON" ∧
        l.fieldDefns = sealedSchema (discoverScope (collectionObjects m.2))) ∧
    (sharedLayer (topLevelMembers (OGRGeoJSONFindMemberByName poGJObject "objects"))
        (OGRGeoJSONFindMemberByName poGJObject "arcs") (ReadLayersTransform poGJObject)).name =
      "TopoJSON" ∧
    (sharedLayer (topLevelMembers (OGRGeoJSONFindMemberByName poGJObject "objects"))
        (OGRGeoJSONFindMemberByName poGJObject "arcs")
        (ReadLayersTransform poGJObject)).fieldDefns =
      sealedSchema (discoverScope
        (bareMembers (topLevelMembers (OGRGeoJSONFindMemberByName poGJObject "objects")))) := by
  have heq := ReadLayers_eq poGJObject poDS harcs
  refine ⟨heq, ?_, ?_, (sharedLayer_spec _ _ _).1, (sharedLayer_spec _ _ _).2.1⟩
  · rw [heq, List.length_append, List.length_append, length_collectionLayers,
      ← length_bareMembers]
    congr 1
    cases hb : bareMembers (topLevelMembers (OGRGeoJSONFindMemberByName poGJObject "objects"))
      <;> simp
  · intro l hl
    obtain ⟨m, hm, hc, hlm⟩ := mem_collectionLayers _ _ _ l hl
    refine ⟨m, hm, hc, ?_, ?_⟩
    · rw [hlm]; exact (collectionLayer_spec _ _ _ _).1
    · rw [hlm]; exact (collectionLayer_spec _ _ _ _).2.1

theorem C15_witness :
    json_object_get_type (OGRGeoJSONFindMemberByName collectionAndPointDoc "arcs") =
      json_type_array ∧
    (ReadLayers collectionAndPointDoc []).length = 2 ∧
    (ReadLayers collectionAndPointDoc []).map OGRGeoJSONLayer.name = ["c", "TopoJSON"] :=
  ⟨by decide,
   ((C15_layers_per_collection_and_shared collectionAndPointDoc [] (by decide)).2.1).trans
     (by decide),
   by
     rw [(C15_layers_per_collection_and_shared collectionAndPointDoc [] (by decide)).1]
     decide⟩

/-- C15 fails as stated: the document `docWithoutArcs` holds no collection
member and one bare member, so that the claim gives one layer, but it has no
arcs array and `ReadLayers` adds no layer. -/
theorem C15_counterexample :
    ((topLevelMembers (OGRGeoJSONFindMemberByName docWithoutArcs "objects")).filter
      (fun m => isCollectionMember m.2)).length = 0 ∧
    ((topLevelMembers (OGRGeoJSONFindMemberByName docWithoutArcs "objects")).filter
      (fun m => isBareMember m.2)).length = 1 ∧
    (ReadLayers docWithoutArcs []).length = 0 := by
  decide

/-- C16. In every run of `ReadLayers`, every layer it adds was sealed before
it received a feature: its fields are the sealed schema of its whole scope
(all bare members for the shared layer, all object geometries of the
collection for a collection layer), all its field additions precede all its
feature additions, and every feature was created with one slot per field of
that schema. -/
theorem C16_features_after_sealing (poGJObject : Json) (poDS : List OGRGeoJSONLayer) :
    ∃ added : List OGRGeoJSONLayer,
      ReadLayers poGJObject poDS = poDS ++ added ∧
      ∀ l ∈ added,
        (∃ sc : SchemaScope,
          (sc = discoverScope
              (bareMembers (topLevelMembers (OGRGeoJSONFindMemberByName poGJObject "objects"))) ∨
            ∃ m ∈ topLevelMembers (OGRGeoJSONFindMemberByName poGJObject "objects"),
              sc = discoverScope (collectionObjects m.2)) ∧
          l.fieldDefns = sealedSchema sc) ∧
        l.ops = List.replicate l.fieldDefns.length LayerOp.addFieldDefn ++
          List.replicate l.features.length LayerOp.addFeature ∧
        ∀ f ∈ l.features, f.fields.length = l.fieldDefns.length := by
  by_cases harcs : json_object_get_type (OGRGeoJSONFindMemberByName poGJObject "arcs") =
      json_type_array
  · refine ⟨collectionLayers (topLevelMembers (OGRGeoJSONFindMemberByName poGJObject "objects"))
          (OGRGeoJSONFindMemberByName poGJObject "arcs") (ReadLayersTransform poGJObject) ++
        (if (bareMembers
            (topLevelMembers (OGRGeoJSONFindMemberByName poGJObject "objects"))).isEmpty then []
          else [sharedLayer (topLevelMembers (OGRGeoJSONFindMemberByName poGJObject "objects"))
            (OGRGeoJSONFindMemberByName poGJObject "arcs") (ReadLayersTransform poGJObject)]),
      ?_, ?_⟩
    · rw [ReadLayers_eq poGJObject poDS harcs, List.append_assoc]
    · intro l hl
      rw [List.mem_append] at hl
      rcases hl with hl | hl
      · obtain ⟨m, hm, _, hlm⟩ := mem_collectionLayers _ _ _ l hl
        obtain ⟨_, h2, h3⟩ := collectionLayer_spec m.1 m.2
          (OGRGeoJSONFindMemberByName poGJObject "arcs") (ReadLayersTransform poGJObject)
        rw [hlm]
        exact ⟨⟨_, Or.inr ⟨m, hm, rfl⟩, h2⟩, h3.1, h3.2⟩
      · split at hl
        · cases hl
        · rw [List.mem_singleton] at hl
          obtain ⟨_, h2, h3⟩ := sharedLayer_spec
            (topLevelMembers (OGRGeoJSONFindMemberByName poGJObject "objects"))
            (OGRGeoJSONFindMemberByName poGJObject "arcs") (ReadLayersTransform poGJObject)
          rw [hl]
          exact ⟨⟨_, Or.inl rfl, h2⟩, h3.1, h3.2⟩
  · refine ⟨[], ?_, ?_⟩
    · unfold ReadLayers
      split
      · simp
      · simp [harcs]
    · intro l hl
      cases hl

/-! ## Two objects with disjoint property names -/

theorem lookup_none_of_fresh (sc : SchemaScope) (key : String) (hinv : ScopeInv sc)
    (h : key ∉ fieldNames sc) : sc.oMapFieldNameToIdx.lookup key = none := by
  cases hl : sc.oMapFieldNameToIdx.lookup key with
  | none => rfl
  | some idx =>
    exfalso
    have h1 := (hinv.map_iff key idx).1 hl
    obtain ⟨hlt, heq⟩ := List.getElem?_eq_some.1 h1
    exact h (heq ▸ List.getElem_mem hlt)

/-- One property with a name not yet in the scope: a new field is appended,
typed from the value, and the only new edge leads from the previous field to
it. -/
theorem EstablishLayerDefnProp_fresh (sc : SchemaScope) (p : Int) (key : String) (val : Json)
    (hinv : ScopeInv sc) (hp0 : 0 ≤ p) (hfresh : key ∉ fieldNames sc) :
    (EstablishLayerDefnProp (p, sc) (key, val)).1 = (sc.apoFieldDefn.length : Int) ∧
    (EstablishLayerDefnProp (p, sc) (key, val)).2.apoFieldDefn =
      sc.apoFieldDefn ++ [{ name := key, eType := GeoJSONPropertyToFieldType val }] ∧
    ∀ e ∈ (EstablishLayerDefnProp (p, sc) (key, val)).2.dag.edges,
      e ∈ sc.dag.edges ∨ e = (p.toNat, sc.apoFieldDefn.length) := by
  have hl := lookup_none_of_fresh sc key hinv hfresh
  have hpne : p ≠ -1 := by omega
  unfold EstablishLayerDefnProp OGRGeoJSONReaderAddOrUpdateField
  simp only [hl, List.foldl_cons, List.foldl_nil]
  rw [EstablishLayerDefnIdx_eq _ _ _ hpne]
  refine ⟨rfl, rfl, ?_⟩
  intro e he
  exact mem_addEdge_edges_cases _ _ _ _ _ e he

/-- The properties of an object whose names are distinct and not yet in the
scope: the fields are appended in property order, and every new edge leads
from a field to a later one. -/
theorem EstablishLayerDefnProp_foldl_fresh (props : List (String × Json)) :
    ∀ (p : Int) (sc : SchemaScope), ScopeInv sc → 0 ≤ p → p < ((fieldNames sc).length : Int) →
      (props.map Prod.fst).Nodup → (∀ k ∈ props.map Prod.fst, k ∉ fieldNames sc) →
      (props.foldl EstablishLayerDefnProp (p, sc)).2.apoFieldDefn =
        sc.apoFieldDefn ++
          props.map (fun kv => { name := kv.1, eType := GeoJSONPropertyToFieldType kv.2 }) ∧
      ∀ e ∈ (props.foldl EstablishLayerDefnProp (p, sc)).2.dag.edges,
        e ∈ sc.dag.edges ∨ e.1 < e.2 := by
  induction props with
  | nil =>
    intro p sc _ _ _ _ _
    exact ⟨by simp, fun e he => Or.inl he⟩
  | cons kv t ih =>
    intro p sc hinv hp0 hp hnd hfresh
    obtain ⟨key, val⟩ := kv
    rw [List.map_cons, List.nodup_cons] at hnd
    have hk : key ∉ fieldNames sc := hfresh key (by simp)
    obtain ⟨e1, e2, e3⟩ := EstablishLayerDefnProp_fresh sc p key val hinv hp0 hk
    obtain ⟨s1, s2, _, _⟩ := EstablishLayerDefnProp_spec sc p key val hinv hp0 hp
    have hlen : (fieldNames sc).length = sc.apoFieldDefn.length := by simp [fieldNames]
    have hnames : fieldNames (EstablishLayerDefnProp (p, sc) (key, val)).2 =
        fieldNames sc ++ [key] := by
      simp [fieldNames, e2]
    have hp1 : (EstablishLayerDefnProp (p, sc) (key, val)).1 <
        ((fieldNames (EstablishLayerDefnProp (p, sc) (key, val)).2).length : Int) := by
      rw [e1, hnames, List.length_append, hlen]
      simp
    have hfresh1 : ∀ k ∈ t.map Prod.fst,
        k ∉ fieldNames (EstablishLayerDefnProp (p, sc) (key, val)).2 := by
      intro k hkt
      rw [hnames, List.mem_append, List.mem_singleton]
      rintro (h | h)
      · exact hfresh k (by simp only [List.map_cons, List.mem_cons]; exact Or.inr hkt) h
      · exact hnd.1 (h ▸ hkt)
    have hstep := ih (EstablishLayerDefnProp (p, sc) (key, val)).1
      (EstablishLayerDefnProp (p, sc) (key, val)).2 s2 s1 hp1 hnd.2 hfresh1
    rw [List.foldl_cons]
    refine ⟨?_, ?_⟩
    · rw [hstep.1, e2]
      simp
    · intro e he
      rcases hstep.2 e he with h | h
      · rcases e3 e h with h | h
        · exact Or.inl h
        · right
          rw [h]
          simp only
          rw [hlen] at hp
          omega
      · exact Or.inr h

theorem EstablishLayerDefn_eq_foldl (p : Int) (sc : SchemaScope) (poObj : Json) :
    EstablishLayerDefn p sc poObj =
      ((propertyList poObj).foldl EstablishLayerDefnProp (p, sc)).2 := by
  unfold EstablishLayerDefn propertyList
  simp only
  split
  · rfl
  · rename_i h
    cases hj : OGRGeoJSONFindMemberByName poObj "properties" <;>
      simp_all [objectMembers, json_object_get_type]

theorem range_filterMap_get? {α : Type} (l : List α) :
    (List.range l.length).filterMap (fun i => l.get? i) = l := by
  induction l using List.reverseRecOn with
  | nil => rfl
  | append_singleton l a ih =>
    rw [List.length_append, List.length_singleton, List.range_succ, List.filterMap_append]
    have h1 : (List.range l.length).filterMap (fun i => (l ++ [a]).get? i) =
        (List.range l.length).filterMap (fun i => l.get? i) := by
      apply List.filterMap_congr
      intro i hi
      rw [List.mem_range] at hi
      simp [List.getElem?_append_left hi]
    rw [h1, ih]
    simp


/-- The scope of two objects whose property names are distinct, disjoint and
other than `id`: the fields are `id` and one field per property, and the
sealed schema is a permutation of them. -/
theorem discoverScope_disjoint (o1 o2 : Json)
    (hnodup : ((propertyList o1).map Prod.fst ++ (propertyList o2).map Prod.fst).Nodup)
    (hid : "id" ∉ (propertyList o1).map Prod.fst ++ (propertyList o2).map Prod.fst) :
    (sealedSchema (discoverScope [o1, o2])).Perm
      ({ name := "id", eType := OGRFieldType.OFTString } ::
        (propertyList o1 ++ propertyList o2).map fieldDefnOf) := by
  have hd : discoverScope [o1, o2] =
      EstablishLayerDefn 0 (EstablishLayerDefn 0 initialScope o1) o2 := rfl
  rw [List.nodup_append] at hnodup
  obtain ⟨nd1, nd2, hdisj⟩ := hnodup
  rw [List.mem_append, not_or] at hid
  have hn0 : fieldNames initialScope = ["id"] := rfl
  have ha0 : initialScope.apoFieldDefn = [{ name := "id", eType := OGRFieldType.OFTString }] :=
    rfl
  have he0 : initialScope.dag.edges = [] := rfl
  have hfresh1 : ∀ k ∈ (propertyList o1).map Prod.fst, k ∉ fieldNames initialScope := by
    intro k hk h
    rw [hn0, List.mem_singleton] at h
    exact hid.1 (h ▸ hk)
  obtain ⟨a1, g1⟩ := EstablishLayerDefnProp_foldl_fresh (propertyList o1) 0 initialScope
    initialScope_inv (le_refl 0) (by rw [hn0]; simp) nd1 hfresh1
  rw [← EstablishLayerDefn_eq_foldl] at a1 g1
  obtain ⟨inv1, le1⟩ := EstablishLayerDefn_spec initialScope o1 initialScope_inv initialScope_pos
  have pos1 := fieldNames_pos_of_le le1 initialScope_pos
  have hn1 : fieldNames (EstablishLayerDefn 0 initialScope o1) =
      "id" :: (propertyList o1).map Prod.fst := by
    simp [fieldNames, a1, ha0]
  have hfresh2 : ∀ k ∈ (propertyList o2).map Prod.fst,
      k ∉ fieldNames (EstablishLayerDefn 0 initialScope o1) := by
    intro k hk h
    rw [hn1, List.mem_cons] at h
    rcases h with h | h
    · exact hid.2 (h ▸ hk)
    · exact hdisj h hk
  obtain ⟨a2, g2⟩ := EstablishLayerDefnProp_foldl_fresh (propertyList o2) 0
    (EstablishLayerDefn 0 initialScope o1) inv1 (le_refl 0) (by exact_mod_cast pos1) nd2 hfresh2
  rw [← EstablishLayerDefn_eq_foldl, ← hd] at a2 g2
  have hacyc : ∀ e ∈ (discoverScope [o1, o2]).dag.edges, id e.1 < id e.2 := by
    intro e he
    rcases g2 e he with h | h
    · rcases g1 e h with h | h
      · rw [he0] at h
        cases h
      · exact h
    · exact h
  have hperm := sortedFields_perm (discoverScope [o1, o2]) (discoverScope_inv [o1, o2]) id hacyc
  have h2 := hperm.filterMap (fun idx => (discoverScope [o1, o2]).apoFieldDefn.get? idx)
  rw [range_filterMap_get?] at h2
  unfold sealedSchema
  refine h2.trans ?_
  rw [a2, a1, ha0, List.map_append, List.append_assoc, List.singleton_append]
  exact List.Perm.refl _


theorem findIdx?_name (S : List OGRFieldDefn) (name : String) (i : Nat)
    (h : S.findIdx? (fun d => d.name == name) = some i) :
    ∃ d, S.get? i = some d ∧ d.name = name := by
  obtain ⟨hlt, hp, _⟩ := List.findIdx?_eq_some_iff_getElem.1 h
  refine ⟨S[i], ?_, ?_⟩
  · simp [List.getElem?_eq_getElem hlt]
  · simpa using hp

theorem findIdx?_ne (S : List OGRFieldDefn) (k name : String) (i j : Nat) (hne : k ≠ name)
    (hi : S.findIdx? (fun d => d.name == name) = some i)
    (hj : S.findIdx? (fun d => d.name == k) = some j) : j ≠ i := by
  intro h
  obtain ⟨d, hd, hdn⟩ := findIdx?_name S name i hi
  obtain ⟨e, he, hen⟩ := findIdx?_name S k j hj
  rw [h, hd] at he
  injection he with he
  rw [← he] at hen
  exact hne (hen.symm.trans hdn)

theorem setFieldSlot_natCast (f : OGRFeature) (j : Nat) (v : OGRField) :
    (setFieldSlot f (j : Int) v).fields = f.fields.set j (some v) := by
  unfold setFieldSlot
  rw [if_neg (by omega)]
  simp

/-- The slots after one property has been written. -/
theorem ParseObjectProperty_fields (S : List OGRFieldDefn) (f : OGRFeature) (k : String)
    (v : Json) :
    (ParseObjectProperty S f (k, v)).fields =
      match S.findIdx? (fun d => d.name == k) with
      | some j =>
        (match S.get? j with
          | some d => f.fields.set j (some (fieldValueOf d.eType v))
          | none => f.fields)
      | none => f.fields := by
  unfold ParseObjectProperty OGRGeoJSONReaderSetField GetFieldIndex
  cases h : S.findIdx? (fun d => d.name == k) with
  | none => simp
  | some j =>
    simp only
    rw [if_neg (by omega)]
    simp only [Int.toNat_ofNat]
    cases hd : S.get? j with
    | none => rfl
    | some d => exact setFieldSlot_natCast _ _ _

theorem ParseObjectProperty_slot_other (S : List OGRFieldDefn) (f : OGRFeature) (k : String)
    (v : Json) (name : String) (i : Nat) (hne : k ≠ name)
    (hi : S.findIdx? (fun d => d.name == name) = some i) :
    (ParseObjectProperty S f (k, v)).fields[i]? = f.fields[i]? := by
  rw [ParseObjectProperty_fields]
  cases hj : S.findIdx? (fun d => d.name == k) with
  | none => rfl
  | some j =>
    simp only
    cases hd : S.get? j with
    | none => rfl
    | some d =>
      simp only
      exact List.getElem?_set_ne (findIdx?_ne S k name i j hne hi hj)

theorem ParseObjectProperty_slot_own (S : List OGRFieldDefn) (f : OGRFeature) (k : String)
    (v : Json) (i : Nat) (d : OGRFieldDefn)
    (hi : S.findIdx? (fun d => d.name == k) = some i) (hd : S.get? i = some d)
    (hlen : f.fields.length = S.length) :
    (ParseObjectProperty S f (k, v)).fields[i]? = some (some (fieldValueOf d.eType v)) := by
  rw [ParseObjectProperty_fields, hi]
  simp only [hd]
  apply List.getElem?_set_self
  rw [hlen]
  obtain ⟨hlt, _⟩ := List.findIdx?_eq_some_iff_getElem.1 hi
  exact hlt

theorem foldl_ParseObjectProperty_slot_other (S : List OGRFieldDefn) (name : String) (i : Nat)
    (hi : S.findIdx? (fun d => d.name == name) = some i) (props : List (String × Json)) :
    ∀ f : OGRFeature, name ∉ props.map Prod.fst →
      (props.foldl (ParseObjectProperty S) f).fields[i]? = f.fields[i]? := by
  induction props with
  | nil => intro f _; rfl
  | cons kv t ih =>
    intro f hn
    obtain ⟨k, v⟩ := kv
    rw [List.map_cons, List.mem_cons, not_or] at hn
    rw [List.foldl_cons, ih _ hn.2]
    exact ParseObjectProperty_slot_other S f k v name i (fun h => hn.1 h.symm) hi

theorem foldl_ParseObjectProperty_slot_own (S : List OGRFieldDefn) (props : List (String × Json)) :
    ∀ f : OGRFeature, f.fields.length = S.length → (props.map Prod.fst).Nodup →
      ∀ kv ∈ props, ∀ (i : Nat) (d : OGRFieldDefn),
        S.findIdx? (fun d => d.name == kv.1) = some i → S.get? i = some d →
        (props.foldl (ParseObjectProperty S) f).fields[i]? =
          some (some (fieldValueOf d.eType kv.2)) := by
  induction props with
  | nil => intro f _ _ kv hkv; cases hkv
  | cons p t ih =>
    intro f hlen hnd kv hkv i d hi hd
    rw [List.map_cons, List.nodup_cons] at hnd
    rw [List.foldl_cons]
    rw [List.mem_cons] at hkv
    rcases hkv with hkv | hkv
    · subst hkv
      rw [foldl_ParseObjectProperty_slot_other S kv.1 i hi t _ hnd.1]
      exact ParseObjectProperty_slot_own S f kv.1 kv.2 i d hi hd hlen
    · refine ih _ ?_ hnd.2 kv hkv i d hi hd
      rw [← hlen]
      exact OGRGeoJSONReaderSetField_length _ _ _ _

theorem ParseObjectAttributes_eq_foldl (pszId : Option String) (poObj : Json)
    (S : List OGRFieldDefn) :
    ParseObjectAttributes pszId poObj S =
      (propertyList poObj).foldl (ParseObjectProperty S)
        (match resolveId pszId poObj with
          | some s => SetFieldByName S (newFeature S) "id" s
          | none => newFeature S) := by
  unfold ParseObjectAttributes propertyList
  simp only
  split
  · rfl
  · rename_i h
    cases hj : OGRGeoJSONFindMemberByName poObj "properties" <;>
      simp_all [objectMembers, json_object_get_type]

theorem idFeature_length (pszId : Option String) (poObj : Json) (S : List OGRFieldDefn) :
    (match resolveId pszId poObj with
      | some s => SetFieldByName S (newFeature S) "id" s
      | none => newFeature S).fields.length = S.length := by
  have h0 : (newFeature S).fields.length = S.length := by simp [newFeature]
  split
  · unfold SetFieldByName
    rw [setFieldSlot_length]; exact h0
  · exact h0

theorem idFeature_slot_other (pszId : Option String) (poObj : Json) (S : List OGRFieldDefn)
    (name : String) (i : Nat) (hne : name ≠ "id")
    (hi : S.findIdx? (fun d => d.name == name) = some i) :
    (match resolveId pszId poObj with
      | some s => SetFieldByName S (newFeature S) "id" s
      | none => newFeature S).fields[i]? = some none := by
  obtain ⟨hlt, _⟩ := List.findIdx?_eq_some_iff_getElem.1 hi
  have h0 : (newFeature S).fields[i]? = some none := by
    simp [newFeature, List.getElem?_replicate, hlt]
  split
  · unfold SetFieldByName GetFieldIndex
    cases hj : S.findIdx? (fun d => d.name == "id") with
    | none => simpa [setFieldSlot] using h0
    | some j =>
      simp only
      rw [setFieldSlot_natCast, List.getElem?_set_ne (findIdx?_ne S "id" name i j
        (fun h => hne h.symm) hi hj)]
      exact h0
  · exact h0

/-- The slot of a field named after one of the object's own properties, in
the attributes `ParseObject` writes. -/
theorem ParseObjectAttributes_slot_own (pszId : Option String) (poObj : Json)
    (S : List OGRFieldDefn) (hnd : ((propertyList poObj).map Prod.fst).Nodup)
    (kv : String × Json) (hkv : kv ∈ propertyList poObj) (i : Nat) (d : OGRFieldDefn)
    (hi : S.findIdx? (fun d => d.name == kv.1) = some i) (hd : S.get? i = some d) :
    (ParseObjectAttributes pszId poObj S).fields[i]? =
      some (some (fieldValueOf d.eType kv.2)) := by
  rw [ParseObjectAttributes_eq_foldl]
  exact foldl_ParseObjectProperty_slot_own S _ _ (idFeature_length pszId poObj S) hnd kv hkv
    i d hi hd

/-- The slot of a field that is neither `id` nor named after one of the
object's properties stays unset. -/
theorem ParseObjectAttributes_slot_other (pszId : Option String) (poObj : Json)
    (S : List OGRFieldDefn) (name : String) (i : Nat)
    (hname : name ∉ (propertyList poObj).map Prod.fst) (hne : name ≠ "id")
    (hi : S.findIdx? (fun d => d.name == name) = some i) :
    (ParseObjectAttributes pszId poObj S).fields[i]? = some none := by
  rw [ParseObjectAttributes_eq_foldl, foldl_ParseObjectProperty_slot_other S name i hi _ _ hname]
  exact idFeature_slot_other pszId poObj S name i hne hi


/-- In a schema that is a permutation of `id` and one field per property of a
list of distinctly named properties, the field named after a property is the
one discovery gave it. -/
theorem findIdx?_of_perm (S : List OGRFieldDefn) (all : List (String × Json))
    (hS : S.Perm ({ name := "id", eType := OGRFieldType.OFTString } :: all.map fieldDefnOf))
    (hnd : ("id" :: all.map Prod.fst).Nodup) (kv : String × Json) (hkv : kv ∈ all) :
    ∃ i, S.findIdx? (fun d => d.name == kv.1) = some i ∧ S.get? i = some (fieldDefnOf kv) := by
  have hmem : fieldDefnOf kv ∈ S :=
    hS.mem_iff.2 (List.mem_cons_of_mem _ (List.mem_map_of_mem _ hkv))
  have hnames : (S.map OGRFieldDefn.name).Nodup := by
    rw [(hS.map OGRFieldDefn.name).nodup_iff]
    simpa [fieldDefnOf, Function.comp_def] using hnd
  cases hi : S.findIdx? (fun d => d.name == kv.1) with
  | none =>
    exfalso
    have := List.findIdx?_eq_none_iff.1 hi _ hmem
    simp [fieldDefnOf] at this
  | some i =>
    obtain ⟨d, hd, hdn⟩ := findIdx?_name S kv.1 i hi
    refine ⟨i, rfl, ?_⟩
    rw [hd]
    have hdm : d ∈ S := by
      have := hd
      simp only [List.get?_eq_getElem?] at this
      obtain ⟨hlt, heq⟩ := List.getElem?_eq_some.1 this
      exact heq ▸ List.getElem_mem hlt
    exact congrArg some (List.inj_on_of_nodup_map hnames hdm hmem hdn)

/-- C20. For any two objects observed in one scope whose property names are
distinct, disjoint and other than `id`, and whose features `ParseObject`
builds against the sealed schema of that scope: the sealed schema contains a
field for every property of both, each feature has the fields of its own
properties set to its own values (converted to the type of the field), and
every field of a property of the other object is left unset on it. -/
theorem C20_disjoint_properties (o1 o2 : Json) (id1 id2 : Option String) (poArcs : Json)
    (ps : ScalingParams) (f1 f2 : OGRFeature)
    (hnodup : ((propertyList o1).map Prod.fst ++ (propertyList o2).map Prod.fst).Nodup)
    (hid : "id" ∉ (propertyList o1).map Prod.fst ++ (propertyList o2).map Prod.fst)
    (h1 : ParseObjectFeature id1 o1 (sealedSchema (discoverScope [o1, o2])) poArcs ps = some f1)
    (h2 : ParseObjectFeature id2 o2 (sealedSchema (discoverScope [o1, o2])) poArcs ps =
      some f2) :
    (∀ kv ∈ propertyList o1 ++ propertyList o2,
      fieldDefnOf kv ∈ sealedSchema (discoverScope [o1, o2])) ∧
    (∀ kv ∈ propertyList o1,
      fieldSlot (sealedSchema (discoverScope [o1, o2])) f1 kv.1 =
        some (some (fieldValueOf (GeoJSONPropertyToFieldType kv.2) kv.2)) ∧
      fieldSlot (sealedSchema (discoverScope [o1, o2])) f2 kv.1 = some none) ∧
    (∀ kv ∈ propertyList o2,
      fieldSlot (sealedSchema (discoverScope [o1, o2])) f2 kv.1 =
        some (some (fieldValueOf (GeoJSONPropertyToFieldType kv.2) kv.2)) ∧
      fieldSlot (sealedSchema (discoverScope [o1, o2])) f1 kv.1 = some none) := by
  have hS := discoverScope_disjoint o1 o2 hnodup hid
  have hnd : ("id" :: (propertyList o1 ++ propertyList o2).map Prod.fst).Nodup := by
    rw [List.map_append, List.nodup_cons]
    exact ⟨hid, hnodup⟩
  have hfind := findIdx?_of_perm _ _ hS hnd
  have e1 := ParseObjectFeature_some _ _ _ _ _ _ h1
  have e2 := ParseObjectFeature_some _ _ _ _ _ _ h2
  obtain ⟨nd1, nd2, hdisj⟩ := List.nodup_append.1 hnodup
  rw [List.mem_append, not_or] at hid
  refine ⟨?_, ?_, ?_⟩
  · intro kv hkv
    exact hS.mem_iff.2 (List.mem_cons_of_mem _ (List.mem_map_of_mem _ hkv))
  · intro kv hkv
    obtain ⟨i, hi, hd⟩ := hfind kv (List.mem_append_left _ hkv)
    have hk1 : kv.1 ∈ (propertyList o1).map Prod.fst := List.mem_map_of_mem _ hkv
    constructor
    · unfold fieldSlot
      rw [hi, e1]
      simp only [List.get?_eq_getElem?]
      exact ParseObjectAttributes_slot_own id1 o1 _ nd1 kv hkv i _ hi hd
    · unfold fieldSlot
      rw [hi, e2]
      simp only [List.get?_eq_getElem?]
      exact ParseObjectAttributes_slot_other id2 o2 _ kv.1 i (fun h => hdisj hk1 h)
        (fun h => hid.1 (h ▸ hk1)) hi
  · intro kv hkv
    obtain ⟨i, hi, hd⟩ := hfind kv (List.mem_append_right _ hkv)
    have hk2 : kv.1 ∈ (propertyList o2).map Prod.fst := List.mem_map_of_mem _ hkv
    constructor
    · unfold fieldSlot
      rw [hi, e2]
      simp only [List.get?_eq_getElem?]
      exact ParseObjectAttributes_slot_own id2 o2 _ nd2 kv hkv i _ hi hd
    · unfold fieldSlot
      rw [hi, e1]
      simp only [List.get?_eq_getElem?]
      exact ParseObjectAttributes_slot_other id1 o1 _ kv.1 i (fun h => hdisj h hk2)
        (fun h => hid.2 (h ▸ hk2)) hi

theorem sealedSchema_objX_objY :
    sealedSchema (discoverScope [objX, objY]) =
      [{ name := "id", eType := OGRFieldType.OFTString },
       { name := "x", eType := OGRFieldType.OFTInteger },
       { name := "y", eType := OGRFieldType.OFTInteger }] := by
  decide

theorem exPoint_geometry :
    ParseObjectGeometry "Point" Json.null (exPair 0 0) (Json.array []) identityParams =
      some (OGRGeometry.point (some (0, 0))) := by
  simp [ParseObjectGeometry, ParsePoint, json_object_get_type, json_object_array_length,
    json_object_array_get_idx, json_object_get_double, identityParams, exPair]

theorem ParseObjectFeature_objX :
    ParseObjectFeature (some "a") objX (sealedSchema (discoverScope [objX, objY]))
      (Json.array []) identityParams = some featX := by
  have h : ParseObjectFeature (some "a") objX (sealedSchema (discoverScope [objX, objY]))
      (Json.array []) identityParams =
      some { fields := [some (OGRField.string "a"), some (OGRField.integer 1), none],
             geometry := ParseObjectGeometry "Point" Json.null (exPair 0 0) (Json.array [])
               identityParams } := by
    rw [sealedSchema_objX_objY]
    rfl
  rw [h, exPoint_geometry]
  rfl

theorem ParseObjectFeature_objY :
    ParseObjectFeature (some "b") objY (sealedSchema (discoverScope [objX, objY]))
      (Json.array []) identityParams = some featY := by
  have h : ParseObjectFeature (some "b") objY (sealedSchema (discoverScope [objX, objY]))
      (Json.array []) identityParams =
      some { fields := [some (OGRField.string "b"), none, some (OGRField.integer 2)],
             geometry := ParseObjectGeometry "Point" Json.null (exPair 0 0) (Json.array [])
               identityParams } := by
    rw [sealedSchema_objX_objY]
    rfl
  rw [h, exPoint_geometry]
  rfl

theorem C20_witness :
    ((propertyList objX).map Prod.fst ++ (propertyList objY).map Prod.fst).Nodup ∧
    "id" ∉ (propertyList objX).map Prod.fst ++ (propertyList objY).map Prod.fst ∧
    ParseObjectFeature (some "a") objX (sealedSchema (discoverScope [objX, objY]))
      (Json.array []) identityParams = some featX ∧
    ParseObjectFeature (some "b") objY (sealedSchema (discoverScope [objX, objY]))
      (Json.array []) identityParams = some featY ∧
    ((∀ kv ∈ propertyList objX ++ propertyList objY,
      fieldDefnOf kv ∈ sealedSchema (discoverScope [objX, objY])) ∧
    (∀ kv ∈ propertyList objX,
      fieldSlot (sealedSchema (discoverScope [objX, objY])) featX kv.1 =
        some (some (fieldValueOf (GeoJSONPropertyToFieldType kv.2) kv.2)) ∧
      fieldSlot (sealedSchema (discoverScope [objX, objY])) featY kv.1 = some none) ∧
    (∀ kv ∈ propertyList objY,
      fieldSlot (sealedSchema (discoverScope [objX, objY])) featY kv.1 =
        some (some (fieldValueOf (GeoJSONPropertyToFieldType kv.2) kv.2)) ∧
      fieldSlot (sealedSchema (discoverScope [objX, objY])) featX kv.1 = some none)) :=
  ⟨by decide, by decide, ParseObjectFeature_objX, ParseObjectFeature_objY,
   C20_disjoint_properties objX objY (some "a") (some "b") (Json.array []) identityParams
     featX featY (by decide) (by decide) ParseObjectFeature_objX ParseObjectFeature_objY⟩

/-! ## The decoding of arc references -/

theorem wrapInt32_of_range (n : Int) (h1 : INT32_MIN ≤ n) (h2 : n ≤ INT32_MAX) :
    wrapInt32 n = n := by
  unfold wrapInt32
  unfold INT32_MIN INT32_MAX at *
  omega

/-- C21. For every 32-bit signed integer reference `v`, `ParseLineString`
decodes it to `(v, forward)` when `v ≥ 0` and to `(-(v+1), reversed)` when
`v < 0`; every intermediate value and the decoded index stay within 32 bits
(the index is between 0 and `INT32_MAX`, also for `v = INT32_MIN`), so that
the 32-bit arithmetic agrees with the exact one; for every index `i ≥ 0` the
references `i` and `-(i+1)` decode to the index `i` with opposite directions;
and decoding is one-to-one from the references onto the pairs of an index and
a direction. -/
theorem C21_reference_decoding :
    (∀ v : Int, INT32_MIN ≤ v → v ≤ INT32_MAX →
      json_object_get_int (Json.int v) = v ∧
      (0 ≤ v → decodeArcId v = (v, false)) ∧
      (v < 0 → decodeArcId v = (-(v + 1), true) ∧
        INT32_MIN ≤ v + 1 ∧ v + 1 ≤ INT32_MAX) ∧
      0 ≤ (decodeArcId v).1 ∧ (decodeArcId v).1 ≤ INT32_MAX ∧
      decodeArcIdInt32 v = decodeArcId v ∧
      (∀ (poArcsDB : Json) (ps : ScalingParams) (poLS : OGRLineString),
        ParseLineStringBody poArcsDB ps poLS (Json.int v) =
          if (decodeArcId v).1 < (json_object_array_length poArcsDB : Int) then
            ParseArc poLS poArcsDB (decodeArcId v).1 (decodeArcId v).2 ps
          else poLS)) ∧
    (∀ i : Int, 0 ≤ i → i ≤ INT32_MAX →
      INT32_MIN ≤ -(i + 1) ∧ -(i + 1) ≤ INT32_MAX ∧
      decodeArcId i = (i, false) ∧ decodeArcId (-(i + 1)) = (i, true)) ∧
    (∀ v w : Int, decodeArcId v = decodeArcId w → v = w) ∧
    (∀ (i : Int) (b : Bool), 0 ≤ i → i ≤ INT32_MAX →
      ∃ v : Int, INT32_MIN ≤ v ∧ v ≤ INT32_MAX ∧ decodeArcId v = (i, b)) := by
  refine ⟨?_, ?_, ?_, ?_⟩
  · intro v hmin hmax
    have hget : json_object_get_int (Json.int v) = v := by
      rw [json_object_get_int_int]
      unfold INT32_MIN INT32_MAX at *
      split
      · omega
      · split
        · omega
        · rfl
    refine ⟨hget, ?_, ?_, ?_, ?_, ?_, ?_⟩
    · intro h
      unfold decodeArcId
      rw [if_neg (by omega)]
    · intro h
      unfold decodeArcId
      rw [if_pos h]
      unfold INT32_MIN INT32_MAX at *
      exact ⟨rfl, by omega, by omega⟩
    · unfold decodeArcId
      split <;> simp only <;> omega
    · unfold decodeArcId
      unfold INT32_MIN INT32_MAX at *
      split <;> simp only <;> omega
    · unfold decodeArcIdInt32 decodeArcId
      split
      · rename_i h
        rw [wrapInt32_of_range (v + 1) (by unfold INT32_MIN at *; omega)
          (by unfold INT32_MAX at *; omega),
          wrapInt32_of_range (-(v + 1)) (by unfold INT32_MIN INT32_MAX at *; omega)
          (by unfold INT32_MIN INT32_MAX at *; omega)]
      · rfl
    · intro poArcsDB ps poLS
      unfold ParseLineStringBody
      rw [hget]
      simp [json_object_get_type]
  · intro i h0 hmax
    unfold decodeArcId
    unfold INT32_MIN INT32_MAX at *
    refine ⟨by omega, by omega, ?_, ?_⟩
    · rw [if_neg (by omega)]
    · rw [if_pos (by omega)]
      simp
  · intro v w h
    unfold decodeArcId at h
    split at h <;> split at h <;> simp only [Prod.mk.injEq] at h
    · omega
    · exact absurd h.2 (by decide)
    · exact absurd h.2 (by decide)
    · exact h.1
  · intro i b h0 hmax
    unfold INT32_MIN INT32_MAX at *
    cases b
    · refine ⟨i, by omega, by omega, ?_⟩
      unfold decodeArcId
      rw [if_neg (by omega)]
    · refine ⟨-(i + 1), by omega, by omega, ?_⟩
      unfold decodeArcId
      rw [if_pos (by omega)]
      simp

theorem C21_witness :
    INT32_MIN ≤ INT32_MIN ∧ INT32_MIN ≤ INT32_MAX ∧
    decodeArcId INT32_MIN = (INT32_MAX, true) ∧
    decodeArcIdInt32 INT32_MIN = decodeArcId INT32_MIN ∧
    decodeArcId INT32_MAX = (INT32_MAX, false) :=
  ⟨by decide, by decide,
   ((C21_reference_decoding.1 INT32_MIN (by decide) (by decide)).2.2.1 (by decide)).1,
   (C21_reference_decoding.1 INT32_MIN (by decide) (by decide)).2.2.2.2.2.1,
   (C21_reference_decoding.2.1 INT32_MAX (by decide) (by decide)).2.2.1⟩

/-! ## Multipoints and multilinestrings -/

theorem foldl_ParseObjectMultiPointBody (ps : ScalingParams) (items : List Json) :
    ∀ acc : List OGRRawPoint,
      items.foldl (ParseObjectMultiPointBody ps) acc =
        acc ++ ((items.filter wellFormedPair).map rawPoint).map (scaledPoint ps) := by
  induction items with
  | nil => intro acc; simp
  | cons p t ih =>
    intro acc
    rw [List.foldl_cons, ih, List.filter_cons]
    unfold ParseObjectMultiPointBody
    cases hw : wellFormedPair p
    · rw [(ParsePoint_eq_none_iff p).2 hw]
      simp
    · rw [ParsePoint_of_wellFormedPair p hw]
      simp [scaledPoint]

/-- C24. For every object of kind `MultiPoint` with a coordinates array and
every transform, `ParseObject` builds a feature whose geometry is the
multipoint consisting, in array order, of the point `p*scale + translate` for
each well-formed pair `p`; the points do not depend on the presence flag of
the transform (no accumulation), and malformed pairs are omitted, so that the
member count is the number of well-formed pairs. -/
theorem C24_multipoint_members (pszId : Option String) (poObj : Json)
    (poDefn : List OGRFieldDefn) (poArcsDB : Json) (ps : ScalingParams)
    (hkind : OGRGeoJSONFindMemberByName poObj "type" = Json.string "MultiPoint")
    (harr : json_object_get_type (OGRGeoJSONFindMemberByName poObj "coordinates") =
      json_type_array) :
    (∃ poFeature : OGRFeature,
      ParseObjectFeature pszId poObj poDefn poArcsDB ps = some poFeature ∧
      poFeature.geometry = some (OGRGeometry.multiPoint
        ((((arrayItems (OGRGeoJSONFindMemberByName poObj "coordinates")).filter
          wellFormedPair).map rawPoint).map (scaledPoint ps)))) ∧
    (((arrayItems (OGRGeoJSONFindMemberByName poObj "coordinates")).filter
        wellFormedPair).map rawPoint).map (scaledPoint ps) =
      (((arrayItems (OGRGeoJSONFindMemberByName poObj "coordinates")).filter
        wellFormedPair).map rawPoint).map
          (scaledPoint { ps with bElementExists := !ps.bElementExists }) ∧
    ((((arrayItems (OGRGeoJSONFindMemberByName poObj "coordinates")).filter
        wellFormedPair).map rawPoint).map (scaledPoint ps)).length =
      ((arrayItems (OGRGeoJSONFindMemberByName poObj "coordinates")).filter
        wellFormedPair).length := by
  obtain ⟨ht, hs⟩ := json_object_get_type_string _ _ hkind
  refine ⟨?_, rfl, by simp⟩
  have hg : ParseObjectGeometry "MultiPoint" (OGRGeoJSONFindMemberByName poObj "arcs")
      (OGRGeoJSONFindMemberByName poObj "coordinates") poArcsDB ps =
      some (OGRGeometry.multiPoint
        ((((arrayItems (OGRGeoJSONFindMemberByName poObj "coordinates")).filter
          wellFormedPair).map rawPoint).map (scaledPoint ps))) := by
    unfold ParseObjectGeometry
    rw [if_neg (by decide), if_pos rfl, foldl_ParseObjectMultiPointBody]
    rfl
  unfold ParseObjectFeature
  simp only [ht, hs, ne_eq, not_true_eq_false, if_false, or_true, if_true, harr]
  exact ⟨_, rfl, hg⟩

theorem C24_witness :
    OGRGeoJSONFindMemberByName exMultiPointObj "type" = Json.string "MultiPoint" ∧
    json_object_get_type (OGRGeoJSONFindMemberByName exMultiPointObj "coordinates") =
      json_type_array ∧
    ∃ poFeature : OGRFeature,
      ParseObjectFeature none exMultiPointObj [] (Json.array []) exParams = some poFeature ∧
      poFeature.geometry = some (OGRGeometry.multiPoint [(12, 12), (14, 10)]) := by
  refine ⟨rfl, rfl, ?_⟩
  obtain ⟨f, hf, hg⟩ :=
    (C24_multipoint_members none exMultiPointObj [] (Json.array []) exParams rfl rfl).1
  refine ⟨f, hf, ?_⟩
  have hitems : (arrayItems (OGRGeoJSONFindMemberByName exMultiPointObj "coordinates")).filter
      wellFormedPair = [exPair 1 1, exPair 2 0] := rfl
  rw [hg, hitems]
  norm_num [exPair, rawPoint, scaledPoint, exParams, json_object_get_double]

theorem foldl_ParseMultiLineStringBody (poArcsDB : Json) (ps : ScalingParams)
    (items : List Json) :
    ∀ acc : List OGRLineString,
      items.foldl (ParseMultiLineStringBody poArcsDB ps) acc =
        acc ++ items.map (memberLineOf poArcsDB ps) := by
  induction items with
  | nil => intro acc; simp
  | cons r t ih =>
    intro acc
    rw [List.foldl_cons, ih]
    simp [ParseMultiLineStringBody, memberLineOf]

/-- C25. For every `MultiLineString` arcs array, the multilinestring built by
`ParseMultiLineString` has exactly one member line per entry, in array order,
the `i`-th being the `ParseLineString` decode of the `i`-th entry when that is
an array and the empty line otherwise; a member line that is empty is kept.  -/
theorem C25_multilinestring_members (poArcsObj poArcsDB : Json) (ps : ScalingParams) :
    ParseMultiLineString [] poArcsObj poArcsDB ps =
      (arrayItems poArcsObj).map (memberLineOf poArcsDB ps) ∧
    (ParseMultiLineString [] poArcsObj poArcsDB ps).length =
      json_object_array_length poArcsObj ∧
    (∀ (i : Nat) (poRing : Json), (arrayItems poArcsObj)[i]? = some poRing →
      (ParseMultiLineString [] poArcsObj poArcsDB ps)[i]? =
        some (if json_object_get_type poRing = json_type_array then
          ParseLineString [] poRing poArcsDB ps else [])) ∧
    (∀ (i : Nat) (poRing : Json), (arrayItems poArcsObj)[i]? = some poRing →
      (json_object_get_type poRing ≠ json_type_array ∨
        ParseLineString [] poRing poArcsDB ps = []) →
      (ParseMultiLineString [] poArcsObj poArcsDB ps)[i]? = some []) := by
  have h : ParseMultiLineString [] poArcsObj poArcsDB ps =
      (arrayItems poArcsObj).map (memberLineOf poArcsDB ps) := by
    unfold ParseMultiLineString
    rw [foldl_ParseMultiLineStringBody]
    rfl
  refine ⟨h, ?_, ?_, ?_⟩
  · rw [h, List.length_map]
    cases poArcsObj <;> rfl
  · intro i poRing hi
    rw [h, List.getElem?_map, hi]
    rfl
  · intro i poRing hi hempty
    rw [h, List.getElem?_map, hi]
    simp only [Option.map_some', memberLineOf]
    rcases hempty with hne | he
    · rw [if_neg hne]
    · split
      · rw [he]
      · rfl

theorem C25_witness :
    (arrayItems (Json.array [Json.array [Json.int 0], Json.null, Json.array [Json.int 7]]))[1]?
      = some Json.null ∧
    (ParseMultiLineString [] (Json.array [Json.array [Json.int 0], Json.null,
      Json.array [Json.int 7]]) (Json.array exArcs) exParams).length = 3 ∧
    (ParseMultiLineString [] (Json.array [Json.array [Json.int 0], Json.null,
      Json.array [Json.int 7]]) (Json.array exArcs) exParams)[1]? = some [] :=
  ⟨rfl,
   (C25_multilinestring_members (Json.array [Json.array [Json.int 0], Json.null,
      Json.array [Json.int 7]]) (Json.array exArcs) exParams).2.1,
   (C25_multilinestring_members (Json.array [Json.array [Json.int 0], Json.null,
      Json.array [Json.int 7]]) (Json.array exArcs) exParams).2.2.2 1 Json.null rfl
      (Or.inl (by decide))⟩

/-! ## The ring order of polygons -/

theorem head?_filter_eq_find? {α : Type} (p : α → Bool) (l : List α) :
    (l.filter p).head? = l.find? p := by
  induction l with
  | nil => rfl
  | cons a t ih =>
    rw [List.filter_cons, List.find?_cons]
    cases h : p a
    · simpa using ih
    · simp

theorem closedRingOf_square :
    closedRingOf (Json.array squareArcs) identityParams (Json.array [Json.int 0]) =
      [(0, 0), (1, 0), (1, 1), (0, 0)] := by
  have h : ParseLineString [] (Json.array [Json.int 0]) (Json.array squareArcs) identityParams =
      [(0, 0), (1, 0), (1, 1), (0, 0)] := by
    simp [ParseLineString, arrayItems, ParseLineStringBody, decodeArcId, json_object_get_int,
      json_object_get_type, json_object_array_length, squareArcs, ParseArc,
      json_object_array_get_idx, ParseArcLoop, ParseArcBody, ParsePoint, exPair,
      json_object_get_double, identityParams, ParseArcWrite, setPoint, setNumPoints,
      getNumPoints, INT32_MIN, INT32_MAX]
  unfold closedRingOf
  rw [if_pos (by rfl), h]
  simp [closeRings]

theorem closedRingOf_no_reference :
    closedRingOf (Json.array squareArcs) identityParams (Json.array []) = [] := by
  simp [closedRingOf, json_object_get_type, ParseLineString, arrayItems, closeRings]

theorem C7_witness :
    ParseMultiPolygon [] exMultiPolygonArcs (Json.array squareArcs) identityParams =
      [[[(0, 0), (1, 0), (1, 1), (0, 0)]]] :=
  (C7_multipolygon_omits_empty_polygons exMultiPolygonArcs (Json.array squareArcs)
    identityParams).1.trans (by
      simp only [exMultiPolygonArcs, arrayItems, List.map_cons, List.map_nil,
        json_object_get_type, if_true, closedRingOf_square, closedRingOf_no_reference]
      simp)

/-- C28. For every `Polygon` arcs array, the rings of the polygon built by
`ParsePolygon` are exactly the decoded, closed rings of at least 4 points, in
their original relative order; its first (exterior) ring is the first
surviving ring, so that, when the first entry is discarded as degenerate, the
polygon is the one built from the remaining entries. -/
theorem C28_polygon_ring_order (poArcsObj poArcsDB : Json) (ps : ScalingParams) :
    ParsePolygon [] poArcsObj poArcsDB ps =
      ((arrayItems poArcsObj).map (closedRingOf poArcsDB ps)).filter
        (fun r => decide (4 ≤ r.length)) ∧
    (ParsePolygon [] poArcsObj poArcsDB ps).Sublist
      ((arrayItems poArcsObj).map (closedRingOf poArcsDB ps)) ∧
    (ParsePolygon [] poArcsObj poArcsDB ps).head? =
      ((arrayItems poArcsObj).map (closedRingOf poArcsDB ps)).find?
        (fun r => decide (4 ≤ r.length)) ∧
    (∀ (poRing : Json) (rest : List Json), poArcsObj = Json.array (poRing :: rest) →
      (closedRingOf poArcsDB ps poRing).length < 4 →
      ParsePolygon [] poArcsObj poArcsDB ps = ParsePolygon [] (Json.array rest) poArcsDB ps) := by
  have h := ParsePolygon_eq_filter [] poArcsObj poArcsDB ps
  rw [List.nil_append] at h
  refine ⟨h, ?_, ?_, ?_⟩
  · rw [h]
    exact List.filter_sublist _
  · rw [h, head?_filter_eq_find?]
  · intro poRing rest hobj hlt
    rw [h, hobj, ParsePolygon_eq_filter, List.nil_append]
    simp only [arrayItems, List.map_cons]
    rw [List.filter_cons_of_neg]
    simp only [decide_eq_true_eq]
    omega

theorem C28_witness :
    degenerateFirstRing = Json.array [Json.array [], Json.array [Json.int 0]] ∧
    (closedRingOf (Json.array squareArcs) identityParams (Json.array [])).length < 4 ∧
    ParsePolygon [] degenerateFirstRing (Json.array squareArcs) identityParams =
      [[(0, 0), (1, 0), (1, 1), (0, 0)]] := by
  have hlt : (closedRingOf (Json.array squareArcs) identityParams (Json.array [])).length < 4 := by
    decide
  refine ⟨rfl, hlt, ?_⟩
  rw [(C28_polygon_ring_order degenerateFirstRing (Json.array squareArcs) identityParams).2.2.2
    (Json.array []) [Json.array [Json.int 0]] rfl hlt,
    ParsePolygon_eq_filter]
  simp only [arrayItems, List.map_cons, List.map_nil, List.nil_append, closedRingOf_square]
  rfl

/-! ## The shared layer comes last -/

theorem collectionLayers_eq_map (members : List (Option String × Json)) (poArcs : Json)
    (ps : ScalingParams) :
    collectionLayers members poArcs ps =
      (members.filter (fun m => isCollectionMember m.2)).map
        (fun m => collectionLayer m.1 m.2 poArcs ps) := by
  induction members with
  | nil => rfl
  | cons m t ih =>
    rw [collectionLayers_cons, List.filter_cons, ih]
    by_cases h : isCollectionMember m.2 = true
    · simp [h]
    · simp [h]

/-- C27 (as amended). For every document with an arcs array and at least one
bare geometry member, the shared layer (named `TopoJSON`) is added to the
sink last, after the layers of all `GeometryCollection` members, wherever the
bare members appear among the top-level members; the collection layers are
added in top-level member order. -/
theorem C27_shared_layer_last (poGJObject : Json) (poDS : List OGRGeoJSONLayer)
    (harcs : json_object_get_type (OGRGeoJSONFindMemberByName poGJObject "arcs") =
      json_type_array)
    (hbare : (bareMembers
      (topLevelMembers (OGRGeoJSONFindMemberByName poGJObject "objects"))).isEmpty = false) :
    ReadLayers poGJObject poDS =
      poDS ++
        ((topLevelMembers (OGRGeoJSONFindMemberByName poGJObject "objects")).filter
          (fun m => isCollectionMember m.2)).map
            (fun m => collectionLayer m.1 m.2 (OGRGeoJSONFindMemberByName poGJObject "arcs")
              (ReadLayersTransform poGJObject)) ++
        [sharedLayer (topLevelMembers (OGRGeoJSONFindMemberByName poGJObject "objects"))
          (OGRGeoJSONFindMemberByName poGJObject "arcs") (ReadLayersTransform poGJObject)] ∧
    (ReadLayers poGJObject poDS).getLast? =
      some (sharedLayer (topLevelMembers (OGRGeoJSONFindMemberByName poGJObject "objects"))
        (OGRGeoJSONFindMemberByName poGJObject "arcs") (ReadLayersTransform poGJObject)) ∧
    (sharedLayer (topLevelMembers (OGRGeoJSONFindMemberByName poGJObject "objects"))
      (OGRGeoJSONFindMemberByName poGJObject "arcs") (ReadLayersTransform poGJObject)).name =
      "TopoJSON" := by
  have h := ReadLayers_eq poGJObject poDS harcs
  rw [hbare, collectionLayers_eq_map] at h
  simp only [Bool.false_eq_true, if_false] at h
  refine ⟨h, ?_, (sharedLayer_spec _ _ _).1⟩
  rw [h, List.getLast?_append, List.getLast?_singleton]
  rfl

theorem C27_witness :
    json_object_get_type (OGRGeoJSONFindMemberByName pointThenCollectionDoc "arcs") =
      json_type_array ∧
    (bareMembers (topLevelMembers
      (OGRGeoJSONFindMemberByName pointThenCollectionDoc "objects"))).isEmpty = false ∧
    (ReadLayers pointThenCollectionDoc []).map OGRGeoJSONLayer.name = ["c", "TopoJSON"] :=
  ⟨by decide, by decide,
   by
     rw [(C27_shared_layer_last pointThenCollectionDoc [] (by decide) (by decide)).1]
     decide⟩

/-- C27 fails as stated: the document `docWithoutArcs` has a bare geometry
member, but it has no arcs array and `ReadLayers` adds no layer, hence no
shared layer. -/
theorem C27_counterexample :
    (bareMembers (topLevelMembers
      (OGRGeoJSONFindMemberByName docWithoutArcs "objects"))).isEmpty = false ∧
    (ReadLayers docWithoutArcs []).isEmpty = true := by
  decide

/-! ## The identifier of a feature -/

theorem idFeature_slot_id (pszId : Option String) (poObj : Json) (S : List OGRFieldDefn)
    (i : Nat) (hi : S.findIdx? (fun d => d.name == "id") = some i) :
    (match resolveId pszId poObj with
      | some s => SetFieldByName S (newFeature S) "id" s
      | none => newFeature S).fields[i]? =
      some ((resolveId pszId poObj).map OGRField.string) := by
  obtain ⟨hlt, _⟩ := List.findIdx?_eq_some_iff_getElem.1 hi
  cases hr : resolveId pszId poObj with
  | none =>
    simp [newFeature, List.getElem?_replicate, hlt]
  | some s =>
    simp only [Option.map_some']
    unfold SetFieldByName GetFieldIndex
    rw [hi]
    simp only
    rw [setFieldSlot_natCast]
    apply List.getElem?_set_self
    simp [newFeature, hlt]

/-- The slot of the field `id` of a feature `ParseObject` builds for an object
with no property named `id`: the resolved identifier, unset when there is
none. -/
theorem ParseObjectFeature_id_slot (pszId : Option String) (poObj : Json)
    (poDefn : List OGRFieldDefn) (poArcsDB : Json) (ps : ScalingParams) (poFeature : OGRFeature)
    (i : Nat) (hdefn : poDefn.findIdx? (fun d => d.name == "id") = some i)
    (hprop : "id" ∉ (propertyList poObj).map Prod.fst)
    (hf : ParseObjectFeature pszId poObj poDefn poArcsDB ps = some poFeature) :
    fieldSlot poDefn poFeature "id" = some ((resolveId pszId poObj).map OGRField.string) := by
  unfold fieldSlot
  rw [hdefn, ParseObjectFeature_some _ _ _ _ _ _ hf]
  simp only [List.get?_eq_getElem?]
  rw [ParseObjectAttributes_eq_foldl,
    foldl_ParseObjectProperty_slot_other poDefn "id" i hdefn _ _ hprop]
  exact idFeature_slot_id pszId poObj poDefn i hdefn

/-- C23 (as amended). For every bare geometry object that yields a feature
in a layer having the field `id`, and that has no property named `id`: when
the objects container is a mapping, `ReadLayers` passes the key of the member
and the field `id` of the feature is that key; when the container is an
array, no key is passed and the field `id` is the string form of the `id`
member of the object when that member is a string or an integer, and is left
unset otherwise. -/
theorem C23_feature_id (pszId : Option String) (poObj : Json)
    (poDefn : List OGRFieldDefn) (poArcsDB : Json) (ps : ScalingParams) (poFeature : OGRFeature)
    (i : Nat) (hdefn : poDefn.findIdx? (fun d => d.name == "id") = some i)
    (hprop : "id" ∉ (propertyList poObj).map Prod.fst)
    (hf : ParseObjectFeature pszId poObj poDefn poArcsDB ps = some poFeature) :
    (∀ key : String, pszId = some key →
      fieldSlot poDefn poFeature "id" = some (some (OGRField.string key))) ∧
    (pszId = none →
      (∀ s : String, OGRGeoJSONFindMemberByName poObj "id" = Json.string s →
        fieldSlot poDefn poFeature "id" = some (some (OGRField.string s))) ∧
      (∀ n : Int, OGRGeoJSONFindMemberByName poObj "id" = Json.int n →
        fieldSlot poDefn poFeature "id" = some (some (OGRField.string (toString n)))) ∧
      (json_object_get_type (OGRGeoJSONFindMemberByName poObj "id") ≠ json_type_string →
        json_object_get_type (OGRGeoJSONFindMemberByName poObj "id") ≠ json_type_int →
        fieldSlot poDefn poFeature "id" = some none)) ∧
    (∀ members : List (String × Json),
      topLevelMembers (Json.object members) = members.map (fun kv => (some kv.1, kv.2))) ∧
    (∀ items : List Json,
      topLevelMembers (Json.array items) = items.map (fun v => (none, v))) ∧
    (∀ (m : Option String × Json) (poLayer : OGRGeoJSONLayer), isBareMember m.2 = true →
      ReadLayersSecondPass poArcsDB ps poLayer m = ParseObject m.1 m.2 poLayer poArcsDB ps) := by
  have h := ParseObjectFeature_id_slot pszId poObj poDefn poArcsDB ps poFeature i hdefn hprop hf
  refine ⟨?_, ?_, fun _ => rfl, fun _ => rfl, ?_⟩
  · intro key hk
    rw [h, hk]
    rfl
  · intro hn
    rw [h, hn]
    refine ⟨?_, ?_, ?_⟩
    · intro s hs
      simp [resolveId, hs, json_object_get_type, json_object_get_string]
    · intro n hnn
      simp [resolveId, hnn, json_object_get_type, json_object_get_string]
    · intro h1 h2
      simp [resolveId, h1, h2]
  · intro m poLayer hb
    unfold isBareMember at hb
    simp only [Bool.and_eq_true, decide_eq_true_eq] at hb
    unfold ReadLayersSecondPass ParseObjectMainSecondPass
    simp [hb.1.1, hb.1.2, hb.2]

theorem C23_witness :
    (sealedSchema (discoverScope [objX, objY])).findIdx? (fun d => d.name == "id") = some 0 ∧
    "id" ∉ (propertyList objX).map Prod.fst ∧
    ParseObjectFeature (some "a") objX (sealedSchema (discoverScope [objX, objY]))
      (Json.array []) identityParams = some featX ∧
    fieldSlot (sealedSchema (discoverScope [objX, objY])) featX "id" =
      some (some (OGRField.string "a")) :=
  ⟨by decide, by decide, ParseObjectFeature_objX,
   (C23_feature_id (some "a") objX (sealedSchema (discoverScope [objX, objY])) (Json.array [])
     identityParams featX 0 (by decide) (by decide) ParseObjectFeature_objX).1 "a" rfl⟩

/-- C23 fails as stated: in the document `doubleIdDoc` the objects container
is an array and the `id` member of its point object is the number `1.5`, but
the field `id` of the feature is left unset. -/
theorem C23_counterexample :
    json_object_get_type (OGRGeoJSONFindMemberByName doubleIdObj "id") = json_type_double ∧
    (ReadLayers doubleIdDoc []).map
        (fun l => (l.fieldDefns, l.features.map OGRFeature.fields)) =
      [([{ name := "id", eType := OGRFieldType.OFTString }], [[none]])] := by
  exact ⟨rfl, rfl⟩

/-! ## The points ParseArc leaves in place -/

theorem set_frame {α : Type} (orig l : List α) (k : Nat) (v : α) (h : orig <+: l)
    (hk : orig.length ≤ k) : orig <+: l.set k v := by
  obtain ⟨t, rfl⟩ := h
  rw [List.set_append_right _ _ hk]
  exact List.prefix_append _ _

theorem setNumPoints_frame (orig l : OGRLineString) (z : Int) (h : orig <+: l)
    (hz : (orig.length : Int) ≤ z) : orig <+: setNumPoints l z := by
  obtain ⟨t, rfl⟩ := h
  unfold setNumPoints
  rw [List.take_append_eq_append_take, List.take_of_length_le (by omega), List.append_assoc]
  exact List.prefix_append _ _

theorem setPoint_frame (orig l : OGRLineString) (idx : Int) (x y : ℚ) (h : orig <+: l)
    (hidx : (orig.length : Int) ≤ idx) : orig <+: setPoint l idx x y := by
  unfold setPoint
  rw [if_neg (by omega)]
  split
  · exact set_frame _ _ _ _ (setNumPoints_frame _ _ _ h (by omega)) (by omega)
  · exact set_frame _ _ _ _ h (by omega)

theorem ParseArcWrite_nBaseIndice (bReverse : Bool) (i : Nat) (st : ArcLoopState) (x y : ℚ) :
    (ParseArcWrite bReverse i st x y).nBaseIndice = st.nBaseIndice := by
  unfold ParseArcWrite
  split <;> rfl

theorem ParseArcWrite_frame (orig : OGRLineString) (bReverse : Bool) (i : Nat)
    (st : ArcLoopState) (x y : ℚ) (h : orig <+: st.poLS)
    (hfwd : bReverse = false → (orig.length : Int) ≤ st.nBaseIndice + (i : Int))
    (hrev : bReverse = true →
      (orig.length : Int) ≤ st.nBaseIndice + (st.nPoints : Int) - 1 - (i : Int)) :
    orig <+: (ParseArcWrite bReverse i st x y).poLS := by
  unfold ParseArcWrite
  cases bReverse
  · simp only [Bool.not_false, if_true]
    exact setPoint_frame _ _ _ _ _ h (hfwd rfl)
  · simp only [Bool.not_true, Bool.false_eq_true, if_false]
    exact setPoint_frame _ _ _ _ _ h (hrev rfl)

/-- One pass through the loop body of `ParseArc` keeps the points the line
held before the call, and keeps the base index at or above their count
(forward: from one below it once pair 0 has been passed). -/
theorem ParseArcBody_frame (orig : OGRLineString) (poArcDB : Json) (bReverse : Bool)
    (ps : ScalingParams) (i : Nat) (st : ArcLoopState) (hpre : orig <+: st.poLS)
    (hi : i < st.nPoints)
    (hrev : bReverse = true → (orig.length : Int) ≤ st.nBaseIndice)
    (hfwd : bReverse = false →
      (orig.length : Int) ≤ st.nBaseIndice ∨ (1 ≤ i ∧ (orig.length : Int) ≤ st.nBaseIndice + 1)) :
    match ParseArcBody poArcDB bReverse ps i st with
    | LoopCtl.next st1 =>
      orig <+: st1.poLS ∧ (bReverse = true → (orig.length : Int) ≤ st1.nBaseIndice) ∧
        (bReverse = false → (orig.length : Int) ≤ st1.nBaseIndice ∨
          (1 ≤ i + 1 ∧ (orig.length : Int) ≤ st1.nBaseIndice + 1))
    | LoopCtl.brk st1 => orig <+: st1.poLS := by
  unfold ParseArcBody
  cases hp : ParsePoint (json_object_array_get_idx poArcDB i) with
  | none =>
    simp only
    refine ⟨hpre, hrev, fun hb => ?_⟩
    rcases hfwd hb with h | h
    · exact Or.inl h
    · exact Or.inr ⟨by omega, h.2⟩
  | some q =>
    obtain ⟨x0, y0⟩ := q
    simp only
    cases bReverse
    · have hf := hfwd rfl
      by_cases hi0 : i = 0
      · subst hi0
        have hc : (orig.length : Int) ≤ st.nBaseIndice := by omega
        by_cases hpos : getNumPoints st.poLS > 0
        · cases hE : ps.bElementExists <;>
            simp only [hpos, if_true, if_false, Bool.false_eq_true, Bool.not_false,
              Bool.true_and, decide_True] <;>
            exact ⟨setNumPoints_frame _ _ _ hpre (by omega), fun h => by simp at h,
              fun _ => Or.inr ⟨by omega, by omega⟩⟩
        · cases hE : ps.bElementExists <;>
            simp only [hpos, if_true, if_false, Bool.false_eq_true, Bool.not_false,
              Bool.true_and, Bool.false_and, decide_False, ParseArcWrite_nBaseIndice] <;>
            exact ⟨ParseArcWrite_frame _ _ _ _ _ _
                (setNumPoints_frame _ _ _ hpre (by omega))
                (fun _ => by first | omega | (dsimp only; omega)) (fun h => by simp at h),
              fun h => by simp at h, fun _ => Or.inl hc⟩
      · cases hE : ps.bElementExists <;>
          simp only [hi0, if_true, if_false, Bool.false_eq_true, ParseArcWrite_nBaseIndice] <;>
          exact ⟨ParseArcWrite_frame _ _ _ _ _ _ hpre (fun _ => by first | omega | (dsimp only; omega))
              (fun h => by simp at h),
            fun h => by simp at h, fun _ => Or.inr ⟨by omega, by omega⟩⟩
    · have hr := hrev rfl
      by_cases hi0 : i = 0
      · subst hi0
        by_cases hpos : getNumPoints st.poLS > 0
        · by_cases hn : st.nPoints - 1 = 0
          · cases hE : ps.bElementExists <;>
              simp only [hpos, hn, if_true, if_false, Bool.false_eq_true, Bool.not_true,
                Bool.true_and, Bool.false_and, decide_True] <;>
              exact setNumPoints_frame _ _ _ hpre (by omega)
          · cases hE : ps.bElementExists <;>
              simp only [hpos, hn, if_true, if_false, Bool.false_eq_true, Bool.not_true,
                Bool.true_and, Bool.false_and, decide_True, ParseArcWrite_nBaseIndice] <;>
              exact ⟨ParseArcWrite_frame _ _ _ _ _ _
                  (setNumPoints_frame _ _ _ hpre (by omega))
                  (fun h => by simp at h) (fun _ => by first | omega | (dsimp only; omega)),
                fun _ => hr, fun h => by simp at h⟩
        · cases hE : ps.bElementExists <;>
            simp only [hpos, if_true, if_false, Bool.false_eq_true, Bool.not_true,
              Bool.true_and, Bool.false_and, decide_False, ParseArcWrite_nBaseIndice] <;>
            exact ⟨ParseArcWrite_frame _ _ _ _ _ _
                (setNumPoints_frame _ _ _ hpre (by omega))
                (fun h => by simp at h) (fun _ => by first | omega | (dsimp only; omega)),
              fun _ => hr, fun h => by simp at h⟩
      · cases hE : ps.bElementExists <;>
          simp only [hi0, if_true, if_false, Bool.false_eq_true, ParseArcWrite_nBaseIndice] <;>
          exact ⟨ParseArcWrite_frame _ _ _ _ _ _ hpre (fun h => by simp at h)
              (fun _ => by first | omega | (dsimp only; omega)),
            fun _ => hr, fun h => by simp at h⟩

theorem ParseArcLoop_frame (orig : OGRLineString) (poArcDB : Json) (bReverse : Bool)
    (ps : ScalingParams) :
    ∀ (fuel i : Nat) (st : ArcLoopState), orig <+: st.poLS →
      (bReverse = true → (orig.length : Int) ≤ st.nBaseIndice) →
      (bReverse = false →
        (orig.length : Int) ≤ st.nBaseIndice ∨
          (1 ≤ i ∧ (orig.length : Int) ≤ st.nBaseIndice + 1)) →
      orig <+: ParseArcLoop poArcDB bReverse ps fuel i st := by
  intro fuel
  induction fuel with
  | zero => intro i st hpre _ _; exact hpre
  | succ fuel ih =>
    intro i st hpre hrev hfwd
    unfold ParseArcLoop
    by_cases hi : i < st.nPoints
    · rw [if_pos hi]
      have hb := ParseArcBody_frame orig poArcDB bReverse ps i st hpre hi hrev hfwd
      cases hbody : ParseArcBody poArcDB bReverse ps i st with
      | next st1 =>
        rw [hbody] at hb
        exact ih (i + 1) st1 hb.1 hb.2.1 hb.2.2
      | brk st1 =>
        rw [hbody] at hb
        exact hb
    · rw [if_neg hi]
      exact hpre

/-- The points a line holds before `ParseArc` are a prefix of the line after
it. -/
theorem ParseArc_keeps_points (poLS : OGRLineString) (poArcsDB : Json) (nArcID : Int)
    (bReverse : Bool) (ps : ScalingParams) :
    poLS <+: ParseArc poLS poArcsDB nArcID bReverse ps := by
  unfold ParseArc
  simp only
  generalize (if nArcID < 0 then Json.null
    else json_object_array_get_idx poArcsDB nArcID.toNat) = poArcDB
  split
  · exact List.prefix_refl _
  · apply ParseArcLoop_frame poLS
    · exact List.prefix_refl _
    · intro _
      exact le_refl _
    · intro _
      exact Or.inl (le_refl _)

theorem setPoint_length_of_le (l : OGRLineString) (idx : Int) (x y : ℚ)
    (h : (l.length : Int) ≤ idx) : (setPoint l idx x y).length = idx.toNat + 1 := by
  unfold setPoint getNumPoints
  rw [if_neg (by omega), if_pos h, List.length_set]
  unfold setNumPoints
  rw [List.length_append, List.length_take, List.length_replicate]
  omega

/-- C26. For every line already holding `c` points, every arc store and arc
index (the arc well-formed or not), either direction and every transform,
`ParseArc` never shrinks the line and changes no point at an index below `c`:
the first `c` points of the line after the call are those before it.  For an
arc of well-formed pairs the line ends with exactly the point count the call
reserves (the arc length `n` for an empty line, `c + n - 1` otherwise), so
that no write went at or past the reserved count: a write at or past the end
of a line lengthens it. -/
theorem C26_ParseArc_frame (poLS : OGRLineString) (poArcsDB : Json) (nArcID : Int)
    (bReverse : Bool) (ps : ScalingParams) :
    (ParseArc poLS poArcsDB nArcID bReverse ps).take poLS.length = poLS ∧
    poLS.length ≤ (ParseArc poLS poArcsDB nArcID bReverse ps).length ∧
    (∀ i : Nat, i < poLS.length →
      (ParseArc poLS poArcsDB nArcID bReverse ps)[i]? = poLS[i]?) ∧
    (∀ (arcs items : List Json), poArcsDB = Json.array arcs → 0 ≤ nArcID →
      arcs.getD nArcID.toNat Json.null = Json.array items →
      (∀ p ∈ items, wellFormedPair p = true) →
      (ParseArc poLS poArcsDB nArcID bReverse ps).length =
        if poLS = [] then items.length else poLS.length + (items.length - 1)) ∧
    (∀ (l : OGRLineString) (idx : Int) (x y : ℚ), (l.length : Int) ≤ idx →
      (setPoint l idx x y).length = idx.toNat + 1) := by
  have hpre := ParseArc_keeps_points poLS poArcsDB nArcID bReverse ps
  refine ⟨(List.prefix_iff_eq_take.1 hpre).symm, hpre.length_le, ?_, ?_, setPoint_length_of_le⟩
  · intro i hi
    obtain ⟨t, ht⟩ := hpre
    rw [← ht, List.getElem?_append_left hi]
  · intro arcs items harcs hid harc hwf
    rw [harcs, ParseArc_wellFormed ps poLS arcs nArcID bReverse items hid harc hwf]
    by_cases he : poLS = []
    · rw [if_pos he, if_pos he, he]
      cases bReverse <;> simp [specDecodeFrom_length]
    · rw [if_neg he, if_neg he, List.length_append]
      cases bReverse <;> simp [specDecodeFrom_length]

theorem C26_witness :
    (0 : Int) ≤ 1 ∧
    exArcs.getD (1 : Int).toNat Json.null =
      Json.array [exPair 5 5, exPair 1 1, exPair 1 1] ∧
    (ParseArc [(7, 7)] (Json.array exArcs) 1 true exParams).take 1 = [(7, 7)] ∧
    (ParseArc [(7, 7)] (Json.array exArcs) 1 true exParams).length = 3 :=
  ⟨by decide, rfl,
   (C26_ParseArc_frame [(7, 7)] (Json.array exArcs) 1 true exParams).1,
   ((C26_ParseArc_frame [(7, 7)] (Json.array exArcs) 1 true exParams).2.2.2.1 exArcs
     [exPair 5 5, exPair 1 1, exPair 1 1] rfl (by decide) rfl
     (by intro p hp; simp only [List.mem_cons, List.mem_singleton, List.mem_nil_iff,
       or_false] at hp; rcases hp with h | h | h <;> rw [h] <;> rfl)).trans (by simp)⟩

/-! ## The field id comes first -/

/-- The scope after an object that lists a property named `id` after the
property `a`: the edge from `a` to `id`, which would close a cycle, is not
recorded, and the layer `ReadLayers` produces for the document has the
fields `id`, `a`. -/
theorem sealedNames_id_after :
    propertyList idAfterObj = [("a", Json.int 1), ("id", Json.int 2)] ∧
    (discoverScope [idAfterObj]).dag.edges = [(0, 1)] ∧
    sealedNames (discoverScope [idAfterObj]) = ["id", "a"] ∧
    (ReadLayers idAfterDoc []).map (fun l => l.fieldDefns.map OGRFieldDefn.name) =
      [["id", "a"]] := by
  refine ⟨rfl, by decide, by decide, by decide⟩

/-- The scope after an object whose properties are `id`, then `a`: the edge
from `id` to itself is not recorded. -/
theorem sealedNames_id_property :
    propertyList objIdA = [("id", Json.int 7), ("a", Json.int 1)] ∧
    (discoverScope [objIdA]).dag.edges = [(0, 1)] ∧
    sortedFields (discoverScope [objIdA]) = [0, 1] ∧
    sealedNames (discoverScope [objIdA]) = ["id", "a"] := by
  refine ⟨rfl, by decide, by decide, by decide⟩

end TopoJSON
